import Mathlib

/-!
# scanlineraster: a verification development

Shallow embedding of `src/math.cpp` (vectors, 4x4 matrix) and
`src/source/rasterize.cpp` (back-face test, visibility test, scan conversion,
triangle fill, line clipping, line drawing).

Modelling conventions

* `float` values are rationals (`ℚ`), and the float code is embedded twice.
  In the first embedding (exact arithmetic) every arithmetic operation is the
  mathematical one, without rounding.  In the second embedding (the
  definitions whose names end in `_r`) every float addition, subtraction,
  multiplication and division is rounded by a function `rnd`, in the order in
  which the source evaluates them; `round32` is the rounding of binary32
  (round to nearest, ties to even, gradual underflow), and with `rnd = id` the
  second embedding is the first.  Infinities and NaN are outside both:
  division by zero yields zero (the convention of `ℚ`), where the C++ float
  yields an infinity or NaN.
* `int32_t` values are integers (`Int`); the conversion `int32_t(f)` of a
  float truncates toward zero, and a value outside the `int32_t` range
  converts to `-2^31` (the result of the x86 conversion instruction);
  `x += idx` on `int32_t` wraps modulo `2^32`; `x >> 16` is the arithmetic
  shift.
* Arrays and the pixel memory are functions from the index to the value;
  a store is a functional update.  The three vertices
  `std::array<vec2f_t, 3>` are a triple.  The uninitialised span tables of
  `scan_triangle` are parameters: their initial contents are arbitrary.
* The library functions `sinf`, `cosf` and `sqrtf` are parameters of the
  functions that call them; the theorems state what they assume of them.
* `__assume` and `assert` have no run-time effect.
-/

namespace Raster

/-! ## `math.h` : vectors -/

/-- Two-wide vector `vec2f_t`. -/
structure vec2f_t where
  x : ℚ
  y : ℚ
deriving DecidableEq, Repr

/-- Three-wide vector `vec3f_t`. -/
structure vec3f_t where
  x : ℚ
  y : ℚ
  z : ℚ
deriving DecidableEq, Repr

/-- Four-wide vector `vec4f_t`. -/
structure vec4f_t where
  x : ℚ
  y : ℚ
  z : ℚ
  w : ℚ
deriving DecidableEq, Repr

/-- `util_t::lerp(a, b, k)`. -/
def util_lerp (a b k : ℚ) : ℚ := ((1 - k) * a) + (k * b)

/-- `vec2f_t::lerp(a, b, i)`. -/
def vec2f_t.lerp (a b : vec2f_t) (i : ℚ) : vec2f_t :=
  ⟨util_lerp a.x b.x i, util_lerp a.y b.y i⟩

/-! ## `math.cpp` : `matrix_t` -/

/-- The matrix `matrix_t`: the sixteen floats `e[16]`. -/
structure matrix_t where
  e : Fin 16 → ℚ

/-- The index macro `MAT(x, y) = e[x * 4 + y]`. -/
def MAT (x y : Fin 4) : Fin 16 := ⟨x.val * 4 + y.val, by omega⟩

/-- `matrix_t::identity`: `memset` to zero, then ones at 0x0, 0x5, 0xa, 0xf.
The previous contents are not read. -/
def matrix_t.identity (_m : matrix_t) : matrix_t :=
  ⟨fun i => if i = 0x0 ∨ i = 0x5 ∨ i = 0xa ∨ i = 0xf then 1 else 0⟩

/-- Body of the 4-wide `matrix_t::transform` loop: the value stored in `out[q]`
for the source vector `s = in[q]`. -/
def matrix_t.apply4 (m : matrix_t) (s : vec4f_t) : vec4f_t :=
  { x := s.x * m.e (MAT 0 0) + s.y * m.e (MAT 1 0) + s.z * m.e (MAT 2 0) + s.w * m.e (MAT 3 0)
    y := s.x * m.e (MAT 0 1) + s.y * m.e (MAT 1 1) + s.z * m.e (MAT 2 1) + s.w * m.e (MAT 3 1)
    z := s.x * m.e (MAT 0 2) + s.y * m.e (MAT 1 2) + s.z * m.e (MAT 2 2) + s.w * m.e (MAT 3 2)
    w := s.x * m.e (MAT 0 3) + s.y * m.e (MAT 1 3) + s.z * m.e (MAT 2 3) + s.w * m.e (MAT 3 3) }

/-- Body of the 3-wide `matrix_t::transform` loop. -/
def matrix_t.apply3 (m : matrix_t) (s : vec3f_t) : vec3f_t :=
  { x := s.x * m.e (MAT 0 0) + s.y * m.e (MAT 1 0) + s.z * m.e (MAT 2 0)
    y := s.x * m.e (MAT 0 1) + s.y * m.e (MAT 1 1) + s.z * m.e (MAT 2 1)
    z := s.x * m.e (MAT 0 2) + s.y * m.e (MAT 1 2) + s.z * m.e (MAT 2 2) }

/-- The loop `for (q = 0; q < num_verts; ++q) out[q] = body(in[q])`, as
`todo` remaining iterations starting at index `q`. -/
def transform_loop {α : Type} (body : α → α) (inp : Nat → α) :
    Nat → Nat → (Nat → α) → (Nat → α)
  | 0, _, out => out
  | todo + 1, q, out =>
      transform_loop body inp todo (q + 1) (fun i => if i = q then body (inp q) else out i)

/-- `matrix_t::transform(num_verts, in, out)`, 4-wide overload; returns the
output array after the call. -/
def matrix_t.transform4 (m : matrix_t) (num_verts : Nat) (inp out : Nat → vec4f_t) :
    Nat → vec4f_t :=
  transform_loop m.apply4 inp num_verts 0 out

/-- `matrix_t::transform(num_verts, in, out)`, 3-wide overload. -/
def matrix_t.transform3 (m : matrix_t) (num_verts : Nat) (inp out : Nat → vec3f_t) :
    Nat → vec3f_t :=
  transform_loop m.apply3 inp num_verts 0 out

/-- The local array `inv[16]` of `matrix_t::invert` (the cofactors). -/
def matrix_t.cofactors (m : matrix_t) : Fin 16 → ℚ :=
  let e := m.e
  fun i => match i with
  | 0 => e 5 * e 10 * e 15 - e 5 * e 11 * e 14 - e 9 * e 6 * e 15 +
      e 9 * e 7 * e 14 + e 13 * e 6 * e 11 - e 13 * e 7 * e 10
  | 1 => -e 1 * e 10 * e 15 + e 1 * e 11 * e 14 + e 9 * e 2 * e 15 -
      e 9 * e 3 * e 14 - e 13 * e 2 * e 11 + e 13 * e 3 * e 10
  | 2 => e 1 * e 6 * e 15 - e 1 * e 7 * e 14 - e 5 * e 2 * e 15 +
      e 5 * e 3 * e 14 + e 13 * e 2 * e 7 - e 13 * e 3 * e 6
  | 3 => -e 1 * e 6 * e 11 + e 1 * e 7 * e 10 + e 5 * e 2 * e 11 -
      e 5 * e 3 * e 10 - e 9 * e 2 * e 7 + e 9 * e 3 * e 6
  | 4 => -e 4 * e 10 * e 15 + e 4 * e 11 * e 14 + e 8 * e 6 * e 15 -
      e 8 * e 7 * e 14 - e 12 * e 6 * e 11 + e 12 * e 7 * e 10
  | 5 => e 0 * e 10 * e 15 - e 0 * e 11 * e 14 - e 8 * e 2 * e 15 +
      e 8 * e 3 * e 14 + e 12 * e 2 * e 11 - e 12 * e 3 * e 10
  | 6 => -e 0 * e 6 * e 15 + e 0 * e 7 * e 14 + e 4 * e 2 * e 15 -
      e 4 * e 3 * e 14 - e 12 * e 2 * e 7 + e 12 * e 3 * e 6
  | 7 => e 0 * e 6 * e 11 - e 0 * e 7 * e 10 - e 4 * e 2 * e 11 +
      e 4 * e 3 * e 10 + e 8 * e 2 * e 7 - e 8 * e 3 * e 6
  | 8 => e 4 * e 9 * e 15 - e 4 * e 11 * e 13 - e 8 * e 5 * e 15 +
      e 8 * e 7 * e 13 + e 12 * e 5 * e 11 - e 12 * e 7 * e 9
  | 9 => -e 0 * e 9 * e 15 + e 0 * e 11 * e 13 + e 8 * e 1 * e 15 -
      e 8 * e 3 * e 13 - e 12 * e 1 * e 11 + e 12 * e 3 * e 9
  | 10 => e 0 * e 5 * e 15 - e 0 * e 7 * e 13 - e 4 * e 1 * e 15 +
      e 4 * e 3 * e 13 + e 12 * e 1 * e 7 - e 12 * e 3 * e 5
  | 11 => -e 0 * e 5 * e 11 + e 0 * e 7 * e 9 + e 4 * e 1 * e 11 -
      e 4 * e 3 * e 9 - e 8 * e 1 * e 7 + e 8 * e 3 * e 5
  | 12 => -e 4 * e 9 * e 14 + e 4 * e 10 * e 13 + e 8 * e 5 * e 14 -
      e 8 * e 6 * e 13 - e 12 * e 5 * e 10 + e 12 * e 6 * e 9
  | 13 => e 0 * e 9 * e 14 - e 0 * e 10 * e 13 - e 8 * e 1 * e 14 +
      e 8 * e 2 * e 13 + e 12 * e 1 * e 10 - e 12 * e 2 * e 9
  | 14 => -e 0 * e 5 * e 14 + e 0 * e 6 * e 13 + e 4 * e 1 * e 14 -
      e 4 * e 2 * e 13 - e 12 * e 1 * e 6 + e 12 * e 2 * e 5
  | 15 => e 0 * e 5 * e 10 - e 0 * e 6 * e 9 - e 4 * e 1 * e 10 +
      e 4 * e 2 * e 9 + e 8 * e 1 * e 6 - e 8 * e 2 * e 5
  | ⟨_ + 16, h⟩ => absurd h (by omega)

/-- The local `det` of `matrix_t::invert` before it is replaced by its
reciprocal: `e[0]*inv[0] + e[1]*inv[4] + e[2]*inv[8] + e[3]*inv[12]`. -/
def matrix_t.det (m : matrix_t) : ℚ :=
  m.e 0 * m.cofactors 0 + m.e 1 * m.cofactors 4 + m.e 2 * m.cofactors 8 +
    m.e 3 * m.cofactors 12

/-- `matrix_t::invert(out)`: returns the boolean result and the contents of
`out` after the call. -/
def matrix_t.invert (m : matrix_t) (out : matrix_t) : Bool × matrix_t :=
  let inv := m.cofactors
  let det := m.det
  if det = 0 then (false, out)
  else
    let det := 1 / det
    (true, ⟨fun i => inv i * det⟩)

/-- The 4x4 matrix a `matrix_t` stands for under the row-vector convention of
`transform` (`out_j = Σ_i s_i * MAT(i, j)`). -/
def matrix_t.toMatrix (m : matrix_t) : Matrix (Fin 4) (Fin 4) ℚ :=
  Matrix.of fun i j => m.e (MAT i j)

/-! ## `rasterize.cpp` : integer helpers -/

/-- Two's complement wrap of an integer into the `int32_t` range. -/
def wrap32 (z : Int) : Int := (z + 2147483648) % 4294967296 - 2147483648

/-- Truncation of a float toward zero. -/
def truncf (f : ℚ) : Int := if 0 ≤ f then ⌊f⌋ else ⌈f⌉

/-- The conversion `int32_t(f)`. -/
def to_int32 (f : ℚ) : Int :=
  let t := truncf f
  if -2147483648 ≤ t ∧ t ≤ 2147483647 then t else -2147483648

/-- `minv(a, b)`. -/
def minv (a b : Int) : Int := if a < b then a else b

/-- `maxv(a, b)`. -/
def maxv (a b : Int) : Int := if a > b then a else b

/-- `clampv(lo, v, hi)`. -/
def clampv (lo v hi : Int) : Int := minv hi (maxv lo v)

/-! ## `rasterize.cpp` : visibility -/

/-- `is_backface(a, b, c)`. -/
def is_backface (a b c : vec2f_t) : Bool :=
  let v1 := a.x - b.x
  let v2 := a.y - b.y
  let w1 := c.x - b.x
  let w2 := c.y - b.y
  decide (0 > v1 * w2 - v2 * w1)

/-! ## `rasterize.cpp` : pixel buffer -/

/-- The fields of `SDL_Surface` the rasteriser uses: width and height in
pixels, `pitch` in bytes, and the pixel memory addressed as `uint32_t`
offsets from `surf->pixels`. -/
structure SDL_Surface where
  w : Int
  h : Int
  pitch : Int
  pixels : Int → Nat

/-- `plot(surf, x, y, rgb)`. -/
def plot (surf : SDL_Surface) (x y : Int) (rgb : Nat) : SDL_Surface :=
  if (x : ℚ) < 0 ∨ (y : ℚ) < 0 ∨ x ≥ surf.w ∨ y ≥ surf.h then surf
  else { surf with pixels := fun i => if i = x + y * surf.w then rgb else surf.pixels i }

/-! ## `rasterize.cpp` : scan conversion -/

/-- The template parameter `clip_span_t`. -/
inductive clip_span_t where
  | CLIP_SPAN_MIN_X
  | CLIP_SPAN_MAX_X
deriving DecidableEq, Repr

/-- The constant `screen_w` of `scan_convert`. -/
def screen_w : Int := 511

/-- The constant `screen_h` of `scan_convert`. -/
def screen_h : Int := 511

/-- The value a scan loop stores in `span[y]` for the accumulator `x`:
`std::max(x >> 16, 0)` for `CLIP_SPAN_MAX_X`, `std::min(x >> 16, screen_w)` for
`CLIP_SPAN_MIN_X`. -/
def span_value : clip_span_t → Int → Int
  | .CLIP_SPAN_MAX_X, x => max (x >>> (16 : Nat)) 0
  | .CLIP_SPAN_MIN_X, x => min (x >>> (16 : Nat)) screen_w

/-- The loop `for (y = iay; y <= iby; ++y, x += idx) span[y] = ...` of
`scan_convert`, as `todo` remaining iterations from row `y` with
accumulator `x`. -/
def scan_loop (clip : clip_span_t) (idx : Int) :
    Nat → Int → Int → (Int → Int) → (Int → Int)
  | 0, _, _, span => span
  | todo + 1, y, x, span =>
      scan_loop clip idx todo (y + 1) (wrap32 (x + idx))
        (fun i => if i = y then span_value clip x else span i)

/-- `scan_convert<CLIP>(a, b, span)`: returns the span table after the call. -/
def scan_convert (clip : clip_span_t) (a b : vec2f_t) (span : Int → Int) : Int → Int :=
  if b.y < 0 ∨ a.y > (screen_h : ℚ) then span
  else if b.y ≤ a.y then span
  else
    let dx := (b.x - a.x) / (b.y - a.y)
    let a1 : vec2f_t :=
      if a.y < 0 then ⟨a.x + dx * (0 - a.y), 0⟩
      else
        let ceily : ℚ := ⌈a.y⌉
        ⟨a.x + dx * (ceily - a.y), ceily⟩
    let iay := maxv (to_int32 a1.y) 0
    let iby := minv (to_int32 b.y) screen_h
    let x := to_int32 (a1.x * 65536)
    let idx := to_int32 (dx * 65536)
    scan_loop clip idx (iby + 1 - iay).toNat iay x span

/-! ## `rasterize.cpp` : triangle fill -/

/-- The three compare-and-swap steps at the head of `scan_triangle`. -/
def sort3 (v : vec2f_t × vec2f_t × vec2f_t) : vec2f_t × vec2f_t × vec2f_t :=
  let v := if v.2.1.y < v.1.y then (v.2.1, v.1, v.2.2) else v
  let v := if v.2.2.y < v.1.y then (v.2.2, v.2.1, v.1) else v
  let v := if v.2.2.y < v.2.1.y then (v.1, v.2.2, v.2.1) else v
  v

/-- The inner loop `for (x = lo[y]; x < hi[y]; ++x, ++px) *px = rgb`, as
`todo` remaining stores from the offset `px`. -/
def raster_scanline (rgb : Nat) : Nat → Int → (Int → Nat) → (Int → Nat)
  | 0, _, mem => mem
  | todo + 1, px, mem =>
      raster_scanline rgb todo (px + 1) (fun i => if i = px then rgb else mem i)

/-- The outer loop `for (y = y0; y <= y1; ++y)` of the fill, as `todo`
remaining rows from row `y` with row pointer `py`; `stride` is
`surf->pitch / 4`. -/
def fill_rows (lo hi : Int → Int) (stride : Int) (rgb : Nat) :
    Nat → Int → Int → (Int → Nat) → (Int → Nat)
  | 0, _, _, mem => mem
  | todo + 1, y, py, mem =>
      fill_rows lo hi stride rgb todo (y + 1) (py + stride)
        (raster_scanline rgb (hi y - lo y).toNat (py + lo y) mem)

/-- The span tables `lo` and `hi` of `scan_triangle` after its three
`scan_convert` calls, for the sorted vertices `v` and the side values `d1`,
`d2`; `lo0` and `hi0` are the tables' uninitialised contents. -/
def scan_edges (v : vec2f_t × vec2f_t × vec2f_t) (d1 d2 : ℚ) (lo0 hi0 : Int → Int) :
    (Int → Int) × (Int → Int) :=
  if d1 > d2 then
    let hi := scan_convert .CLIP_SPAN_MIN_X v.1 v.2.2 hi0
    let lo := scan_convert .CLIP_SPAN_MAX_X v.1 v.2.1 lo0
    let lo := scan_convert .CLIP_SPAN_MAX_X v.2.1 v.2.2 lo
    (lo, hi)
  else
    let lo := scan_convert .CLIP_SPAN_MAX_X v.1 v.2.2 lo0
    let hi := scan_convert .CLIP_SPAN_MIN_X v.1 v.2.1 hi0
    let hi := scan_convert .CLIP_SPAN_MIN_X v.2.1 v.2.2 hi
    (lo, hi)

/-- `scan_triangle(surf, v, rgb)`: returns the boolean result and the surface
after the call; `lo0` and `hi0` are the uninitialised contents of the local
arrays `lo` and `hi`. -/
def scan_triangle (surf : SDL_Surface) (v : vec2f_t × vec2f_t × vec2f_t) (rgb : Nat)
    (lo0 hi0 : Int → Int) : Bool × SDL_Surface :=
  let v := sort3 v
  let nx := v.2.2.y - v.1.y
  let ny := v.1.x - v.2.2.x
  let d1 := v.1.x * nx + v.1.y * ny
  let d2 := v.2.1.x * nx + v.2.1.y * ny
  if d1 = d2 then (false, surf)
  else
    let tables := scan_edges v d1 d2 lo0 hi0
    let lo := tables.1
    let hi := tables.2
    let y0 := max (to_int32 (⌈v.1.y⌉ : ℚ)) 0
    let y1 := min (to_int32 v.2.2.y) 511
    let py := Int.tdiv (y0 * surf.pitch) 4
    (true, { surf with
      pixels := fill_rows lo hi (Int.tdiv surf.pitch 4) rgb (y1 + 1 - y0).toNat y0 py
        surf.pixels })

/-! ## `rasterize.cpp` : line clipping and drawing -/

/-- `CLIP_X_LO`. -/
def CLIP_X_LO : Nat := 1
/-- `CLIP_X_HI`. -/
def CLIP_X_HI : Nat := 2
/-- `CLIP_Y_LO`. -/
def CLIP_Y_LO : Nat := 4
/-- `CLIP_Y_HI`. -/
def CLIP_Y_HI : Nat := 8

/-- `min_x` of `clip_line`. -/
def min_x : ℚ := 8
/-- `min_y` of `clip_line`. -/
def min_y : ℚ := 8
/-- `max_x` of `clip_line`. -/
def max_x : ℚ := 504
/-- `max_y` of `clip_line`. -/
def max_y : ℚ := 504

/-- The lambda `classify_x` of `clip_line`. -/
def classify_x (p : vec2f_t) : Nat :=
  (if p.x < min_x then CLIP_X_LO else 0) ||| (if p.x > max_x then CLIP_X_HI else 0)

/-- The lambda `classify_y` of `clip_line`. -/
def classify_y (p : vec2f_t) : Nat :=
  (if p.y < min_y then CLIP_Y_LO else 0) ||| (if p.y > max_y then CLIP_Y_HI else 0)

/-- The lambda `classify` of `clip_line`. -/
def classify (p : vec2f_t) : Nat := classify_x p ||| classify_y p

/-- The lambda `clip_y_lo`: returns `va` after the call. -/
def clip_y_lo (cl : Nat) (va vb : vec2f_t) : vec2f_t :=
  if cl &&& CLIP_Y_LO ≠ 0 then
    let dx := (vb.x - va.x) / (vb.y - va.y)
    ⟨va.x + dx * (min_y - va.y), min_y⟩
  else va

/-- The lambda `clip_y_hi`: returns `va` after the call. -/
def clip_y_hi (cl : Nat) (va vb : vec2f_t) : vec2f_t :=
  if cl &&& CLIP_Y_HI ≠ 0 then
    let dx := (vb.x - va.x) / (vb.y - va.y)
    ⟨va.x - dx * (va.y - max_y), max_y⟩
  else va

/-- The lambda `clip_x_lo`: returns `va` after the call. -/
def clip_x_lo (cl : Nat) (va vb : vec2f_t) : vec2f_t :=
  if cl &&& CLIP_X_LO ≠ 0 then
    let dy := (vb.y - va.y) / (vb.x - va.x)
    ⟨min_x, va.y + dy * (min_x - va.x)⟩
  else va

/-- The lambda `clip_x_hi`: returns `va` after the call. -/
def clip_x_hi (cl : Nat) (va vb : vec2f_t) : vec2f_t :=
  if cl &&& CLIP_X_HI ≠ 0 then
    let dy := (vb.y - va.y) / (vb.x - va.x)
    ⟨max_x, va.y - dy * (va.x - max_x)⟩
  else va

/-- `clip_line(a, b)`: returns the boolean result ("fully clipped") and the
two endpoints after the call. -/
def clip_line (a b : vec2f_t) : Bool × vec2f_t × vec2f_t :=
  let ca := classify a
  let cb := classify b
  if 0 = (ca ||| cb) then (false, a, b)
  else
    let code := ca &&& cb
    if code &&& CLIP_X_LO ≠ 0 ∨ code &&& CLIP_X_HI ≠ 0 ∨ code &&& CLIP_Y_LO ≠ 0 ∨
        code &&& CLIP_Y_HI ≠ 0 then (true, a, b)
    else
      let a := clip_x_lo ca a b
      let a := clip_x_hi ca a b
      let b := clip_x_lo cb b a
      let b := clip_x_hi cb b a
      let ca2 := classify_y a
      let a := clip_y_lo ca2 a b
      let a := clip_y_hi ca2 a b
      let cb2 := classify_y b
      let b := clip_y_lo cb2 b a
      let b := clip_y_hi cb2 b a
      (false, a, b)

/-- The raster loop `for (x = iax; x < ibx; ++x, y += iy) plot(surf, x, y >> 16, rgb)`
of the x-major branch of `draw_line`. -/
def line_loop_x (rgb : Nat) (iy : Int) : Nat → Int → Int → SDL_Surface → SDL_Surface
  | 0, _, _, surf => surf
  | todo + 1, x, y, surf =>
      line_loop_x rgb iy todo (x + 1) (wrap32 (y + iy)) (plot surf x (y >>> (16 : Nat)) rgb)

/-- The raster loop `for (y = iay; y < iby; ++y, x += ix) plot(surf, x >> 16, y, rgb)`
of the y-major branch of `draw_line`. -/
def line_loop_y (rgb : Nat) (ix : Int) : Nat → Int → Int → SDL_Surface → SDL_Surface
  | 0, _, _, surf => surf
  | todo + 1, y, x, surf =>
      line_loop_y rgb ix todo (y + 1) (wrap32 (x + ix)) (plot surf (x >>> (16 : Nat)) y rgb)

/-- `draw_line(surf, a, b, rgb)` (the clipping version): returns the surface
after the call. -/
def draw_line (surf : SDL_Surface) (a b : vec2f_t) (rgb : Nat) : SDL_Surface :=
  let r := clip_line a b
  if r.1 = true then surf
  else
    let a := r.2.1
    let b := r.2.2
    let dx := b.x - a.x
    let dy := b.y - a.y
    let adx := |dx|
    let ady := |dy|
    let fract : ℚ := 65536
    if |dx| > |dy| then
      let s := if b.x < a.x then (b, a) else (a, b)
      let a := s.1
      let b := s.2
      let ndy := (b.y - a.y) / adx
      let fx : ℚ := ⌊a.x⌋
      let a : vec2f_t := ⟨fx - 1, a.y - ndy * (a.x - fx)⟩
      let iy := to_int32 (ndy * fract)
      let y := to_int32 (a.y * fract)
      let iax := to_int32 a.x
      let ibx := to_int32 b.x
      line_loop_x rgb iy (ibx - iax).toNat iax y surf
    else
      let s := if b.y < a.y then (b, a) else (a, b)
      let a := s.1
      let b := s.2
      let ndx := (b.x - a.x) / ady
      let ix := to_int32 (ndx * fract)
      let x := to_int32 (a.x * fract)
      let fy : ℚ := ⌊a.y⌋
      let a : vec2f_t := ⟨a.x - ndx * (a.y - fy), fy⟩
      let iay := to_int32 a.y
      let iby := to_int32 b.y
      line_loop_y rgb ix (iby - iay).toNat iay x surf

/-! ## `math.cpp` : the other matrix builders, conversions and products -/

/-- The assignment `MAT(x, y) = v`. -/
def matrix_t.set (m : matrix_t) (x y : Fin 4) (v : ℚ) : matrix_t :=
  ⟨fun i => if i = MAT x y then v else m.e i⟩

/-- `matrix_t::frustum(l, r, b, t, n, f)`: the sixteen assignments in the order of
the source. -/
def matrix_t.frustum (m : matrix_t) (l r b t n f : ℚ) : matrix_t :=
  let m := m.set 0 0 ((2 * n) / (r - l))
  let m := m.set 0 1 0
  let m := m.set 0 2 0
  let m := m.set 0 3 0
  let m := m.set 1 0 0
  let m := m.set 1 1 ((2 * n) / (t - b))
  let m := m.set 1 2 0
  let m := m.set 1 3 0
  let m := m.set 2 0 ((r + l) / (r - l))
  let m := m.set 2 1 ((t + b) / (t - b))
  let m := m.set 2 2 (-(f + n) / (f - n))
  let m := m.set 2 3 (-1)
  let m := m.set 3 0 0
  let m := m.set 3 1 0
  let m := m.set 3 2 (-(2 * f * n) / (f - n))
  let m := m.set 3 3 0
  m

/-- `matrix_t::rotate(a, b, c)`.  The library functions `sinf` and `cosf` are
parameters. -/
def matrix_t.rotate (sinf cosf : ℚ → ℚ) (m : matrix_t) (a b c : ℚ) : matrix_t :=
  let sa := sinf a
  let ca := cosf a
  let sb := sinf b
  let cb := cosf b
  let sc := sinf c
  let cc := cosf c
  let m := m.set 0 0 (cc * cb)
  let m := m.set 0 1 (ca * sc * cb + sa * sb)
  let m := m.set 0 2 (sa * sc * cb - ca * sb)
  let m := m.set 0 3 0
  let m := m.set 1 0 (-sc)
  let m := m.set 1 1 (ca * cc)
  let m := m.set 1 2 (sa * cc)
  let m := m.set 1 3 0
  let m := m.set 2 0 (cc * sb)
  let m := m.set 2 1 (ca * sc * sb - sa * cb)
  let m := m.set 2 2 (sa * sc * sb + ca * cb)
  let m := m.set 2 3 0
  let m := m.set 3 0 0
  let m := m.set 3 1 0
  let m := m.set 3 2 0
  let m := m.set 3 3 1
  m

/-- `vec3(const vec4f_t &v)`: the division by `w`. -/
def vec3_of_vec4 (v : vec4f_t) : vec3f_t :=
  let iw := 1 / v.w
  ⟨v.x * iw, v.y * iw, v.z * iw⟩

/-- The dot product `operator*(const vec3f_t &, const vec3f_t &)`. -/
def vec3f_t.dot (a b : vec3f_t) : ℚ := a.x * b.x + a.y * b.y + a.z * b.z

/-- The upper 3x3 block of a `matrix_t`, in the convention of `toMatrix`. -/
def matrix_t.block3 (m : matrix_t) : Matrix (Fin 3) (Fin 3) ℚ :=
  Matrix.of fun i j => m.e (MAT i.castSucc j.castSucc)

/-! ## `rasterize.cpp` : `tri_vis` and `draw_tri` -/

/-- The lambda `classify` of `tri_vis`. -/
def tri_classify (p : vec2f_t) : Nat :=
  (if p.x < 0 then 1 else 0) ||| (if p.x > 1 then 2 else 0) ||| (if p.y < 0 then 4 else 0) |||
    (if p.y > 1 then 8 else 0)

/-- The local struct `plane_t` of `tri_vis`. -/
structure plane_t where
  nx : ℚ
  ny : ℚ
  d : ℚ

/-- The constructor `plane_t(a, b)`. -/
def plane_t.make (a b : vec2f_t) : plane_t :=
  { nx := b.y - a.y
    ny := a.x - b.x
    d := a.x * (b.y - a.y) + a.y * (a.x - b.x) }

/-- `plane_t::test(p)`. -/
def plane_t.test (pl : plane_t) (p : vec2f_t) : Bool :=
  decide (pl.d > (p.x * pl.nx + p.y * pl.ny))

/-- The array `ndc` of `tri_vis`: the corners of the unit square. -/
def ndc : Fin 4 → vec2f_t
  | 0 => ⟨0, 0⟩
  | 1 => ⟨1, 0⟩
  | 2 => ⟨0, 1⟩
  | 3 => ⟨1, 1⟩

/-- `tri_vis(a, b, c)`. -/
def tri_vis (a b c : vec2f_t) : Bool :=
  let ca := tri_classify a
  let cb := tri_classify b
  let cc := tri_classify c
  if 0 = (ca ||| cb ||| cc) then true
  else
    let code := ca &&& cb &&& cc
    if code &&& 1 ≠ 0 ∨ code &&& 2 ≠ 0 ∨ code &&& 4 ≠ 0 ∨ code &&& 8 ≠ 0 then false
    else if is_backface a b c then false
    else
      let pab := plane_t.make a b
      if pab.test (ndc 0) && pab.test (ndc 1) && pab.test (ndc 2) && pab.test (ndc 3) then false
      else
        let pbc := plane_t.make b c
        if pbc.test (ndc 0) && pbc.test (ndc 1) && pbc.test (ndc 2) && pbc.test (ndc 3) then
          false
        else
          let pca := plane_t.make c a
          if pca.test (ndc 0) && pca.test (ndc 1) && pca.test (ndc 2) && pca.test (ndc 3) then
            false
          else true

/-- `draw_tri(surf, t, rgb)`: returns the surface after the call; `lo0` and
`hi0` are the uninitialised span tables of the `scan_triangle` call. -/
def draw_tri (surf : SDL_Surface) (t : vec4f_t × vec4f_t × vec4f_t) (rgb : Nat)
    (lo0 hi0 : Int → Int) : SDL_Surface :=
  let tri : vec2f_t × vec2f_t × vec2f_t :=
    (⟨t.1.x, t.1.y⟩, ⟨t.2.1.x, t.2.1.y⟩, ⟨t.2.2.x, t.2.2.y⟩)
  if !is_backface tri.1 tri.2.2 tri.2.1 then (scan_triangle surf tri rgb lo0 hi0).2
  else surf

/-! ## Floats with rounding -/

/-- A `float` value whose arithmetic rounds every result with `rnd`: the sum,
difference, product and quotient of two values are the exact results rounded by
`rnd`.  With `rnd = id` the arithmetic is exact; with `rnd = round32` it is the
binary32 arithmetic of the program (round to nearest, ties to even). -/
structure flt (rnd : ℚ → ℚ) where
  val : ℚ

instance (rnd : ℚ → ℚ) : Add (flt rnd) := ⟨fun a b => ⟨rnd (a.val + b.val)⟩⟩

instance (rnd : ℚ → ℚ) : Sub (flt rnd) := ⟨fun a b => ⟨rnd (a.val - b.val)⟩⟩

instance (rnd : ℚ → ℚ) : Mul (flt rnd) := ⟨fun a b => ⟨rnd (a.val * b.val)⟩⟩

instance (rnd : ℚ → ℚ) : Div (flt rnd) := ⟨fun a b => ⟨rnd (a.val / b.val)⟩⟩

instance (rnd : ℚ → ℚ) : Neg (flt rnd) := ⟨fun a => ⟨-a.val⟩⟩

instance (rnd : ℚ → ℚ) (n : Nat) : OfNat (flt rnd) n := ⟨⟨n⟩⟩

/-- The power `2 ^ e` for an integer exponent. -/
def pow2 (e : Int) : ℚ :=
  if 0 ≤ e then ((2 ^ e.toNat : Nat) : ℚ) else 1 / ((2 ^ (-e).toNat : Nat) : ℚ)

/-- The number of halvings that take `n` below 2, at most `fuel` of them: the
bit length of `n` less one, for `n < 2 ^ fuel`. -/
def log2_nat : Nat → Nat → Nat
  | 0, _ => 0
  | fuel + 1, n => if 2 ≤ n then log2_nat fuel (n / 2) + 1 else 0

/-- The exponent `⌊log2 x⌋` of a positive rational (numerator and denominator
below `2 ^ 1024`). -/
def ilog2 (x : ℚ) : Int :=
  let e : Int := (log2_nat 1024 x.num.natAbs : Int) - (log2_nat 1024 x.den : Int)
  if pow2 e ≤ x then e else e - 1

/-- Rounding of a rational to the nearest integer, ties to the even one. -/
def round_even (q : ℚ) : Int :=
  let f := ⌊q⌋
  let d := q - f
  if d < 1 / 2 then f else if d > 1 / 2 then f + 1 else if f % 2 = 0 then f else f + 1

/-- Rounding to binary32 (`float`): round to nearest, ties to even, with 24
significant bits and gradual underflow below `2^-126`.  Results of magnitude
`2^128` or more, which the float type replaces by an infinity, are outside the
model. -/
def round32 (x : ℚ) : ℚ :=
  if x = 0 then 0
  else
    let e := max (ilog2 |x|) (-126)
    let ulp := pow2 (e - 23)
    (round_even (x / ulp) : ℚ) * ulp


/-! ## The program with rounded float arithmetic

The definitions below repeat the functions above with every float addition,
subtraction, multiplication and division rounded by `rnd`, in the order in which
the source evaluates them.  Comparisons, negation, `ceilf`, the conversions to
`int32_t` and the integer code are as above.  With `rnd = id` they are the
functions above. -/

/-- `is_backface(a, b, c)` with rounded arithmetic. -/
def is_backface_r (rnd : ℚ → ℚ) (a b c : vec2f_t) : Bool :=
  let F := @flt.mk rnd
  let v1 := F a.x - F b.x
  let v2 := F a.y - F b.y
  let w1 := F c.x - F b.x
  let w2 := F c.y - F b.y
  decide (0 > (v1 * w2 - v2 * w1).val)

/-- The local array `inv[16]` of `matrix_t::invert` with rounded arithmetic. -/
def matrix_t.cofactors_r (rnd : ℚ → ℚ) (m : matrix_t) : Fin 16 → ℚ :=
  let e : Fin 16 → flt rnd := fun i => ⟨m.e i⟩
  fun i => match i with
  | 0 => (e 5 * e 10 * e 15 - e 5 * e 11 * e 14 - e 9 * e 6 * e 15 +
      e 9 * e 7 * e 14 + e 13 * e 6 * e 11 - e 13 * e 7 * e 10).val
  | 1 => (-e 1 * e 10 * e 15 + e 1 * e 11 * e 14 + e 9 * e 2 * e 15 -
      e 9 * e 3 * e 14 - e 13 * e 2 * e 11 + e 13 * e 3 * e 10).val
  | 2 => (e 1 * e 6 * e 15 - e 1 * e 7 * e 14 - e 5 * e 2 * e 15 +
      e 5 * e 3 * e 14 + e 13 * e 2 * e 7 - e 13 * e 3 * e 6).val
  | 3 => (-e 1 * e 6 * e 11 + e 1 * e 7 * e 10 + e 5 * e 2 * e 11 -
      e 5 * e 3 * e 10 - e 9 * e 2 * e 7 + e 9 * e 3 * e 6).val
  | 4 => (-e 4 * e 10 * e 15 + e 4 * e 11 * e 14 + e 8 * e 6 * e 15 -
      e 8 * e 7 * e 14 - e 12 * e 6 * e 11 + e 12 * e 7 * e 10).val
  | 5 => (e 0 * e 10 * e 15 - e 0 * e 11 * e 14 - e 8 * e 2 * e 15 +
      e 8 * e 3 * e 14 + e 12 * e 2 * e 11 - e 12 * e 3 * e 10).val
  | 6 => (-e 0 * e 6 * e 15 + e 0 * e 7 * e 14 + e 4 * e 2 * e 15 -
      e 4 * e 3 * e 14 - e 12 * e 2 * e 7 + e 12 * e 3 * e 6).val
  | 7 => (e 0 * e 6 * e 11 - e 0 * e 7 * e 10 - e 4 * e 2 * e 11 +
      e 4 * e 3 * e 10 + e 8 * e 2 * e 7 - e 8 * e 3 * e 6).val
  | 8 => (e 4 * e 9 * e 15 - e 4 * e 11 * e 13 - e 8 * e 5 * e 15 +
      e 8 * e 7 * e 13 + e 12 * e 5 * e 11 - e 12 * e 7 * e 9).val
  | 9 => (-e 0 * e 9 * e 15 + e 0 * e 11 * e 13 + e 8 * e 1 * e 15 -
      e 8 * e 3 * e 13 - e 12 * e 1 * e 11 + e 12 * e 3 * e 9).val
  | 10 => (e 0 * e 5 * e 15 - e 0 * e 7 * e 13 - e 4 * e 1 * e 15 +
      e 4 * e 3 * e 13 + e 12 * e 1 * e 7 - e 12 * e 3 * e 5).val
  | 11 => (-e 0 * e 5 * e 11 + e 0 * e 7 * e 9 + e 4 * e 1 * e 11 -
      e 4 * e 3 * e 9 - e 8 * e 1 * e 7 + e 8 * e 3 * e 5).val
  | 12 => (-e 4 * e 9 * e 14 + e 4 * e 10 * e 13 + e 8 * e 5 * e 14 -
      e 8 * e 6 * e 13 - e 12 * e 5 * e 10 + e 12 * e 6 * e 9).val
  | 13 => (e 0 * e 9 * e 14 - e 0 * e 10 * e 13 - e 8 * e 1 * e 14 +
      e 8 * e 2 * e 13 + e 12 * e 1 * e 10 - e 12 * e 2 * e 9).val
  | 14 => (-e 0 * e 5 * e 14 + e 0 * e 6 * e 13 + e 4 * e 1 * e 14 -
      e 4 * e 2 * e 13 - e 12 * e 1 * e 6 + e 12 * e 2 * e 5).val
  | 15 => (e 0 * e 5 * e 10 - e 0 * e 6 * e 9 - e 4 * e 1 * e 10 +
      e 4 * e 2 * e 9 + e 8 * e 1 * e 6 - e 8 * e 2 * e 5).val
  | ⟨_ + 16, h⟩ => absurd h (by omega)

/-- The local `det` of `matrix_t::invert` with rounded arithmetic. -/
def matrix_t.det_r (rnd : ℚ → ℚ) (m : matrix_t) : ℚ :=
  let F := @flt.mk rnd
  let inv := m.cofactors_r rnd
  (F (m.e 0) * F (inv 0) + F (m.e 1) * F (inv 4) + F (m.e 2) * F (inv 8) +
    F (m.e 3) * F (inv 12)).val

/-- `matrix_t::invert(out)` with rounded arithmetic. -/
def matrix_t.invert_r (rnd : ℚ → ℚ) (m : matrix_t) (out : matrix_t) : Bool × matrix_t :=
  let F := @flt.mk rnd
  let inv := m.cofactors_r rnd
  let det := m.det_r rnd
  if det = 0 then (false, out)
  else
    let det := 1 / F det
    (true, ⟨fun i => (F (inv i) * det).val⟩)

/-- `matrix_t::frustum(l, r, b, t, n, f)` with rounded arithmetic. -/
def matrix_t.frustum_r (rnd : ℚ → ℚ) (m : matrix_t) (l r b t n f : ℚ) : matrix_t :=
  let F := @flt.mk rnd
  let m := m.set 0 0 ((2 * F n) / (F r - F l)).val
  let m := m.set 0 1 0
  let m := m.set 0 2 0
  let m := m.set 0 3 0
  let m := m.set 1 0 0
  let m := m.set 1 1 ((2 * F n) / (F t - F b)).val
  let m := m.set 1 2 0
  let m := m.set 1 3 0
  let m := m.set 2 0 ((F r + F l) / (F r - F l)).val
  let m := m.set 2 1 ((F t + F b) / (F t - F b)).val
  let m := m.set 2 2 (-(F f + F n) / (F f - F n)).val
  let m := m.set 2 3 (-1)
  let m := m.set 3 0 0
  let m := m.set 3 1 0
  let m := m.set 3 2 (-(2 * F f * F n) / (F f - F n)).val
  let m := m.set 3 3 0
  m

/-- Body of the 4-wide `matrix_t::transform` loop with rounded arithmetic. -/
def matrix_t.apply4_r (rnd : ℚ → ℚ) (m : matrix_t) (s : vec4f_t) : vec4f_t :=
  let F := @flt.mk rnd
  let e : Fin 16 → flt rnd := fun i => ⟨m.e i⟩
  { x := (F s.x * e (MAT 0 0) + F s.y * e (MAT 1 0) + F s.z * e (MAT 2 0) +
      F s.w * e (MAT 3 0)).val
    y := (F s.x * e (MAT 0 1) + F s.y * e (MAT 1 1) + F s.z * e (MAT 2 1) +
      F s.w * e (MAT 3 1)).val
    z := (F s.x * e (MAT 0 2) + F s.y * e (MAT 1 2) + F s.z * e (MAT 2 2) +
      F s.w * e (MAT 3 2)).val
    w := (F s.x * e (MAT 0 3) + F s.y * e (MAT 1 3) + F s.z * e (MAT 2 3) +
      F s.w * e (MAT 3 3)).val }

/-- `matrix_t::transform(num_verts, in, out)`, 4-wide overload, with rounded
arithmetic. -/
def matrix_t.transform4_r (rnd : ℚ → ℚ) (m : matrix_t) (num_verts : Nat)
    (inp out : Nat → vec4f_t) : Nat → vec4f_t :=
  transform_loop (m.apply4_r rnd) inp num_verts 0 out

/-- `vec3(const vec4f_t &v)` with rounded arithmetic. -/
def vec3_of_vec4_r (rnd : ℚ → ℚ) (v : vec4f_t) : vec3f_t :=
  let F := @flt.mk rnd
  let iw := 1 / F v.w
  ⟨(F v.x * iw).val, (F v.y * iw).val, (F v.z * iw).val⟩

/-- The constructor `plane_t(a, b)` of `tri_vis` with rounded arithmetic. -/
def plane_t.make_r (rnd : ℚ → ℚ) (a b : vec2f_t) : plane_t :=
  let F := @flt.mk rnd
  let nx := F b.y - F a.y
  let ny := F a.x - F b.x
  { nx := nx.val
    ny := ny.val
    d := (F a.x * nx + F a.y * ny).val }

/-- `plane_t::test(p)` with rounded arithmetic. -/
def plane_t.test_r (rnd : ℚ → ℚ) (pl : plane_t) (p : vec2f_t) : Bool :=
  let F := @flt.mk rnd
  decide (pl.d > (F p.x * F pl.nx + F p.y * F pl.ny).val)

/-- `tri_vis(a, b, c)` with rounded arithmetic. -/
def tri_vis_r (rnd : ℚ → ℚ) (a b c : vec2f_t) : Bool :=
  let ca := tri_classify a
  let cb := tri_classify b
  let cc := tri_classify c
  if 0 = (ca ||| cb ||| cc) then true
  else
    let code := ca &&& cb &&& cc
    if code &&& 1 ≠ 0 ∨ code &&& 2 ≠ 0 ∨ code &&& 4 ≠ 0 ∨ code &&& 8 ≠ 0 then false
    else if is_backface_r rnd a b c then false
    else
      let pab := plane_t.make_r rnd a b
      if pab.test_r rnd (ndc 0) && pab.test_r rnd (ndc 1) && pab.test_r rnd (ndc 2) &&
          pab.test_r rnd (ndc 3) then false
      else
        let pbc := plane_t.make_r rnd b c
        if pbc.test_r rnd (ndc 0) && pbc.test_r rnd (ndc 1) && pbc.test_r rnd (ndc 2) &&
            pbc.test_r rnd (ndc 3) then false
        else
          let pca := plane_t.make_r rnd c a
          if pca.test_r rnd (ndc 0) && pca.test_r rnd (ndc 1) && pca.test_r rnd (ndc 2) &&
              pca.test_r rnd (ndc 3) then false
          else true

/-- `scan_convert<CLIP>(a, b, span)` with rounded arithmetic. -/
def scan_convert_r (rnd : ℚ → ℚ) (clip : clip_span_t) (a b : vec2f_t) (span : Int → Int) :
    Int → Int :=
  let F := @flt.mk rnd
  if b.y < 0 ∨ a.y > (screen_h : ℚ) then span
  else if b.y ≤ a.y then span
  else
    let dx := (F b.x - F a.x) / (F b.y - F a.y)
    let a1 : vec2f_t :=
      if a.y < 0 then ⟨(F a.x + dx * (0 - F a.y)).val, 0⟩
      else
        let ceily : ℚ := ⌈a.y⌉
        ⟨(F a.x + dx * (F ceily - F a.y)).val, ceily⟩
    let iay := maxv (to_int32 a1.y) 0
    let iby := minv (to_int32 b.y) screen_h
    let x := to_int32 (F a1.x * 65536).val
    let idx := to_int32 (dx * 65536).val
    scan_loop clip idx (iby + 1 - iay).toNat iay x span

/-- The span tables of `scan_triangle` after its three `scan_convert` calls, with
rounded arithmetic. -/
def scan_edges_r (rnd : ℚ → ℚ) (v : vec2f_t × vec2f_t × vec2f_t) (d1 d2 : ℚ)
    (lo0 hi0 : Int → Int) : (Int → Int) × (Int → Int) :=
  if d1 > d2 then
    let hi := scan_convert_r rnd .CLIP_SPAN_MIN_X v.1 v.2.2 hi0
    let lo := scan_convert_r rnd .CLIP_SPAN_MAX_X v.1 v.2.1 lo0
    let lo := scan_convert_r rnd .CLIP_SPAN_MAX_X v.2.1 v.2.2 lo
    (lo, hi)
  else
    let lo := scan_convert_r rnd .CLIP_SPAN_MAX_X v.1 v.2.2 lo0
    let hi := scan_convert_r rnd .CLIP_SPAN_MIN_X v.1 v.2.1 hi0
    let hi := scan_convert_r rnd .CLIP_SPAN_MIN_X v.2.1 v.2.2 hi
    (lo, hi)

/-- `scan_triangle(surf, v, rgb)` with rounded arithmetic. -/
def scan_triangle_r (rnd : ℚ → ℚ) (surf : SDL_Surface) (v : vec2f_t × vec2f_t × vec2f_t)
    (rgb : Nat) (lo0 hi0 : Int → Int) : Bool × SDL_Surface :=
  let F := @flt.mk rnd
  let v := sort3 v
  let nx := F v.2.2.y - F v.1.y
  let ny := F v.1.x - F v.2.2.x
  let d1 := F v.1.x * nx + F v.1.y * ny
  let d2 := F v.2.1.x * nx + F v.2.1.y * ny
  if d1.val = d2.val then (false, surf)
  else
    let tables := scan_edges_r rnd v d1.val d2.val lo0 hi0
    let lo := tables.1
    let hi := tables.2
    let y0 := max (to_int32 (⌈v.1.y⌉ : ℚ)) 0
    let y1 := min (to_int32 v.2.2.y) 511
    let py := Int.tdiv (y0 * surf.pitch) 4
    (true, { surf with
      pixels := fill_rows lo hi (Int.tdiv surf.pitch 4) rgb (y1 + 1 - y0).toNat y0 py
        surf.pixels })

/-- The lambda `clip_y_lo` with rounded arithmetic. -/
def clip_y_lo_r (rnd : ℚ → ℚ) (cl : Nat) (va vb : vec2f_t) : vec2f_t :=
  let F := @flt.mk rnd
  if cl &&& CLIP_Y_LO ≠ 0 then
    let dx := (F vb.x - F va.x) / (F vb.y - F va.y)
    ⟨(F va.x + dx * (F min_y - F va.y)).val, min_y⟩
  else va

/-- The lambda `clip_y_hi` with rounded arithmetic. -/
def clip_y_hi_r (rnd : ℚ → ℚ) (cl : Nat) (va vb : vec2f_t) : vec2f_t :=
  let F := @flt.mk rnd
  if cl &&& CLIP_Y_HI ≠ 0 then
    let dx := (F vb.x - F va.x) / (F vb.y - F va.y)
    ⟨(F va.x - dx * (F va.y - F max_y)).val, max_y⟩
  else va

/-- The lambda `clip_x_lo` with rounded arithmetic. -/
def clip_x_lo_r (rnd : ℚ → ℚ) (cl : Nat) (va vb : vec2f_t) : vec2f_t :=
  let F := @flt.mk rnd
  if cl &&& CLIP_X_LO ≠ 0 then
    let dy := (F vb.y - F va.y) / (F vb.x - F va.x)
    ⟨min_x, (F va.y + dy * (F min_x - F va.x)).val⟩
  else va

/-- The lambda `clip_x_hi` with rounded arithmetic. -/
def clip_x_hi_r (rnd : ℚ → ℚ) (cl : Nat) (va vb : vec2f_t) : vec2f_t :=
  let F := @flt.mk rnd
  if cl &&& CLIP_X_HI ≠ 0 then
    let dy := (F vb.y - F va.y) / (F vb.x - F va.x)
    ⟨max_x, (F va.y - dy * (F va.x - F max_x)).val⟩
  else va

/-- `clip_line(a, b)` with rounded arithmetic. -/
def clip_line_r (rnd : ℚ → ℚ) (a b : vec2f_t) : Bool × vec2f_t × vec2f_t :=
  let ca := classify a
  let cb := classify b
  if 0 = (ca ||| cb) then (false, a, b)
  else
    let code := ca &&& cb
    if code &&& CLIP_X_LO ≠ 0 ∨ code &&& CLIP_X_HI ≠ 0 ∨ code &&& CLIP_Y_LO ≠ 0 ∨
        code &&& CLIP_Y_HI ≠ 0 then (true, a, b)
    else
      let a := clip_x_lo_r rnd ca a b
      let a := clip_x_hi_r rnd ca a b
      let b := clip_x_lo_r rnd cb b a
      let b := clip_x_hi_r rnd cb b a
      let ca2 := classify_y a
      let a := clip_y_lo_r rnd ca2 a b
      let a := clip_y_hi_r rnd ca2 a b
      let cb2 := classify_y b
      let b := clip_y_lo_r rnd cb2 b a
      let b := clip_y_hi_r rnd cb2 b a
      (false, a, b)

/-- `draw_tri(surf, t, rgb)` with rounded arithmetic. -/
def draw_tri_r (rnd : ℚ → ℚ) (surf : SDL_Surface) (t : vec4f_t × vec4f_t × vec4f_t)
    (rgb : Nat) (lo0 hi0 : Int → Int) : SDL_Surface :=
  let tri : vec2f_t × vec2f_t × vec2f_t :=
    (⟨t.1.x, t.1.y⟩, ⟨t.2.1.x, t.2.1.y⟩, ⟨t.2.2.x, t.2.2.y⟩)
  if !is_backface_r rnd tri.1 tri.2.2 tri.2.1 then (scan_triangle_r rnd surf tri rgb lo0 hi0).2
  else surf

/-! ## Notions used to state the properties -/

/-- Twice the signed area of the triangle `a`, `b`, `c`, as `is_backface`
computes it: the cross product of `a - b` and `c - b`.  It is zero exactly for
collinear points. -/
def signed_area (a b c : vec2f_t) : ℚ :=
  (a.x - b.x) * (c.y - b.y) - (a.y - b.y) * (c.x - b.x)

/-- The point lies in the clip rectangle of `clip_line`. -/
def in_clip_rect (p : vec2f_t) : Prop :=
  min_x ≤ p.x ∧ p.x ≤ max_x ∧ min_y ≤ p.y ∧ p.y ≤ max_y

/-- No point of the segment from `a` to `b` lies in the clip rectangle. -/
def segment_outside (a b : vec2f_t) : Prop :=
  ∀ t : ℚ, 0 ≤ t → t ≤ 1 → ¬ in_clip_rect (vec2f_t.lerp a b t)

/-- A 512x512 surface (2048 bytes a row) whose pixels are all zero. -/
def empty_surface : SDL_Surface := ⟨512, 512, 2048, fun _ => 0⟩

/-- A sample invertible matrix: scale `x` by two, translate by three. -/
def sample_matrix : matrix_t :=
  ⟨fun i => if i = 0 then 2 else if i = 5 ∨ i = 10 ∨ i = 15 then 1 else if i = 12 then 3 else 0⟩

/-- The fixed-point accumulator of a scan loop after `k` steps `x += idx`. -/
def accum (idx : Int) (k : Nat) (x : Int) : Int := (fun x => wrap32 (x + idx))^[k] x

/-- The offsets the fill writes in row `y`, whose row pointer is `py`. -/
def row_writes (lo hi : Int → Int) (py y i : Int) : Prop :=
  py + lo y ≤ i ∧ i < py + lo y + ((hi y - lo y).toNat : Int)

/-- The slope `dx` of `scan_convert`. -/
def edge_dx (a b : vec2f_t) : ℚ := (b.x - a.x) / (b.y - a.y)

/-- The value of `a.y` in `scan_convert` after the clip to the top of the window
or the alignment to the scanline. -/
def edge_top (a : vec2f_t) : ℚ := if a.y < 0 then 0 else ((⌈a.y⌉ : Int) : ℚ)

/-- The first row `iay` of the walk of `scan_convert`. -/
def edge_iay (a : vec2f_t) : Int := maxv (to_int32 (edge_top a)) 0

/-- The last row `iby` of the walk of `scan_convert`. -/
def edge_iby (b : vec2f_t) : Int := minv (to_int32 b.y) screen_h

/-- The initial fixed-point accumulator `x` of the walk of `scan_convert`. -/
def edge_x0 (a b : vec2f_t) : Int :=
  to_int32 ((a.x + edge_dx a b * (edge_top a - a.y)) * 65536)

/-- The fixed-point step `idx` of the walk of `scan_convert`. -/
def edge_idx (a b : vec2f_t) : Int := to_int32 (edge_dx a b * 65536)

/-- The side value `d1` of `scan_triangle` for the sorted vertices `v`. -/
def side_d1 (v : vec2f_t × vec2f_t × vec2f_t) : ℚ :=
  let nx := v.2.2.y - v.1.y
  let ny := v.1.x - v.2.2.x
  v.1.x * nx + v.1.y * ny

/-- The side value `d2` of `scan_triangle` for the sorted vertices `v`. -/
def side_d2 (v : vec2f_t × vec2f_t × vec2f_t) : ℚ :=
  let nx := v.2.2.y - v.1.y
  let ny := v.1.x - v.2.2.x
  v.2.1.x * nx + v.2.1.y * ny

/-- The span tables `lo` and `hi` of `scan_triangle` when its fill loop starts. -/
def span_tables (v : vec2f_t × vec2f_t × vec2f_t) (lo0 hi0 : Int → Int) :
    (Int → Int) × (Int → Int) :=
  scan_edges (sort3 v) (side_d1 (sort3 v)) (side_d2 (sort3 v)) lo0 hi0

/-- The first row `y0` of the fill loop of `scan_triangle`. -/
def fill_y0 (v : vec2f_t × vec2f_t × vec2f_t) : Int :=
  max (to_int32 ((⌈(sort3 v).1.y⌉ : Int) : ℚ)) 0

/-- The last row `y1` of the fill loop of `scan_triangle`. -/
def fill_y1 (v : vec2f_t × vec2f_t × vec2f_t) : Int :=
  min (to_int32 (sort3 v).2.2.y) 511

/-- The accumulator of the walk of `scan_convert` along `a`, `b` at row `y`. -/
def edge_acc (a b : vec2f_t) (y : Int) : Int :=
  accum (edge_idx a b) (y - edge_iay a).toNat (edge_x0 a b)

/-- The walk of `scan_convert` along `a`, `b` writes row `y`. -/
def walk_covers (a b : vec2f_t) (y : Int) : Prop :=
  0 ≤ b.y ∧ a.y ≤ 511 ∧ a.y < b.y ∧ edge_iay a ≤ y ∧ y ≤ edge_iby b

/-- A triangle beyond the right edge of the viewport. -/
def offscreen_triangle : vec2f_t × vec2f_t × vec2f_t := (⟨600, 0⟩, ⟨700, 0⟩, ⟨600, 10⟩)

/-- A small triangle inside the viewport, with integer vertices. -/
def thin_triangle : vec2f_t × vec2f_t × vec2f_t := (⟨0, 0⟩, ⟨0, 1⟩, ⟨1, 3⟩)

/-- The vertex lies in the columns of the viewport. -/
def in_columns (p : vec2f_t) : Prop := 0 ≤ p.x ∧ p.x ≤ 511

/-- The exact position of the edge `a`, `b` at height `t`. -/
def edge_true (a b : vec2f_t) (t : ℚ) : ℚ := a.x + edge_dx a b * (t - a.y)

/-- The point with barycentric weights `α`, `β`, `γ` in the triangle `a`, `b`, `c`. -/
def tri_point (a b c : vec2f_t) (α β γ : ℚ) : vec2f_t :=
  ⟨α * a.x + β * b.x + γ * c.x, α * a.y + β * b.y + γ * c.y⟩

/-- The point lies in the unit square `[0,1] x [0,1]`. -/
def in_unit_square (p : vec2f_t) : Prop := 0 ≤ p.x ∧ p.x ≤ 1 ∧ 0 ≤ p.y ∧ p.y ≤ 1

/-- No point of the closed triangle `a`, `b`, `c` lies in the unit square. -/
def tri_misses_square (a b c : vec2f_t) : Prop :=
  ∀ α β γ : ℚ, 0 ≤ α → 0 ≤ β → 0 ≤ γ → α + β + γ = 1 → ¬ in_unit_square (tri_point a b c α β γ)

/-- Every pixel in which `s2` differs from `s1` lies inside the buffer of `s1`
(column `x < w` of row `y < h`, at offset `x + y * w`) and holds `rgb`; width and
height are the same. -/
def touched_inside (rgb : Nat) (s1 s2 : SDL_Surface) : Prop :=
  s2.w = s1.w ∧ s2.h = s1.h ∧
    ∀ i : Int, s2.pixels i ≠ s1.pixels i →
      s2.pixels i = rgb ∧ ∃ x y : Int, 0 ≤ x ∧ x < s1.w ∧ 0 ≤ y ∧ y < s1.h ∧ i = x + y * s1.w

/-- A triangle that `is_backface` reports as back-facing in its own vertex
order. -/
def facing_triangle : vec4f_t × vec4f_t × vec4f_t :=
  (⟨0, 0, 0, 1⟩, ⟨10, 0, 0, 1⟩, ⟨0, 10, 0, 1⟩)

/-- A rational stand-in for `sinf`: with `sample_cos` it satisfies
`sin^2 + cos^2 = 1` at every argument. -/
def sample_sin (t : ℚ) : ℚ := 2 * t / (1 + t * t)

/-- A rational stand-in for `cosf`. -/
def sample_cos (t : ℚ) : ℚ := (1 - t * t) / (1 + t * t)

/-- The y coordinate is not strictly between `2^31 - 1` and `2^31`.  Every
`float` satisfies this: a `float` of magnitude `2^24` or more is a whole number. -/
def float_row (p : vec2f_t) : Prop := p.y ≤ 2147483647 ∨ 2147483648 ≤ p.y

/-- A triangle in the top left corner of the viewport. -/
def corner_triangle : vec2f_t × vec2f_t × vec2f_t := (⟨0, 0⟩, ⟨10, 0⟩, ⟨0, 10⟩)

/-- A triangle lying wholly above the viewport, less than one row away from it. -/
def above_triangle : vec2f_t × vec2f_t × vec2f_t := (⟨0, -3 / 4⟩, ⟨4, -1 / 2⟩, ⟨0, -1 / 4⟩)

/-- A front-facing triangle below and left of the unit square. -/
def missed_triangle : vec2f_t × vec2f_t × vec2f_t := (⟨-2, -2⟩, ⟨0, -1⟩, ⟨3, 0⟩)

/-- The three compare-and-swap steps of `scan_triangle` on an array whose
elements carry a tag besides the vertex; the comparisons read the vertex only. -/
def sort3_tagged {α : Type} (v : (vec2f_t × α) × (vec2f_t × α) × (vec2f_t × α)) :
    (vec2f_t × α) × (vec2f_t × α) × (vec2f_t × α) :=
  let v := if v.2.1.1.y < v.1.1.y then (v.2.1, v.1, v.2.2) else v
  let v := if v.2.2.1.y < v.1.1.y then (v.2.2, v.2.1, v.1) else v
  let v := if v.2.2.1.y < v.2.1.1.y then (v.1, v.2.2, v.2.1) else v
  v

/-- The vertices tagged with their positions 0, 1, 2 in the input array. -/
def tag_positions (v : vec2f_t × vec2f_t × vec2f_t) :
    (vec2f_t × Nat) × (vec2f_t × Nat) × (vec2f_t × Nat) :=
  ((v.1, 0), (v.2.1, 1), (v.2.2, 2))

/-- Any two elements with equal y stand in the order of their tags. -/
def stable3 (t : (vec2f_t × Nat) × (vec2f_t × Nat) × (vec2f_t × Nat)) : Prop :=
  (t.1.1.y = t.2.1.1.y → t.1.2 < t.2.1.2) ∧ (t.1.1.y = t.2.2.1.y → t.1.2 < t.2.2.2) ∧
    (t.2.1.1.y = t.2.2.1.y → t.2.1.2 < t.2.2.2)

/-- Two vertices level with each other and a third one above them. -/
def level_triangle : vec2f_t × vec2f_t × vec2f_t := (⟨0, 1⟩, ⟨1, 1⟩, ⟨2, 0⟩)

/-- The point at parameter `t` of the line through `A` with direction `D`. -/
def on_line (A D : vec2f_t) (t : ℚ) : vec2f_t := ⟨A.x + t * D.x, A.y + t * D.y⟩

/-- The endpoints of `clip_line` after the four calls of `clip_x_lo` and
`clip_x_hi`, before the y boundaries are treated. -/
def clip_line_x (a b : vec2f_t) : vec2f_t × vec2f_t :=
  let ca := classify a
  let cb := classify b
  let a := clip_x_lo ca a b
  let a := clip_x_hi ca a b
  let b := clip_x_lo cb b a
  let b := clip_x_hi cb b a
  (a, b)

/-- The endpoints of `clip_line` after the four calls of `clip_y_lo` and
`clip_y_hi`, from the endpoints `a`, `b` left by the x boundaries. -/
def clip_line_y (a b : vec2f_t) : vec2f_t × vec2f_t :=
  let ca2 := classify_y a
  let a := clip_y_lo ca2 a b
  let a := clip_y_hi ca2 a b
  let cb2 := classify_y b
  let b := clip_y_lo cb2 b a
  let b := clip_y_hi cb2 b a
  (a, b)

/-- The side value `d1` of `scan_triangle` with rounded arithmetic, for the
sorted vertices `v`. -/
def side_d1_r (rnd : ℚ → ℚ) (v : vec2f_t × vec2f_t × vec2f_t) : ℚ :=
  let F := @flt.mk rnd
  let nx := F v.2.2.y - F v.1.y
  let ny := F v.1.x - F v.2.2.x
  (F v.1.x * nx + F v.1.y * ny).val

/-- The side value `d2` of `scan_triangle` with rounded arithmetic, for the
sorted vertices `v`. -/
def side_d2_r (rnd : ℚ → ℚ) (v : vec2f_t × vec2f_t × vec2f_t) : ℚ :=
  let F := @flt.mk rnd
  let nx := F v.2.2.y - F v.1.y
  let ny := F v.1.x - F v.2.2.x
  (F v.2.1.x * nx + F v.2.1.y * ny).val

/-- The span tables `lo` and `hi` of `scan_triangle` with rounded arithmetic, for
the vertices `v` as passed. -/
def span_tables_r (rnd : ℚ → ℚ) (v : vec2f_t × vec2f_t × vec2f_t) (lo0 hi0 : Int → Int) :
    (Int → Int) × (Int → Int) :=
  scan_edges_r rnd (sort3 v) (side_d1_r rnd (sort3 v)) (side_d2_r rnd (sort3 v)) lo0 hi0

/-- A sliver triangle with float coordinates whose rounded side values coincide;
its first two vertices are level. -/
def sliver_triangle : vec2f_t × vec2f_t × vec2f_t := (⟨0, 256⟩, ⟨1 / 8, 256⟩, ⟨256, 8191 / 32⟩)

/-- Three points with float coordinates on one line whose rounded side values
differ. -/
def line_triangle : vec2f_t × vec2f_t × vec2f_t :=
  (⟨4704155 / 32768, 5798147 / 32768⟩, ⟨5116227 / 32768, 12402197 / 65536⟩,
    ⟨5528299 / 32768, 3302025 / 16384⟩)

/-- A thin triangle around row 300, with float coordinates, whose rounded side
test has the opposite outcome of the exact one. -/
def flipped_triangle : vec2f_t × vec2f_t × vec2f_t :=
  (⟨3404419 / 8192, 9830397 / 32768⟩, ⟨14383827 / 131072, 9830401 / 32768⟩,
    ⟨10674601 / 32768, 4915199 / 16384⟩)

/-- A front-facing triangle with float coordinates that contains the corner
`(0,0)` of the unit square. -/
def corner_cover : vec2f_t × vec2f_t × vec2f_t :=
  (⟨-10118375 / 4194304, 1820245 / 4194304⟩, ⟨8878415 / 8388608, -12777459 / 67108864⟩,
    ⟨-15001501 / 8388608, 2455227 / 8388608⟩)

/-- The value is a binary32 number: rounding leaves it unchanged. -/
def is_float (x : ℚ) : Prop := round32 x = x

/-- Both coordinates are binary32 numbers. -/
def float_point (p : vec2f_t) : Prop := is_float p.x ∧ is_float p.y

/-! # Theorems -/

/-! ## The rounded embedding with `rnd = id` is the exact embedding -/

theorem is_backface_r_id (a b c : vec2f_t) : is_backface_r id a b c = is_backface a b c := rfl

theorem cofactors_r_id (m : matrix_t) : m.cofactors_r id = m.cofactors := by
  funext i
  fin_cases i <;> rfl

theorem invert_r_id (m out : matrix_t) : m.invert_r id out = m.invert out := by
  unfold matrix_t.invert_r matrix_t.invert matrix_t.det_r matrix_t.det
  simp only [cofactors_r_id]
  rfl

theorem frustum_r_id (m : matrix_t) (l r b t n f : ℚ) :
    m.frustum_r id l r b t n f = m.frustum l r b t n f := rfl

theorem apply4_r_id (m : matrix_t) (s : vec4f_t) : m.apply4_r id s = m.apply4 s := rfl

theorem vec3_of_vec4_r_id (v : vec4f_t) : vec3_of_vec4_r id v = vec3_of_vec4 v := rfl

theorem tri_vis_r_id (a b c : vec2f_t) : tri_vis_r id a b c = tri_vis a b c := rfl

theorem scan_convert_r_id (clip : clip_span_t) (a b : vec2f_t) (span : Int → Int) :
    scan_convert_r id clip a b span = scan_convert clip a b span := rfl

theorem scan_triangle_r_id (surf : SDL_Surface) (v : vec2f_t × vec2f_t × vec2f_t) (rgb : Nat)
    (lo0 hi0 : Int → Int) :
    scan_triangle_r id surf v rgb lo0 hi0 = scan_triangle surf v rgb lo0 hi0 := rfl

theorem span_tables_r_id (v : vec2f_t × vec2f_t × vec2f_t) (lo0 hi0 : Int → Int) :
    span_tables_r id v lo0 hi0 = span_tables v lo0 hi0 := rfl

theorem clip_line_r_id (a b : vec2f_t) : clip_line_r id a b = clip_line a b := rfl

theorem draw_tri_r_id (surf : SDL_Surface) (t : vec4f_t × vec4f_t × vec4f_t) (rgb : Nat)
    (lo0 hi0 : Int → Int) : draw_tri_r id surf t rgb lo0 hi0 = draw_tri surf t rgb lo0 hi0 := rfl

/-- `scan_triangle` with rounded arithmetic, in terms of its side values, span
tables and fill range. -/
theorem scan_triangle_r_unfold (rnd : ℚ → ℚ) (surf : SDL_Surface)
    (v : vec2f_t × vec2f_t × vec2f_t) (rgb : Nat) (lo0 hi0 : Int → Int) :
    scan_triangle_r rnd surf v rgb lo0 hi0 =
      if side_d1_r rnd (sort3 v) = side_d2_r rnd (sort3 v) then (false, surf)
      else (true, { surf with
        pixels := fill_rows (span_tables_r rnd v lo0 hi0).1 (span_tables_r rnd v lo0 hi0).2
          (Int.tdiv surf.pitch 4) rgb (fill_y1 v + 1 - fill_y0 v).toNat (fill_y0 v)
          (Int.tdiv (fill_y0 v * surf.pitch) 4) surf.pixels }) := rfl

/-- With rounded arithmetic too, `scan_triangle` returns false exactly when the
side values it computes are equal, and then leaves the surface unchanged. -/
theorem scan_triangle_r_false (rnd : ℚ → ℚ) (surf : SDL_Surface)
    (v : vec2f_t × vec2f_t × vec2f_t) (rgb : Nat) (lo0 hi0 : Int → Int) :
    ((scan_triangle_r rnd surf v rgb lo0 hi0).1 = false ↔
      side_d1_r rnd (sort3 v) = side_d2_r rnd (sort3 v)) ∧
    ((scan_triangle_r rnd surf v rgb lo0 hi0).1 = false →
      (scan_triangle_r rnd surf v rgb lo0 hi0).2 = surf) := by
  rw [scan_triangle_r_unfold]
  split_ifs with h <;> simp [h]

/-- With rounded arithmetic too, `draw_tri` renders exactly when
`is_backface(t0, t2, t1)` is false. -/
theorem draw_tri_r_cull (rnd : ℚ → ℚ) (surf : SDL_Surface) (t : vec4f_t × vec4f_t × vec4f_t)
    (rgb : Nat) (lo0 hi0 : Int → Int) :
    (is_backface_r rnd ⟨t.1.x, t.1.y⟩ ⟨t.2.2.x, t.2.2.y⟩ ⟨t.2.1.x, t.2.1.y⟩ = true →
      draw_tri_r rnd surf t rgb lo0 hi0 = surf) ∧
    (is_backface_r rnd ⟨t.1.x, t.1.y⟩ ⟨t.2.2.x, t.2.2.y⟩ ⟨t.2.1.x, t.2.1.y⟩ = false →
      draw_tri_r rnd surf t rgb lo0 hi0 =
        (scan_triangle_r rnd surf (⟨t.1.x, t.1.y⟩, ⟨t.2.1.x, t.2.1.y⟩, ⟨t.2.2.x, t.2.2.y⟩) rgb
          lo0 hi0).2) := by
  constructor <;> intro h <;> simp [draw_tri_r, h]

/-- With rounded arithmetic too, `frustum` does not read the previous contents. -/
theorem frustum_r_indep (rnd : ℚ → ℚ) (m m2 : matrix_t) (l r b t n f : ℚ) :
    m.frustum_r rnd l r b t n f = m2.frustum_r rnd l r b t n f := by
  have h : ∀ i, (m.frustum_r rnd l r b t n f).e i = (m2.frustum_r rnd l r b t n f).e i := by
    intro i
    fin_cases i <;> rfl
  cases h1 : m.frustum_r rnd l r b t n f
  cases h2 : m2.frustum_r rnd l r b t n f
  rw [h1, h2] at h
  simp only [matrix_t.mk.injEq]
  exact funext h


/-! ## Matrix: determinant, inverse, identity -/

theorem MAT_succ : ∀ (a c : Fin 3) (b : Fin 4),
    MAT (Fin.succ a) (Fin.succAbove b c) =
      ⟨(a.val + 1) * 4 + (if c.val < b.val then c.val else c.val + 1), by split <;> omega⟩ := by
  decide

theorem val3 : ((3 : Fin 4) : ℕ) = 3 := rfl

theorem val2 : ((2 : Fin 4) : ℕ) = 2 := rfl

/-- The `det` computed by `invert` is the determinant of the matrix. -/
theorem det_eq (m : matrix_t) : m.det = m.toMatrix.det := by
  rw [Matrix.det_succ_row_zero]
  simp only [Fin.sum_univ_four, Matrix.det_fin_three]
  simp only [Matrix.submatrix_apply, matrix_t.toMatrix, Matrix.of_apply, MAT_succ]
  simp [MAT, matrix_t.det, matrix_t.cofactors, val3, val2]
  ring

set_option maxHeartbeats 1000000 in
theorem mul_cofactors (m : matrix_t) :
    m.toMatrix * (matrix_t.mk m.cofactors).toMatrix = m.det • (1 : Matrix (Fin 4) (Fin 4) ℚ) := by
  ext i j
  simp only [Matrix.mul_apply, Fin.sum_univ_four, matrix_t.toMatrix, Matrix.of_apply,
    Matrix.smul_apply, Matrix.one_apply, matrix_t.det]
  fin_cases i <;> fin_cases j <;> simp [MAT, val3, val2, matrix_t.cofactors] <;> ring

set_option maxHeartbeats 1000000 in
theorem cofactors_mul (m : matrix_t) :
    (matrix_t.mk m.cofactors).toMatrix * m.toMatrix = m.det • (1 : Matrix (Fin 4) (Fin 4) ℚ) := by
  ext i j
  simp only [Matrix.mul_apply, Fin.sum_univ_four, matrix_t.toMatrix, Matrix.of_apply,
    Matrix.smul_apply, Matrix.one_apply, matrix_t.det]
  fin_cases i <;> fin_cases j <;> simp [MAT, val3, val2, matrix_t.cofactors] <;> ring

theorem invert_of_det_ne (m out : matrix_t) (h : m.det ≠ 0) :
    m.invert out = (true, ⟨fun i => m.cofactors i * (1 / m.det)⟩) := by
  simp [matrix_t.invert, h]

theorem toMatrix_scale (m : matrix_t) (c : ℚ) :
    (matrix_t.mk fun i => m.e i * c).toMatrix = c • m.toMatrix := by
  ext i j
  simp [matrix_t.toMatrix, mul_comm]

theorem apply4_apply4 (m n : matrix_t) (h : m.toMatrix * n.toMatrix = 1) (s : vec4f_t) :
    n.apply4 (m.apply4 s) = s := by
  have key : Matrix.vecMul (Matrix.vecMul ![s.x, s.y, s.z, s.w] m.toMatrix) n.toMatrix
      = ![s.x, s.y, s.z, s.w] := by
    rw [Matrix.vecMul_vecMul, h, Matrix.vecMul_one]
  have e0 := congrFun key 0
  have e1 := congrFun key 1
  have e2 := congrFun key 2
  have e3 := congrFun key 3
  simp [Matrix.vecMul, Matrix.dotProduct, Fin.sum_univ_four, matrix_t.toMatrix] at e0 e1 e2 e3
  cases s
  simp only [matrix_t.apply4, vec4f_t.mk.injEq]
  exact ⟨e0, e1, e2, e3⟩

theorem transform_loop_spec {α : Type} (body : α → α) (inp : Nat → α) :
    ∀ (todo q : Nat) (out : Nat → α) (i : Nat),
      transform_loop body inp todo q out i =
        if q ≤ i ∧ i < q + todo then body (inp i) else out i := by
  intro todo
  induction todo with
  | zero =>
    intro q out i
    have : ¬ (q ≤ i ∧ i < q + 0) := by omega
    rw [transform_loop, if_neg this]
  | succ n ih =>
    intro q out i
    rw [transform_loop, ih]
    by_cases h1 : i = q
    · subst h1; simp
    · by_cases h2 : q + 1 ≤ i ∧ i < q + 1 + n
      · have : q ≤ i ∧ i < q + (n + 1) := by omega
        simp [h2, this]
      · have : ¬ (q ≤ i ∧ i < q + (n + 1)) := by omega
        simp [h2, this, h1]

/-- C1: for every matrix `m` whose determinant is non-zero, `invert` returns
true and writes into `out` a matrix `N` with `m * N = N * m = 1`; transforming
any array of `n` 4-wide vectors by `m` and then by `N` gives back the input
vectors. -/
theorem invert_roundtrip (m out : matrix_t) (h : m.toMatrix.det ≠ 0) :
    (m.invert out).1 = true ∧
    m.toMatrix * (m.invert out).2.toMatrix = 1 ∧
    (m.invert out).2.toMatrix * m.toMatrix = 1 ∧
    ∀ (n : Nat) (inp out1 out2 : Nat → vec4f_t) (q : Nat), q < n →
      (m.invert out).2.transform4 n (m.transform4 n inp out1) out2 q = inp q := by
  have hd : m.det ≠ 0 := by rw [det_eq]; exact h
  have h1 : m.toMatrix * (m.invert out).2.toMatrix = 1 := by
    rw [invert_of_det_ne m out hd]
    show m.toMatrix * (matrix_t.mk fun i => (matrix_t.mk m.cofactors).e i * (1 / m.det)).toMatrix = 1
    rw [toMatrix_scale, Matrix.mul_smul, mul_cofactors, smul_smul]
    simp [hd]
  have h2 : (m.invert out).2.toMatrix * m.toMatrix = 1 := by
    rw [invert_of_det_ne m out hd]
    show (matrix_t.mk fun i => (matrix_t.mk m.cofactors).e i * (1 / m.det)).toMatrix * m.toMatrix = 1
    rw [toMatrix_scale, Matrix.smul_mul, cofactors_mul, smul_smul]
    simp [hd]
  refine ⟨by rw [invert_of_det_ne m out hd], h1, h2, ?_⟩
  intro n inp out1 out2 q hq
  have hr : 0 ≤ q ∧ q < 0 + n := by omega
  simp only [matrix_t.transform4, transform_loop_spec, hr, and_self, if_true]
  exact apply4_apply4 m _ h1 (inp q)

/-- Witness of `invert_roundtrip` at `sample_matrix` (determinant two). -/
theorem invert_roundtrip_witness :
    sample_matrix.toMatrix.det ≠ 0 ∧
    ((sample_matrix.invert sample_matrix).1 = true ∧
      sample_matrix.toMatrix * (sample_matrix.invert sample_matrix).2.toMatrix = 1 ∧
      (sample_matrix.invert sample_matrix).2.toMatrix * sample_matrix.toMatrix = 1 ∧
      ∀ (n : Nat) (inp out1 out2 : Nat → vec4f_t) (q : Nat), q < n →
        (sample_matrix.invert sample_matrix).2.transform4 n
          (sample_matrix.transform4 n inp out1) out2 q = inp q) :=
  have h : sample_matrix.toMatrix.det ≠ 0 := by
    rw [← det_eq]
    simp [sample_matrix, matrix_t.det, matrix_t.cofactors]
  ⟨h, invert_roundtrip sample_matrix sample_matrix h⟩

theorem identity_apply4 (m : matrix_t) (s : vec4f_t) : m.identity.apply4 s = s := by
  cases s
  simp [matrix_t.apply4, matrix_t.identity, MAT, val3, val2]

theorem identity_apply3 (m : matrix_t) (s : vec3f_t) : m.identity.apply3 s = s := by
  cases s
  simp [matrix_t.apply3, matrix_t.identity, MAT, val3, val2]

/-- C3: after `identity()`, whatever the matrix held before, both overloads of
`transform` store in `out[q]` exactly `in[q]`, for every `q < n`. -/
theorem identity_transform (m : matrix_t) (n : Nat) (inp3 out3 : Nat → vec3f_t)
    (inp4 out4 : Nat → vec4f_t) (q : Nat) (hq : q < n) :
    m.identity.transform3 n inp3 out3 q = inp3 q ∧
    m.identity.transform4 n inp4 out4 q = inp4 q := by
  have hr : 0 ≤ q ∧ q < 0 + n := by omega
  simp only [matrix_t.transform3, matrix_t.transform4, transform_loop_spec, hr, and_self, if_true]
  exact ⟨identity_apply3 m _, identity_apply4 m _⟩

/-- Witness of `identity_transform`: two vectors through the identity made from
`sample_matrix`. -/
theorem identity_transform_witness :
    1 < 2 ∧
    (sample_matrix.identity.transform3 2 (fun i => ⟨i, 7, -3 / 2⟩) (fun _ => ⟨0, 0, 0⟩) 1 =
        (fun i : Nat => (⟨i, 7, -3 / 2⟩ : vec3f_t)) 1 ∧
      sample_matrix.identity.transform4 2 (fun i => ⟨i, 7, -3 / 2, 1⟩) (fun _ => ⟨0, 0, 0, 0⟩) 1 =
        (fun i : Nat => (⟨i, 7, -3 / 2, 1⟩ : vec4f_t)) 1) :=
  ⟨by decide, identity_transform sample_matrix 2 _ _ _ _ 1 (by decide)⟩

/-! ## Back-face test -/

/-- C4, counterexample: for the collinear points `(0,0)`, `(1,0)`, `(2,0)`
swapping the first two arguments does not negate the result (both orders give
false), in exact and in binary32 arithmetic.  With binary32 rounding the
relations fail for non-collinear points too: for `a = (1, 1 - 2^-24)`,
`b = (0,0)`, `c = (1 + 2^-23, 1)` both `is_backface(a,b,c)` and
`is_backface(c,b,a)` are false, and for the three float points of the last part
`is_backface(a,b,c)` is false while `is_backface(b,c,a)` is true. -/
theorem is_backface_swap_counterexample :
    is_backface ⟨1, 0⟩ ⟨0, 0⟩ ⟨2, 0⟩ ≠ !(is_backface ⟨0, 0⟩ ⟨1, 0⟩ ⟨2, 0⟩) ∧
    is_backface_r round32 ⟨1, 0⟩ ⟨0, 0⟩ ⟨2, 0⟩ ≠
      !(is_backface_r round32 ⟨0, 0⟩ ⟨1, 0⟩ ⟨2, 0⟩) ∧
    (float_point ⟨1, 16777215 / 16777216⟩ ∧ float_point ⟨8388609 / 8388608, 1⟩ ∧
      signed_area ⟨1, 16777215 / 16777216⟩ ⟨0, 0⟩ ⟨8388609 / 8388608, 1⟩ ≠ 0 ∧
      is_backface_r round32 ⟨1, 16777215 / 16777216⟩ ⟨0, 0⟩ ⟨8388609 / 8388608, 1⟩ = false ∧
      is_backface_r round32 ⟨8388609 / 8388608, 1⟩ ⟨0, 0⟩ ⟨1, 16777215 / 16777216⟩ = false) ∧
    (float_point ⟨4390615 / 16384, 13475085 / 131072⟩ ∧
      float_point ⟨14428123 / 32768, -10744845 / 65536⟩ ∧
      float_point ⟨2605119 / 8192, 6650205 / 262144⟩ ∧
      is_backface_r round32 ⟨4390615 / 16384, 13475085 / 131072⟩
        ⟨14428123 / 32768, -10744845 / 65536⟩ ⟨2605119 / 8192, 6650205 / 262144⟩ = false ∧
      is_backface_r round32 ⟨14428123 / 32768, -10744845 / 65536⟩
        ⟨2605119 / 8192, 6650205 / 262144⟩ ⟨4390615 / 16384, 13475085 / 131072⟩ = true) := by
  refine ⟨by simp [is_backface], by decide!, ?_, ?_⟩
  · unfold float_point is_float
    decide!
  · unfold float_point is_float
    decide!

/-- C4, amended: in exact arithmetic `is_backface` is invariant under the cyclic
permutations of its arguments; when the three points are not collinear every
swap of two arguments negates the result; for collinear points every order
gives false. -/
theorem is_backface_perm (a b c : vec2f_t) :
    is_backface b c a = is_backface a b c ∧ is_backface c a b = is_backface a b c ∧
    (signed_area a b c ≠ 0 →
      is_backface b a c = !(is_backface a b c) ∧ is_backface a c b = !(is_backface a b c) ∧
      is_backface c b a = !(is_backface a b c)) ∧
    (signed_area a b c = 0 →
      is_backface a b c = false ∧ is_backface b a c = false ∧ is_backface a c b = false ∧
      is_backface c b a = false) := by
  have e1 : signed_area b c a = signed_area a b c := by simp only [signed_area]; ring
  have e2 : signed_area c a b = signed_area a b c := by simp only [signed_area]; ring
  have e3 : signed_area b a c = -signed_area a b c := by simp only [signed_area]; ring
  have e4 : signed_area a c b = -signed_area a b c := by simp only [signed_area]; ring
  have e5 : signed_area c b a = -signed_area a b c := by simp only [signed_area]; ring
  have hb : ∀ p q r, is_backface p q r = decide (signed_area p q r < 0) := by
    intro p q r; simp [is_backface, signed_area]
  simp only [hb, e1, e2, e3, e4, e5]
  refine ⟨trivial, trivial, ?_, ?_⟩
  · intro hne
    rcases lt_or_gt_of_ne hne with h | h
    · have : ¬ (-signed_area a b c < 0) := by linarith
      simp [h, this]
    · have h1 : ¬ (signed_area a b c < 0) := by linarith
      have h2 : -signed_area a b c < 0 := by linarith
      simp [h1, h2]
  · intro h0
    simp [h0]

/-! ## Line clipping and drawing -/

theorem classify_lt (p : vec2f_t) : classify p < 16 := by
  unfold classify classify_x classify_y CLIP_X_LO CLIP_X_HI CLIP_Y_LO CLIP_Y_HI
  split_ifs <;> decide

theorem classify_bits (p : vec2f_t) :
    (classify p &&& 1 ≠ 0 ↔ p.x < 8) ∧ (classify p &&& 2 ≠ 0 ↔ p.x > 504) ∧
    (classify p &&& 4 ≠ 0 ↔ p.y < 8) ∧ (classify p &&& 8 ≠ 0 ↔ p.y > 504) := by
  unfold classify classify_x classify_y CLIP_X_LO CLIP_X_HI CLIP_Y_LO CLIP_Y_HI min_x max_x min_y max_y
  by_cases h1 : p.x < 8 <;> by_cases h2 : p.x > 504 <;> by_cases h3 : p.y < 8 <;>
    by_cases h4 : p.y > 504 <;> simp +decide [h1, h2, h3, h4]

theorem classify_zero (p : vec2f_t) :
    classify p = 0 ↔ (8 ≤ p.x ∧ p.x ≤ 504 ∧ 8 ≤ p.y ∧ p.y ≤ 504) := by
  unfold classify classify_x classify_y CLIP_X_LO CLIP_X_HI CLIP_Y_LO CLIP_Y_HI min_x max_x min_y max_y
  by_cases h1 : p.x < 8 <;> by_cases h2 : p.x > 504 <;> by_cases h3 : p.y < 8 <;>
    by_cases h4 : p.y > 504 <;> simp +decide [h1, h2, h3, h4]
  exact ⟨not_lt.mp h1, not_lt.mp h2, not_lt.mp h3, not_lt.mp h4⟩

theorem outcode_or : ∀ ca < 16, ∀ cb < 16, (0 = (ca ||| cb) ↔ ca = 0 ∧ cb = 0) := by decide

theorem outcode_and1 : ∀ ca < 16, ∀ cb < 16,
    ((ca &&& cb) &&& 1 ≠ 0 ↔ ca &&& 1 ≠ 0 ∧ cb &&& 1 ≠ 0) := by decide

theorem outcode_and2 : ∀ ca < 16, ∀ cb < 16,
    ((ca &&& cb) &&& 2 ≠ 0 ↔ ca &&& 2 ≠ 0 ∧ cb &&& 2 ≠ 0) := by decide

theorem outcode_and4 : ∀ ca < 16, ∀ cb < 16,
    ((ca &&& cb) &&& 4 ≠ 0 ↔ ca &&& 4 ≠ 0 ∧ cb &&& 4 ≠ 0) := by decide

theorem outcode_and8 : ∀ ca < 16, ∀ cb < 16,
    ((ca &&& cb) &&& 8 ≠ 0 ↔ ca &&& 8 ≠ 0 ∧ cb &&& 8 ≠ 0) := by decide

theorem clip_line_inside_eq (a b : vec2f_t) (ha : classify a = 0) (hb : classify b = 0) :
    clip_line a b = (false, a, b) := by
  simp [clip_line, ha, hb]

theorem clip_line_true_iff (a b : vec2f_t) :
    (clip_line a b).1 = true ↔
      (a.x < 8 ∧ b.x < 8) ∨ (a.x > 504 ∧ b.x > 504) ∨ (a.y < 8 ∧ b.y < 8) ∨
        (a.y > 504 ∧ b.y > 504) := by
  have la := classify_lt a
  have lb := classify_lt b
  obtain ⟨a1, a2, a4, a8⟩ := classify_bits a
  obtain ⟨b1, b2, b4, b8⟩ := classify_bits b
  have h1 := outcode_and1 _ la _ lb
  have h2 := outcode_and2 _ la _ lb
  have h4 := outcode_and4 _ la _ lb
  have h8 := outcode_and8 _ la _ lb
  rw [a1, b1] at h1
  rw [a2, b2] at h2
  rw [a4, b4] at h4
  rw [a8, b8] at h8
  unfold clip_line
  simp only [CLIP_X_LO, CLIP_X_HI, CLIP_Y_LO, CLIP_Y_HI]
  by_cases h0 : 0 = (classify a ||| classify b)
  · have hz := (outcode_or _ la _ lb).mp h0
    have za := (classify_zero a).mp hz.1
    have zb := (classify_zero b).mp hz.2
    simp only [h0, if_true]
    constructor
    · intro h; cases h
    · rintro (h | h | h | h) <;> linarith [h.1, h.2]
  · simp only [h0, if_false, h1, h2, h4, h8]
    split_ifs with hc
    · simp only [true_iff]; exact hc
    · simp only [Bool.false_eq_true, false_iff]; exact hc

/-- C9: when both endpoints lie in the rectangle `8 ≤ x ≤ 504`, `8 ≤ y ≤ 504`,
`clip_line` returns false and leaves both endpoints unchanged, so clipping its
own output again changes nothing. -/
theorem clip_line_inside (a b : vec2f_t)
    (ha : 8 ≤ a.x ∧ a.x ≤ 504 ∧ 8 ≤ a.y ∧ a.y ≤ 504)
    (hb : 8 ≤ b.x ∧ b.x ≤ 504 ∧ 8 ≤ b.y ∧ b.y ≤ 504) :
    clip_line a b = (false, a, b) ∧
    clip_line (clip_line a b).2.1 (clip_line a b).2.2 = clip_line a b := by
  have h := clip_line_inside_eq a b ((classify_zero a).mpr ha) ((classify_zero b).mpr hb)
  rw [h]
  exact ⟨rfl, h⟩

/-- Witness of `clip_line_inside`: a segment from the left to the right side of
the rectangle. -/
theorem clip_line_inside_witness :
    (8 ≤ (vec2f_t.mk 8 20).x ∧ (vec2f_t.mk 8 20).x ≤ 504 ∧ 8 ≤ (vec2f_t.mk 8 20).y ∧
      (vec2f_t.mk 8 20).y ≤ 504) ∧
    (8 ≤ (vec2f_t.mk 504 (77 / 2)).x ∧ (vec2f_t.mk 504 (77 / 2)).x ≤ 504 ∧
      8 ≤ (vec2f_t.mk 504 (77 / 2)).y ∧ (vec2f_t.mk 504 (77 / 2)).y ≤ 504) ∧
    (clip_line ⟨8, 20⟩ ⟨504, 77 / 2⟩ = (false, ⟨8, 20⟩, ⟨504, 77 / 2⟩) ∧
      clip_line (clip_line ⟨8, 20⟩ ⟨504, 77 / 2⟩).2.1 (clip_line ⟨8, 20⟩ ⟨504, 77 / 2⟩).2.2 =
        clip_line ⟨8, 20⟩ ⟨504, 77 / 2⟩) :=
  ⟨by norm_num, by norm_num,
    clip_line_inside ⟨8, 20⟩ ⟨504, 77 / 2⟩ (by norm_num) (by norm_num)⟩

/-- C10, counterexample: the segment from `(0,14)` to `(14,0)` has no point in
the clip rectangle (it passes the corner `(8,8)` on the outside), yet
`clip_line` returns false. -/
theorem clip_line_outside_counterexample :
    segment_outside ⟨0, 14⟩ ⟨14, 0⟩ ∧ (clip_line ⟨0, 14⟩ ⟨14, 0⟩).1 = false := by
  constructor
  · intro t h0 h1 hin
    simp only [in_clip_rect, vec2f_t.lerp, util_lerp, min_x, max_x, min_y, max_y] at hin
    linarith [hin.1, hin.2.2.1]
  · have h := clip_line_true_iff ⟨0, 14⟩ ⟨14, 0⟩
    cases hc : (clip_line ⟨0, 14⟩ ⟨14, 0⟩).1
    · rfl
    · rw [hc] at h
      have := h.mp rfl
      norm_num at this

/-- C10, amended: `clip_line` returns true exactly when both endpoints violate
one and the same boundary (both `x < 8`, both `x > 504`, both `y < 8` or both
`y > 504`); such a segment has no point in the clip rectangle. -/
theorem clip_line_fully_clipped (a b : vec2f_t) :
    ((clip_line a b).1 = true ↔
      (a.x < 8 ∧ b.x < 8) ∨ (a.x > 504 ∧ b.x > 504) ∨ (a.y < 8 ∧ b.y < 8) ∨
        (a.y > 504 ∧ b.y > 504)) ∧
    ((clip_line a b).1 = true → segment_outside a b) := by
  refine ⟨clip_line_true_iff a b, ?_⟩
  intro h t h0 h1 hin
  simp only [in_clip_rect, vec2f_t.lerp, util_lerp, min_x, max_x, min_y, max_y] at hin
  obtain ⟨i1, i2, i3, i4⟩ := hin
  have h1' : 0 ≤ 1 - t := by linarith
  rcases (clip_line_true_iff a b).mp h with ⟨p, q⟩ | ⟨p, q⟩ | ⟨p, q⟩ | ⟨p, q⟩
  · nlinarith [mul_nonneg h1' (le_of_lt (sub_pos.mpr p)), mul_nonneg h0 (le_of_lt (sub_pos.mpr q))]
  · nlinarith [mul_nonneg h1' (le_of_lt (sub_pos.mpr p)), mul_nonneg h0 (le_of_lt (sub_pos.mpr q))]
  · nlinarith [mul_nonneg h1' (le_of_lt (sub_pos.mpr p)), mul_nonneg h0 (le_of_lt (sub_pos.mpr q))]
  · nlinarith [mul_nonneg h1' (le_of_lt (sub_pos.mpr p)), mul_nonneg h0 (le_of_lt (sub_pos.mpr q))]

/-- C6, counterexample: after `draw_line((0,0),(10,0),0xAABBCC)` on the empty
512x512 surface the pixel `(0,0)` does not hold the colour. -/
theorem draw_line_scenario_counterexample :
    (draw_line empty_surface ⟨0, 0⟩ ⟨10, 0⟩ 0xAABBCC).pixels (0 + 0 * 512) ≠ 0xAABBCC := by
  have h : (clip_line ⟨0, 0⟩ ⟨10, 0⟩).1 = true :=
    (clip_line_true_iff _ _).mpr (Or.inr (Or.inr (Or.inl ⟨by norm_num, by norm_num⟩)))
  simp [draw_line, h, empty_surface]

/-- C6, amended: `clip_line` reports the segment `(0,0)`-`(10,0)` fully clipped
(both endpoints have `y < 8`), and `draw_line` leaves the whole surface, the
pixels `(0,0)`..`(9,0)` and `(10,0)` included, unchanged. -/
theorem draw_line_scenario (surf : SDL_Surface) (color : Nat) :
    (clip_line ⟨0, 0⟩ ⟨10, 0⟩).1 = true ∧ draw_line surf ⟨0, 0⟩ ⟨10, 0⟩ color = surf := by
  have h : (clip_line ⟨0, 0⟩ ⟨10, 0⟩).1 = true :=
    (clip_line_true_iff _ _).mpr (Or.inr (Or.inr (Or.inl ⟨by norm_num, by norm_num⟩)))
  simp [draw_line, h]

/-! ## Scan conversion and fill: loop specifications -/

theorem wrap32_of_range (z : Int) (h1 : -2147483648 ≤ z) (h2 : z ≤ 2147483647) : wrap32 z = z := by
  unfold wrap32; omega

theorem wrap32_add_wrap32 (a b : Int) : wrap32 (wrap32 a + b) = wrap32 (a + b) := by
  unfold wrap32; omega

theorem shr16_eq (x : Int) : x >>> (16 : Nat) = x / 65536 := by
  rw [Int.shiftRight_eq_div_pow]; norm_num

theorem truncf_intCast (z : Int) : truncf (z : ℚ) = z := by
  unfold truncf; split_ifs <;> simp

theorem to_int32_intCast (z : Int) (h1 : -2147483648 ≤ z) (h2 : z ≤ 2147483647) :
    to_int32 (z : ℚ) = z := by
  simp [to_int32, truncf_intCast, h1, h2]

theorem accum_zero (idx x : Int) : accum idx 0 x = x := rfl

theorem accum_succ (idx : Int) (k : Nat) (x : Int) :
    accum idx (k + 1) x = accum idx k (wrap32 (x + idx)) := rfl

theorem accum_pos (idx : Int) (k : Nat) (x : Int) (hk : 0 < k) :
    accum idx k x = wrap32 (x + k * idx) := by
  induction k generalizing x with
  | zero => omega
  | succ n ih =>
    rw [accum_succ]
    rcases Nat.eq_zero_or_pos n with h0 | hp
    · subst h0; simp [accum]
    · rw [ih _ hp, wrap32_add_wrap32]
      congr 1
      push_cast
      ring

theorem accum_of_range (idx : Int) (k : Nat) (x : Int)
    (hx1 : -2147483648 ≤ x + k * idx) (hx2 : x + k * idx ≤ 2147483647) :
    accum idx k x = x + k * idx := by
  rcases Nat.eq_zero_or_pos k with h0 | hp
  · subst h0; simp [accum]
  · rw [accum_pos _ _ _ hp, wrap32_of_range _ hx1 hx2]

theorem scan_loop_spec (clip : clip_span_t) (idx : Int) :
    ∀ (todo : Nat) (y x : Int) (span : Int → Int) (i : Int),
      scan_loop clip idx todo y x span i =
        if y ≤ i ∧ i < y + todo then span_value clip (accum idx (i - y).toNat x) else span i := by
  intro todo
  induction todo with
  | zero =>
    intro y x span i
    have : ¬ (y ≤ i ∧ i < y + ((0 : Nat) : Int)) := by omega
    rw [scan_loop, if_neg this]
  | succ n ih =>
    intro y x span i
    rw [scan_loop, ih]
    by_cases h1 : i = y
    · subst h1
      have a : ¬ (i + 1 ≤ i ∧ i < i + 1 + (n : Int)) := by omega
      have b : i ≤ i ∧ i < i + ((n + 1 : Nat) : Int) := by omega
      simp [a, b, accum]
    · by_cases h2 : y + 1 ≤ i ∧ i < y + 1 + (n : Int)
      · have b : y ≤ i ∧ i < y + ((n + 1 : Nat) : Int) := by omega
        have e : (i - y).toNat = (i - (y + 1)).toNat + 1 := by omega
        rw [if_pos h2, if_pos b, e, accum_succ]
      · have b : ¬ (y ≤ i ∧ i < y + ((n + 1 : Nat) : Int)) := by omega
        rw [if_neg h2, if_neg b, if_neg h1]

theorem raster_scanline_spec (rgb : Nat) :
    ∀ (todo : Nat) (px : Int) (mem : Int → Nat) (i : Int),
      raster_scanline rgb todo px mem i = if px ≤ i ∧ i < px + todo then rgb else mem i := by
  intro todo
  induction todo with
  | zero =>
    intro px mem i
    have : ¬ (px ≤ i ∧ i < px + ((0 : Nat) : Int)) := by omega
    rw [raster_scanline, if_neg this]
  | succ n ih =>
    intro px mem i
    rw [raster_scanline, ih]
    by_cases h1 : i = px
    · subst h1
      have b : i ≤ i ∧ i < i + ((n + 1 : Nat) : Int) := by omega
      simp [b]
    · by_cases h2 : px + 1 ≤ i ∧ i < px + 1 + (n : Int)
      · have b : px ≤ i ∧ i < px + ((n + 1 : Nat) : Int) := by omega
        rw [if_pos h2, if_pos b]
      · have b : ¬ (px ≤ i ∧ i < px + ((n + 1 : Nat) : Int)) := by omega
        rw [if_neg h2, if_neg b, if_neg h1]

theorem fill_rows_spec (lo hi : Int → Int) (stride : Int) (rgb : Nat) :
    ∀ (todo : Nat) (y py : Int) (mem : Int → Nat) (i : Int),
      fill_rows lo hi stride rgb todo y py mem i =
        rgb ∧ (∃ k : Nat, k < todo ∧ row_writes lo hi (py + k * stride) (y + k) i) ∨
      fill_rows lo hi stride rgb todo y py mem i = mem i ∧
        ¬ (∃ k : Nat, k < todo ∧ row_writes lo hi (py + k * stride) (y + k) i) := by
  intro todo
  induction todo with
  | zero =>
    intro y py mem i
    right
    exact ⟨rfl, by rintro ⟨k, hk, _⟩; omega⟩
  | succ n ih =>
    intro y py mem i
    rw [fill_rows]
    rcases ih (y + 1) (py + stride) (raster_scanline rgb (hi y - lo y).toNat (py + lo y) mem) i
      with ⟨h, k, hk, hw⟩ | ⟨h, hn⟩
    · left
      refine ⟨h, k + 1, by omega, ?_⟩
      have e1 : py + ((k + 1 : Nat) : Int) * stride = py + stride + k * stride := by
        push_cast; ring
      have e2 : y + ((k + 1 : Nat) : Int) = y + 1 + k := by push_cast; ring
      rw [e1, e2]; exact hw
    · rw [h, raster_scanline_spec]
      by_cases hr : py + lo y ≤ i ∧ i < py + lo y + ((hi y - lo y).toNat : Int)
      · left
        refine ⟨if_pos hr, 0, by omega, ?_⟩
        simpa [row_writes] using hr
      · right
        refine ⟨if_neg hr, ?_⟩
        rintro ⟨k, hk, hw⟩
        rcases Nat.eq_zero_or_pos k with h0 | hp
        · subst h0
          apply hr
          simpa [row_writes] using hw
        · apply hn
          refine ⟨k - 1, by omega, ?_⟩
          have e1 : py + stride + ((k - 1 : Nat) : Int) * stride = py + (k : Int) * stride := by
            have : ((k - 1 : Nat) : Int) = (k : Int) - 1 := by omega
            rw [this]; ring
          have e2 : y + 1 + ((k - 1 : Nat) : Int) = y + k := by omega
          rw [e1, e2]; exact hw

theorem scan_convert_reject (clip : clip_span_t) (a b : vec2f_t) (span : Int → Int)
    (h : b.y < 0 ∨ a.y > 511 ∨ b.y ≤ a.y) : scan_convert clip a b span = span := by
  unfold scan_convert
  by_cases h1 : b.y < 0 ∨ a.y > ((screen_h : Int) : ℚ)
  · rw [if_pos h1]
  · rw [if_neg h1]
    have h3 : b.y ≤ a.y := by
      rcases h with h | h | h
      · exact absurd (Or.inl h) h1
      · exact absurd (Or.inr (by simpa [screen_h] using h)) h1
      · exact h
    rw [if_pos h3]

theorem scan_convert_walk (clip : clip_span_t) (a b : vec2f_t) (span : Int → Int)
    (h1 : 0 ≤ b.y) (h2 : a.y ≤ 511) (h3 : a.y < b.y) (i : Int) :
    scan_convert clip a b span i =
      if edge_iay a ≤ i ∧ i ≤ edge_iby b then
        span_value clip (accum (edge_idx a b) (i - edge_iay a).toNat (edge_x0 a b))
      else span i := by
  have c1 : ¬ (b.y < 0 ∨ a.y > ((screen_h : Int) : ℚ)) := by
    simp only [screen_h, not_or, not_lt]
    exact ⟨h1, by push_cast; linarith⟩
  have c2 : ¬ (b.y ≤ a.y) := not_le.mpr h3
  have e : scan_convert clip a b span =
      scan_loop clip (edge_idx a b) (edge_iby b + 1 - edge_iay a).toNat (edge_iay a)
        (edge_x0 a b) span := by
    unfold scan_convert
    rw [if_neg c1, if_neg c2]
    unfold edge_idx edge_iby edge_iay edge_x0 edge_top edge_dx
    by_cases h0 : a.y < 0
    · simp only [h0, if_true, zero_sub]
    · simp only [h0, if_false]
  rw [e, scan_loop_spec]
  by_cases hi : edge_iay a ≤ i ∧ i ≤ edge_iby b
  · have hi' : edge_iay a ≤ i ∧ i < edge_iay a + (((edge_iby b + 1 - edge_iay a).toNat : Nat) : Int) := by
      omega
    rw [if_pos hi, if_pos hi']
  · have hi' : ¬ (edge_iay a ≤ i ∧ i < edge_iay a + (((edge_iby b + 1 - edge_iay a).toNat : Nat) : Int)) := by
      omega
    rw [if_neg hi, if_neg hi']

theorem to_int32_zero : to_int32 (0 : ℚ) = 0 := by
  simpa using to_int32_intCast 0 (by norm_num) (by norm_num)

theorem edge_vertical (n : Int) (h1 : 1 ≤ n) (h2 : n ≤ 511) :
    edge_iay ⟨0, 0⟩ = 0 ∧ edge_iby ⟨0, n⟩ = n ∧ edge_x0 ⟨0, 0⟩ ⟨0, n⟩ = 0 ∧
      edge_idx ⟨0, 0⟩ ⟨0, n⟩ = 0 := by
  have tn : to_int32 (n : ℚ) = n := to_int32_intCast n (by omega) (by omega)
  refine ⟨?_, ?_, ?_, ?_⟩
  · simp [edge_iay, edge_top, to_int32_zero, maxv]
  · simp only [edge_iby, tn, minv, screen_h]; split_ifs <;> omega
  · simp [edge_x0, edge_dx, edge_top, to_int32_zero]
  · simp [edge_idx, edge_dx, to_int32_zero]

theorem edge_diagonal (n : Int) (h1 : 1 ≤ n) (h2 : n ≤ 511) :
    edge_iay ⟨n, 0⟩ = 0 ∧ edge_iby ⟨0, n⟩ = n ∧ edge_x0 ⟨n, 0⟩ ⟨0, n⟩ = n * 65536 ∧
      edge_idx ⟨n, 0⟩ ⟨0, n⟩ = -65536 := by
  have tn : to_int32 (n : ℚ) = n := to_int32_intCast n (by omega) (by omega)
  have hq : (n : ℚ) ≠ 0 := by exact_mod_cast (by omega : n ≠ 0)
  have hdx : edge_dx ⟨n, 0⟩ ⟨0, n⟩ = -1 := by
    simp only [edge_dx, zero_sub, sub_zero]
    field_simp
  refine ⟨?_, ?_, ?_, ?_⟩
  · simp [edge_iay, edge_top, to_int32_zero, maxv]
  · simp only [edge_iby, tn, minv, screen_h]; split_ifs <;> omega
  · simp only [edge_x0, hdx, edge_top, lt_self_iff_false, if_false, Int.ceil_zero, Int.cast_zero,
      sub_self, mul_zero, add_zero]
    have : (n : ℚ) * 65536 = ((n * 65536 : Int) : ℚ) := by push_cast; ring
    rw [this, to_int32_intCast _ (by omega) (by omega)]
  · simp only [edge_idx, hdx]
    have : (-1 : ℚ) * 65536 = ((-65536 : Int) : ℚ) := by norm_num
    rw [this, to_int32_intCast _ (by omega) (by omega)]

theorem lo_right (n : Int) (h1 : 1 ≤ n) (h2 : n ≤ 511) (span : Int → Int) (i : Int) :
    scan_convert .CLIP_SPAN_MAX_X ⟨0, 0⟩ ⟨0, n⟩ span i =
      if 0 ≤ i ∧ i ≤ n then 0 else span i := by
  have hb : (0 : ℚ) ≤ (vec2f_t.mk 0 n).y := by
    show (0 : ℚ) ≤ (n : ℚ); exact_mod_cast (by omega : (0 : Int) ≤ n)
  have hlt : (vec2f_t.mk 0 0).y < (vec2f_t.mk 0 n).y := by
    show (0 : ℚ) < (n : ℚ); exact_mod_cast (by omega : (0 : Int) < n)
  obtain ⟨e1, e2, e3, e4⟩ := edge_vertical n h1 h2
  rw [scan_convert_walk _ _ _ _ hb (by norm_num) hlt, e1, e2, e3, e4]
  by_cases hi : 0 ≤ i ∧ i ≤ n
  · rw [if_pos hi, if_pos hi, accum_of_range _ _ _ (by omega) (by omega)]
    simp [span_value, shr16_eq]
  · rw [if_neg hi, if_neg hi]

theorem hi_right (n : Int) (h1 : 1 ≤ n) (h2 : n ≤ 511) (span : Int → Int) (i : Int) :
    scan_convert .CLIP_SPAN_MIN_X ⟨n, 0⟩ ⟨0, n⟩ span i =
      if 0 ≤ i ∧ i ≤ n then n - i else span i := by
  have hb : (0 : ℚ) ≤ (vec2f_t.mk 0 n).y := by
    show (0 : ℚ) ≤ (n : ℚ); exact_mod_cast (by omega : (0 : Int) ≤ n)
  have hlt : (vec2f_t.mk n 0).y < (vec2f_t.mk 0 n).y := by
    show (0 : ℚ) < (n : ℚ); exact_mod_cast (by omega : (0 : Int) < n)
  obtain ⟨e1, e2, e3, e4⟩ := edge_diagonal n h1 h2
  rw [scan_convert_walk _ _ _ _ hb (by norm_num) hlt, e1, e2, e3, e4]
  by_cases hi : 0 ≤ i ∧ i ≤ n
  · have c : (((i - 0).toNat : Nat) : Int) = i := by omega
    rw [if_pos hi, if_pos hi, accum_of_range _ _ _ (by omega) (by omega), c]
    simp only [span_value, shr16_eq, screen_w]
    omega
  · rw [if_neg hi, if_neg hi]

/-! ## The right triangle `(0,0)`, `(n,0)`, `(0,n)` -/

theorem sort3_right (n : Int) (h1 : 1 ≤ n) :
    sort3 (⟨0, 0⟩, ⟨n, 0⟩, ⟨0, n⟩) = (⟨0, 0⟩, ⟨n, 0⟩, ⟨0, n⟩) := by
  have hn : ¬ ((n : ℚ) < 0) := by
    have : (0 : ℚ) ≤ n := by exact_mod_cast (by omega : (0 : Int) ≤ n)
    linarith
  simp [sort3, hn]

theorem scan_edges_right (n : Int) (h1 : 1 ≤ n) (h2 : n ≤ 511) (lo0 hi0 : Int → Int) :
    scan_edges (⟨0, 0⟩, ⟨n, 0⟩, ⟨0, n⟩) 0 ((n : ℚ) * n) lo0 hi0 =
      (fun i => if 0 ≤ i ∧ i ≤ n then 0 else lo0 i,
       fun i => if 0 ≤ i ∧ i ≤ n then n - i else hi0 i) := by
  have hpos : (0 : ℚ) < (n : ℚ) * n := by
    have : (0 : ℚ) < n := by exact_mod_cast (by omega : (0 : Int) < n)
    positivity
  have hc : ¬ ((0 : ℚ) > (n : ℚ) * n) := by linarith
  unfold scan_edges
  rw [if_neg hc]
  have r : scan_convert .CLIP_SPAN_MIN_X ⟨0, 0⟩ ⟨n, 0⟩ hi0 = hi0 :=
    scan_convert_reject _ _ _ _ (Or.inr (Or.inr (le_refl _)))
  simp only [r]
  ext i <;> simp only
  · exact lo_right n h1 h2 lo0 i
  · exact hi_right n h1 h2 hi0 i

/-- C5: for `1 ≤ n ≤ 511`, `scan_triangle` on `(0,0)`, `(n,0)`, `(0,n)` with a
row stride of 512 pixels (`pitch = 2048` bytes) returns true, and the memory
offset `x + y * 512` of column `0 ≤ x < 512` and row `y` holds the colour
exactly when `0 ≤ y` and `x + y < n`; every other offset is unchanged. -/
theorem scan_triangle_right (n : Int) (h1 : 1 ≤ n) (h2 : n ≤ 511) (surf : SDL_Surface)
    (hp : surf.pitch = 2048) (rgb : Nat) (lo0 hi0 : Int → Int) :
    (scan_triangle surf (⟨0, 0⟩, ⟨n, 0⟩, ⟨0, n⟩) rgb lo0 hi0).1 = true ∧
    ∀ x y : Int, 0 ≤ x → x < 512 →
      (scan_triangle surf (⟨0, 0⟩, ⟨n, 0⟩, ⟨0, n⟩) rgb lo0 hi0).2.pixels (x + y * 512) =
        if 0 ≤ y ∧ x + y < n then rgb else surf.pixels (x + y * 512) := by
  have hq : (0 : ℚ) < n := by exact_mod_cast (by omega : (0 : Int) < n)
  have hne : ¬ ((0 : ℚ) = (n : ℚ) * n) := by
    have : (0 : ℚ) < (n : ℚ) * n := by positivity
    linarith
  have tn : to_int32 (n : ℚ) = n := to_int32_intCast n (by omega) (by omega)
  have e : scan_triangle surf (⟨0, 0⟩, ⟨n, 0⟩, ⟨0, n⟩) rgb lo0 hi0 =
      (true, { surf with
        pixels := fill_rows (fun i => if 0 ≤ i ∧ i ≤ n then 0 else lo0 i)
          (fun i => if 0 ≤ i ∧ i ≤ n then n - i else hi0 i) 512 rgb (n + 1).toNat 0 0
          surf.pixels }) := by
    unfold scan_triangle
    simp only [sort3_right n h1, sub_zero, zero_mul, mul_zero, add_zero, sub_self]
    rw [if_neg hne, scan_edges_right n h1 h2]
    simp only [Int.ceil_zero, Int.cast_zero, to_int32_zero, tn, hp, max_self, zero_mul]
    have m : min n 511 = n := min_eq_left h2
    rw [m]
    have d : Int.tdiv 2048 4 = 512 := by decide
    simp [d]
  rw [e]
  refine ⟨rfl, ?_⟩
  intro x y hx0 hx1
  simp only
  rcases fill_rows_spec (fun i => if 0 ≤ i ∧ i ≤ n then 0 else lo0 i)
      (fun i => if 0 ≤ i ∧ i ≤ n then n - i else hi0 i) 512 rgb (n + 1).toNat 0 0 surf.pixels
      (x + y * 512) with ⟨h, k, hk, hw⟩ | ⟨h, hn⟩
  · rw [h]
    have hk' : (0 : Int) ≤ 0 + k ∧ 0 + (k : Int) ≤ n := by omega
    simp only [row_writes, if_pos hk'] at hw
    have : 0 ≤ y ∧ x + y < n := by omega
    rw [if_pos this]
  · rw [h]
    by_cases c : 0 ≤ y ∧ x + y < n
    · exfalso
      apply hn
      refine ⟨y.toNat, by omega, ?_⟩
      have hk' : (0 : Int) ≤ 0 + (y.toNat : Int) ∧ 0 + (y.toNat : Int) ≤ n := by omega
      simp only [row_writes, if_pos hk']
      omega
    · rw [if_neg c]

/-- Witness of `scan_triangle_right`: `n = 10`, colour `0xAABBCC`, on the empty
surface; the far-edge pixels `(10,0)` and `(0,10)` keep their value zero. -/
theorem scan_triangle_right_witness :
    ((1 : Int) ≤ 10 ∧ (10 : Int) ≤ 511 ∧ empty_surface.pitch = 2048) ∧
    ((scan_triangle empty_surface (⟨0, 0⟩, ⟨(10 : Int), 0⟩, ⟨0, (10 : Int)⟩) 0xAABBCC
        (fun _ => 0) (fun _ => 0)).1 = true ∧
      ∀ x y : Int, 0 ≤ x → x < 512 →
        (scan_triangle empty_surface (⟨0, 0⟩, ⟨(10 : Int), 0⟩, ⟨0, (10 : Int)⟩) 0xAABBCC
          (fun _ => 0) (fun _ => 0)).2.pixels (x + y * 512) =
          if 0 ≤ y ∧ x + y < 10 then 0xAABBCC else empty_surface.pixels (x + y * 512)) ∧
    (scan_triangle empty_surface (⟨0, 0⟩, ⟨(10 : Int), 0⟩, ⟨0, (10 : Int)⟩) 0xAABBCC
        (fun _ => 0) (fun _ => 0)).2.pixels (10 + 0 * 512) = 0 ∧
    (scan_triangle empty_surface (⟨0, 0⟩, ⟨(10 : Int), 0⟩, ⟨0, (10 : Int)⟩) 0xAABBCC
        (fun _ => 0) (fun _ => 0)).2.pixels (0 + 10 * 512) = 0 :=
  have h := scan_triangle_right 10 (by decide) (by decide) empty_surface rfl 0xAABBCC
    (fun _ => 0) (fun _ => 0)
  ⟨⟨by decide, by decide, rfl⟩, h,
    by rw [h.2 10 0 (by decide) (by decide)]; simp [empty_surface],
    by rw [h.2 0 10 (by decide) (by decide)]; simp [empty_surface]⟩

/-! ## The span tables of a general triangle -/

/-- The function `scan_triangle` in terms of `span_tables`, `fill_y0` and `fill_y1`. -/
theorem scan_triangle_unfold (surf : SDL_Surface) (v : vec2f_t × vec2f_t × vec2f_t) (rgb : Nat)
    (lo0 hi0 : Int → Int) :
    scan_triangle surf v rgb lo0 hi0 =
      if side_d1 (sort3 v) = side_d2 (sort3 v) then (false, surf)
      else (true, { surf with
        pixels := fill_rows (span_tables v lo0 hi0).1 (span_tables v lo0 hi0).2
          (Int.tdiv surf.pitch 4) rgb (fill_y1 v + 1 - fill_y0 v).toNat (fill_y0 v)
          (Int.tdiv (fill_y0 v * surf.pitch) 4) surf.pixels }) := rfl

theorem sort3_sorted (v : vec2f_t × vec2f_t × vec2f_t) :
    (sort3 v).1.y ≤ (sort3 v).2.1.y ∧ (sort3 v).2.1.y ≤ (sort3 v).2.2.y := by
  obtain ⟨a, b, c⟩ := v
  unfold sort3
  by_cases h1 : b.y < a.y <;> by_cases h2 : c.y < a.y <;> by_cases h3 : c.y < b.y <;>
    by_cases h4 : a.y < b.y <;> by_cases h5 : b.y < c.y <;> by_cases h6 : a.y < c.y <;>
    simp [h1, h2, h3, h4, h5, h6] <;> constructor <;> linarith

theorem side_eq_iff (v : vec2f_t × vec2f_t × vec2f_t) :
    side_d1 (sort3 v) = side_d2 (sort3 v) ↔ signed_area v.1 v.2.1 v.2.2 = 0 := by
  obtain ⟨a, b, c⟩ := v
  unfold sort3 side_d1 side_d2 signed_area
  by_cases h1 : b.y < a.y <;> by_cases h2 : c.y < a.y <;> by_cases h3 : c.y < b.y <;>
    by_cases h4 : a.y < b.y <;> by_cases h5 : b.y < c.y <;> by_cases h6 : a.y < c.y <;>
    simp only [h1, h2, h3, h4, h5, h6, if_true, if_false] <;>
    constructor <;> intro h <;> first | linear_combination h | linear_combination -h

theorem scan_convert_covered (clip : clip_span_t) (a b : vec2f_t) (span : Int → Int) (y : Int)
    (h : walk_covers a b y) :
    scan_convert clip a b span y = span_value clip (edge_acc a b y) := by
  obtain ⟨h1, h2, h3, h4, h5⟩ := h
  rw [scan_convert_walk clip a b span h1 h2 h3, if_pos ⟨h4, h5⟩]
  rfl

theorem scan_convert_uncovered (clip : clip_span_t) (a b : vec2f_t) (span : Int → Int) (y : Int)
    (h : ¬ walk_covers a b y) : scan_convert clip a b span y = span y := by
  by_cases hr : b.y < 0 ∨ a.y > 511 ∨ b.y ≤ a.y
  · rw [scan_convert_reject clip a b span hr]
  · simp only [not_or, not_lt, not_le] at hr
    obtain ⟨h1, h2, h3⟩ := hr
    rw [scan_convert_walk clip a b span h1 h2 h3]
    have : ¬ (edge_iay a ≤ y ∧ y ≤ edge_iby b) := fun hc => h ⟨h1, h2, h3, hc.1, hc.2⟩
    rw [if_neg this]

theorem span_value_max_nonneg (x : Int) : 0 ≤ span_value .CLIP_SPAN_MAX_X x := by
  simp [span_value]

theorem span_value_min_le (x : Int) : span_value .CLIP_SPAN_MIN_X x ≤ 511 := by
  simp [span_value, screen_w]

theorem to_int32_floor (q : ℚ) (h0 : 0 ≤ q) (h1 : q < 2147483648) : to_int32 q = ⌊q⌋ := by
  have f0 : 0 ≤ ⌊q⌋ := Int.floor_nonneg.mpr h0
  have f1 : ⌊q⌋ < 2147483648 := by
    rw [Int.floor_lt]; exact_mod_cast h1
  simp only [to_int32, truncf, h0, if_true]
  rw [if_pos ⟨by omega, by omega⟩]

theorem to_int32_nonneg_cases (q : ℚ) (h0 : 0 ≤ q) :
    (q < 2147483648 ∧ to_int32 q = ⌊q⌋) ∨ to_int32 q = -2147483648 := by
  by_cases h1 : q < 2147483648
  · exact Or.inl ⟨h1, to_int32_floor q h0 h1⟩
  · right
    have f1 : 2147483648 ≤ ⌊q⌋ := by
      rw [Int.le_floor]; push_cast; linarith
    simp only [to_int32, truncf, h0, if_true]
    rw [if_neg (by omega)]

theorem edge_iay_le (a : vec2f_t) (y : Int) (h1 : a.y ≤ 511) (h2 : a.y ≤ y) (h3 : 0 ≤ y) :
    edge_iay a ≤ y := by
  unfold edge_iay edge_top
  by_cases h0 : a.y < 0
  · simp only [h0, if_true, to_int32_zero, maxv]
    split_ifs <;> omega
  · simp only [h0, if_false]
    have c0 : 0 ≤ ⌈a.y⌉ := Int.ceil_nonneg (not_lt.mp h0)
    have c1 : ⌈a.y⌉ ≤ 511 := by rw [Int.ceil_le]; exact_mod_cast h1
    have c2 : ⌈a.y⌉ ≤ y := by rw [Int.ceil_le]; exact h2
    rw [to_int32_intCast _ (by omega) (by omega)]
    unfold maxv
    split_ifs <;> omega

theorem le_edge_iby (b : vec2f_t) (y : Int) (h0 : 0 ≤ b.y) (h1 : b.y < 2147483648)
    (h2 : (y : ℚ) ≤ b.y) (h3 : y ≤ 511) : y ≤ edge_iby b := by
  unfold edge_iby
  rw [to_int32_floor _ h0 h1]
  have : y ≤ ⌊b.y⌋ := by rw [Int.le_floor]; exact h2
  unfold minv screen_h
  split_ifs <;> omega

theorem visited_row (v0y v2y : ℚ) (y : Int) (h2 : 0 ≤ v2y)
    (h0 : v0y ≤ 2147483647)
    (hy0 : max (to_int32 ((⌈v0y⌉ : Int) : ℚ)) 0 ≤ y) (hy1 : y ≤ min (to_int32 v2y) 511) :
    0 ≤ y ∧ y ≤ 511 ∧ v0y ≤ y ∧ (y : ℚ) ≤ v2y ∧ v2y < 2147483648 := by
  have y0 : 0 ≤ y := le_trans (le_max_right _ _) hy0
  have y1 : y ≤ 511 := le_trans hy1 (min_le_right _ _)
  have hb : y ≤ to_int32 v2y := le_trans hy1 (min_le_left _ _)
  have ha : to_int32 ((⌈v0y⌉ : Int) : ℚ) ≤ y := le_trans (le_max_left _ _) hy0
  rcases to_int32_nonneg_cases v2y h2 with ⟨hlt, he⟩ | he
  · rw [he] at hb
    have hyq : (y : ℚ) ≤ v2y := Int.le_floor.mp hb
    refine ⟨y0, y1, ?_, hyq, hlt⟩
    have c1 : ⌈v0y⌉ ≤ 2147483647 := by rw [Int.ceil_le]; exact_mod_cast h0
    by_cases c0 : -2147483648 ≤ ⌈v0y⌉
    · rw [to_int32_intCast _ c0 c1] at ha
      exact Int.ceil_le.mp ha
    · have : ⌈v0y⌉ ≤ y := by omega
      exact Int.ceil_le.mp this
  · rw [he] at hb; omega

theorem long_covers (v0 v2 : vec2f_t) (y : Int) (hlt : v0.y < v2.y) (h2 : 0 ≤ v2.y)
    (y0 : 0 ≤ y) (y1 : y ≤ 511) (ha : v0.y ≤ y) (hb : (y : ℚ) ≤ v2.y)
    (hr : v2.y < 2147483648) : walk_covers v0 v2 y := by
  have y1q : (y : ℚ) ≤ 511 := by exact_mod_cast y1
  exact ⟨h2, by linarith, hlt, edge_iay_le v0 y (by linarith) ha y0, le_edge_iby v2 y h2 hr hb y1⟩

theorem short_covers (v0 v1 v2 : vec2f_t) (y : Int) (h12 : v1.y ≤ v2.y)
    (hlt : v0.y < v2.y) (y0 : 0 ≤ y) (y1 : y ≤ 511) (ha : v0.y ≤ y) (hb : (y : ℚ) ≤ v2.y)
    (hr : v2.y < 2147483648) :
    walk_covers v1 v2 y ∨ (¬ walk_covers v1 v2 y ∧ walk_covers v0 v1 y) := by
  have y0q : (0 : ℚ) ≤ y := by exact_mod_cast y0
  by_cases c : v1.y < v2.y ∧ v1.y ≤ y
  · left
    exact long_covers v1 v2 y c.1 (by linarith) y0 y1 c.2 hb hr
  · right
    by_cases w : walk_covers v1 v2 y
    · exfalso
      obtain ⟨_, w2, w3, w4, _⟩ := w
      apply c
      refine ⟨w3, ?_⟩
      unfold edge_iay edge_top at w4
      by_cases h0 : v1.y < 0
      · linarith
      · simp only [h0, if_false] at w4
        have c0 : 0 ≤ ⌈v1.y⌉ := Int.ceil_nonneg (not_lt.mp h0)
        have c1 : ⌈v1.y⌉ ≤ 511 := by rw [Int.ceil_le]; exact_mod_cast w2
        rw [to_int32_intCast _ (by omega) (by omega)] at w4
        have : ⌈v1.y⌉ ≤ y := by
          unfold maxv at w4
          split_ifs at w4 <;> omega
        exact Int.ceil_le.mp this
    · refine ⟨w, ?_⟩
      have hy1 : (y : ℚ) ≤ v1.y := by
        by_contra hc
        apply c
        refine ⟨?_, by linarith⟩
        linarith
      have h01' : v0.y < v1.y := by
        rcases lt_or_eq_of_le h12 with h | h
        · by_contra hc
          have : v1.y ≤ y := by linarith
          exact c ⟨h, this⟩
        · linarith
      exact long_covers v0 v1 y h01' (by linarith) y0 y1 ha hy1 (by linarith)

theorem short_entry (clip : clip_span_t) (v0 v1 v2 : vec2f_t) (t0 : Int → Int) (y : Int)
    (h : walk_covers v1 v2 y ∨ (¬ walk_covers v1 v2 y ∧ walk_covers v0 v1 y)) :
    (walk_covers v1 v2 y ∧
      scan_convert clip v1 v2 (scan_convert clip v0 v1 t0) y =
        span_value clip (edge_acc v1 v2 y)) ∨
    (walk_covers v0 v1 y ∧
      scan_convert clip v1 v2 (scan_convert clip v0 v1 t0) y =
        span_value clip (edge_acc v0 v1 y)) := by
  rcases h with h | ⟨h1, h2⟩
  · exact Or.inl ⟨h, scan_convert_covered _ _ _ _ _ h⟩
  · right
    refine ⟨h2, ?_⟩
    rw [scan_convert_uncovered _ _ _ _ _ h1, scan_convert_covered _ _ _ _ _ h2]

theorem sorted_strict (v : vec2f_t × vec2f_t × vec2f_t)
    (hne : signed_area v.1 v.2.1 v.2.2 ≠ 0) : (sort3 v).1.y < (sort3 v).2.2.y := by
  obtain ⟨h01, h12⟩ := sort3_sorted v
  rcases lt_or_eq_of_le (le_trans h01 h12) with h | h
  · exact h
  · exfalso
    apply hne
    rw [← side_eq_iff]
    have e1 : (sort3 v).2.1.y = (sort3 v).1.y := by linarith
    simp only [side_d1, side_d2]
    rw [e1, ← h]
    ring

/-- C8, amended: for a non-collinear triangle whose bottom vertex (largest y)
has `y ≥ 0` and whose top vertex (smallest y) has `y ≤ 2^31 - 1`, every row the
fill loop visits has `lo[y] ≥ 0` and `hi[y] ≤ 511`, whatever the span tables
held before: `lo` is clamped from below only and `hi` from above only. -/
theorem span_tables_clamped (v : vec2f_t × vec2f_t × vec2f_t) (lo0 hi0 : Int → Int) (y : Int)
    (hne : signed_area v.1 v.2.1 v.2.2 ≠ 0) (h2 : 0 ≤ (sort3 v).2.2.y)
    (h0 : (sort3 v).1.y ≤ 2147483647) (hy0 : fill_y0 v ≤ y) (hy1 : y ≤ fill_y1 v) :
    0 ≤ (span_tables v lo0 hi0).1 y ∧ (span_tables v lo0 hi0).2 y ≤ 511 := by
  obtain ⟨h01, h12⟩ := sort3_sorted v
  have hlt := sorted_strict v hne
  obtain ⟨y0, y1, ha, hb, hr⟩ := visited_row _ _ y h2 h0 hy0 hy1
  have hl := long_covers _ _ y hlt h2 y0 y1 ha hb hr
  have hs := short_covers _ _ _ y h12 hlt y0 y1 ha hb hr
  unfold span_tables scan_edges
  split_ifs with hd
  · constructor
    · rcases short_entry .CLIP_SPAN_MAX_X _ _ _ lo0 y hs with ⟨_, e⟩ | ⟨_, e⟩ <;>
        simp only [e] <;> exact span_value_max_nonneg _
    · simp only [scan_convert_covered _ _ _ _ _ hl]
      exact span_value_min_le _
  · constructor
    · simp only [scan_convert_covered _ _ _ _ _ hl]
      exact span_value_max_nonneg _
    · rcases short_entry .CLIP_SPAN_MIN_X _ _ _ hi0 y hs with ⟨_, e⟩ | ⟨_, e⟩ <;>
        simp only [e] <;> exact span_value_min_le _

/-- C8, counterexample: for the triangle `(600,0)`, `(700,0)`, `(600,10)`, which
is not collinear, the fill loop visits row 0 and `lo[0] = 600 > 511`. -/
theorem span_tables_clamped_counterexample :
    signed_area offscreen_triangle.1 offscreen_triangle.2.1 offscreen_triangle.2.2 ≠ 0 ∧
    fill_y0 offscreen_triangle ≤ 0 ∧ 0 ≤ fill_y1 offscreen_triangle ∧
    ¬ (0 ≤ (span_tables offscreen_triangle (fun _ => 0) (fun _ => 0)).1 0 ∧
        (span_tables offscreen_triangle (fun _ => 0) (fun _ => 0)).1 0 ≤ 511 ∧
        0 ≤ (span_tables offscreen_triangle (fun _ => 0) (fun _ => 0)).2 0 ∧
        (span_tables offscreen_triangle (fun _ => 0) (fun _ => 0)).2 0 ≤ 511) := by
  decide!

/-- Witness of `span_tables_clamped`: row 5 of the triangle `(600,0)`, `(700,0)`,
`(600,10)`. -/
theorem span_tables_clamped_witness :
    (signed_area offscreen_triangle.1 offscreen_triangle.2.1 offscreen_triangle.2.2 ≠ 0 ∧
      0 ≤ (sort3 offscreen_triangle).2.2.y ∧ (sort3 offscreen_triangle).1.y ≤ 2147483647 ∧
      fill_y0 offscreen_triangle ≤ 5 ∧ 5 ≤ fill_y1 offscreen_triangle) ∧
    (0 ≤ (span_tables offscreen_triangle (fun _ => 7) (fun _ => -7)).1 5 ∧
      (span_tables offscreen_triangle (fun _ => 7) (fun _ => -7)).2 5 ≤ 511) :=
  ⟨by decide!,
    span_tables_clamped offscreen_triangle (fun _ => 7) (fun _ => -7) 5 (by decide!)
      (by decide!) (by decide!) (by decide!) (by decide!)⟩

/-! ## Accuracy of the fixed-point edge walk -/

theorem edge_true_bounds (a b : vec2f_t) (t : ℚ) (ha : in_columns a) (hb : in_columns b)
    (hlt : a.y < b.y) (h1 : a.y ≤ t) (h2 : t ≤ b.y) :
    0 ≤ edge_true a b t ∧ edge_true a b t ≤ 511 := by
  obtain ⟨ha0, ha1⟩ := ha
  obtain ⟨hb0, hb1⟩ := hb
  have hD : 0 < b.y - a.y := by linarith
  have e : edge_true a b t = (a.x * (b.y - t) + b.x * (t - a.y)) / (b.y - a.y) := by
    unfold edge_true edge_dx
    field_simp
    ring
  rw [e]
  constructor
  · apply div_nonneg _ hD.le
    have := mul_nonneg ha0 (by linarith : (0 : ℚ) ≤ b.y - t)
    have := mul_nonneg hb0 (by linarith : (0 : ℚ) ≤ t - a.y)
    linarith
  · rw [div_le_iff₀ hD]
    have := mul_nonneg (by linarith : (0 : ℚ) ≤ 511 - a.x) (by linarith : (0 : ℚ) ≤ b.y - t)
    have := mul_nonneg (by linarith : (0 : ℚ) ≤ 511 - b.x) (by linarith : (0 : ℚ) ≤ t - a.y)
    nlinarith

theorem to_int32_floor_err (q : ℚ) (h0 : 0 ≤ q) (h1 : q < 2147483648) :
    (to_int32 q : ℚ) ≤ q ∧ q < to_int32 q + 1 := by
  rw [to_int32_floor q h0 h1]
  exact ⟨Int.floor_le q, Int.lt_floor_add_one q⟩

theorem to_int32_trunc_err (q : ℚ) (h0 : -2147483648 < q) (h1 : q < 2147483648) :
    q - 1 < to_int32 q ∧ (to_int32 q : ℚ) < q + 1 := by
  by_cases hq : 0 ≤ q
  · obtain ⟨a, b⟩ := to_int32_floor_err q hq h1
    constructor <;> linarith
  · have hq' : q < 0 := not_le.mp hq
    have c0 : ⌈q⌉ ≤ 0 := by rw [Int.ceil_le]; exact_mod_cast hq'.le
    have c1 : -2147483648 < ⌈q⌉ := by
      rw [Int.lt_ceil]; exact_mod_cast h0
    have e : to_int32 q = ⌈q⌉ := by
      simp only [to_int32, truncf, hq, if_false]
      rw [if_pos ⟨by omega, by omega⟩]
    rw [e]
    have := Int.le_ceil q
    have := Int.ceil_lt_add_one q
    constructor <;> linarith

theorem edge_dx_bound (a b : vec2f_t) (ha : in_columns a) (hb : in_columns b)
    (hD : 1 ≤ b.y - a.y) : -511 ≤ edge_dx a b ∧ edge_dx a b ≤ 511 := by
  obtain ⟨ha0, ha1⟩ := ha
  obtain ⟨hb0, hb1⟩ := hb
  have hD0 : 0 < b.y - a.y := by linarith
  unfold edge_dx
  constructor
  · rw [le_div_iff₀ hD0]; nlinarith
  · rw [div_le_iff₀ hD0]; nlinarith

/-- The first row of a walk that is not rejected: it is the value of `a.y` after
the clip or alignment, not above row 511 and not above `a.y`'s own row. -/
theorem edge_start (a : vec2f_t) (h : a.y ≤ 511) :
    edge_top a = (edge_iay a : ℚ) ∧ 0 ≤ edge_iay a ∧ a.y ≤ edge_iay a ∧ edge_iay a ≤ 511 := by
  unfold edge_iay
  by_cases h0 : a.y < 0
  · have e : edge_top a = 0 := by simp only [edge_top, h0, if_true]
    rw [e, to_int32_zero]
    have m : maxv 0 0 = 0 := by decide
    rw [m]
    refine ⟨by norm_num, le_refl _, ?_, by norm_num⟩
    push_cast; linarith
  · have e : edge_top a = ((⌈a.y⌉ : Int) : ℚ) := by simp only [edge_top, h0, if_false]
    have c0 : 0 ≤ ⌈a.y⌉ := Int.ceil_nonneg (not_lt.mp h0)
    have c1 : ⌈a.y⌉ ≤ 511 := by rw [Int.ceil_le]; exact_mod_cast h
    rw [e, to_int32_intCast _ (by omega) (by omega)]
    have m : maxv ⌈a.y⌉ 0 = ⌈a.y⌉ := by
      unfold maxv
      split_ifs <;> omega
    rw [m]
    exact ⟨rfl, c0, Int.le_ceil a.y, c1⟩

theorem covers_le (b : vec2f_t) (y : Int) (h0 : 0 ≤ b.y) (h1 : b.y < 2147483648)
    (h : y ≤ edge_iby b) : (y : ℚ) ≤ b.y ∧ y ≤ 511 := by
  unfold edge_iby at h
  rw [to_int32_floor _ h0 h1] at h
  have : y ≤ ⌊b.y⌋ ∧ y ≤ 511 := by
    unfold minv screen_h at h
    split_ifs at h <;> omega
  exact ⟨Int.le_floor.mp this.1, this.2⟩

/-- The fixed-point accumulator of an edge whose end points lie in the columns of
the viewport is within 512 units (512/65536 of a pixel) of the exact edge
position, which lies in the columns of the viewport. -/
theorem edge_acc_err (a b : vec2f_t) (y : Int) (ha : in_columns a) (hb : in_columns b)
    (w : walk_covers a b y) (hbr : b.y < 2147483648) :
    65536 * edge_true a b y - 512 < edge_acc a b y ∧
    (edge_acc a b y : ℚ) < 65536 * edge_true a b y + 512 ∧
    0 ≤ edge_true a b y ∧ edge_true a b y ≤ 511 := by
  obtain ⟨hb0, ha511, hlt, w4, w5⟩ := w
  obtain ⟨etop, r0, r1, r2⟩ := edge_start a ha511
  obtain ⟨h2, y511⟩ := covers_le b y hb0 hbr w5
  have cyq : ((edge_iay a : Int) : ℚ) ≤ (y : ℚ) := by exact_mod_cast w4
  have h1 : a.y ≤ y := by linarith
  have hT := edge_true_bounds a b y ha hb hlt h1 h2
  have hT0 := edge_true_bounds a b (edge_iay a : ℚ) ha hb hlt r1 (by linarith)
  have ex0 : edge_x0 a b = to_int32 (edge_true a b (edge_iay a : ℚ) * 65536) := by
    unfold edge_x0 edge_true
    rw [etop]
  have hx0 := to_int32_floor_err (edge_true a b (edge_iay a : ℚ) * 65536)
    (by linarith [hT0.1]) (by linarith [hT0.2])
  rw [← ex0] at hx0
  -- the number of steps
  have hk : (((y - edge_iay a).toNat : Nat) : Int) = y - edge_iay a := by omega
  have hkq : (((y - edge_iay a).toNat : Nat) : ℚ) = (y : ℚ) - ((edge_iay a : Int) : ℚ) := by
    have h : (((((y - edge_iay a).toNat : Nat) : Int) : Int) : ℚ) =
        ((y - edge_iay a : Int) : ℚ) := by
      rw [hk]
    rw [Int.cast_natCast] at h
    rw [h]
    push_cast
    ring
  have esplit : edge_true a b y =
      edge_true a b (edge_iay a : ℚ) + ((y - edge_iay a).toNat : ℚ) * edge_dx a b := by
    unfold edge_true
    rw [hkq]
    ring
  unfold edge_acc
  rcases Nat.eq_zero_or_pos (y - edge_iay a).toNat with hz | hp
  · rw [hz, accum_zero]
    rw [hz] at esplit
    simp only [Nat.cast_zero, zero_mul, add_zero] at esplit
    rw [esplit]
    refine ⟨by linarith [hx0.1, hx0.2], by linarith [hx0.1, hx0.2], hT0.1, hT0.2⟩
  · have hkpos : (0 : ℚ) < ((y - edge_iay a).toNat : ℚ) := by exact_mod_cast hp
    have hk511 : ((y - edge_iay a).toNat : ℚ) ≤ 511 := by
      have : (y - edge_iay a).toNat ≤ 511 := by omega
      exact_mod_cast this
    have hD : 1 ≤ b.y - a.y := by
      have : (1 : ℚ) ≤ ((y - edge_iay a).toNat : ℚ) := by exact_mod_cast hp
      rw [hkq] at this
      linarith
    obtain ⟨d0, d1⟩ := edge_dx_bound a b ha hb hD
    have hidx := to_int32_trunc_err (edge_dx a b * 65536) (by linarith) (by linarith)
    have hidx' : edge_dx a b * 65536 - 1 < edge_idx a b ∧
        (edge_idx a b : ℚ) < edge_dx a b * 65536 + 1 := hidx
    have m1 := mul_lt_mul_of_pos_left hidx'.1 hkpos
    have m2 := mul_lt_mul_of_pos_left hidx'.2 hkpos
    have sum_lo : 65536 * edge_true a b y - 512 <
        (edge_x0 a b : ℚ) + ((y - edge_iay a).toNat : ℚ) * (edge_idx a b : ℚ) := by
      rw [esplit]; nlinarith [hx0.1, hx0.2]
    have sum_hi : (edge_x0 a b : ℚ) + ((y - edge_iay a).toNat : ℚ) * (edge_idx a b : ℚ) <
        65536 * edge_true a b y + 512 := by
      rw [esplit]; nlinarith [hx0.1, hx0.2]
    have r1 : -2147483648 ≤ edge_x0 a b + ((y - edge_iay a).toNat : Int) * edge_idx a b := by
      have : ((-2147483648 : Int) : ℚ) ≤
          ((edge_x0 a b + ((y - edge_iay a).toNat : Int) * edge_idx a b : Int) : ℚ) := by
        push_cast; linarith [hT.1]
      exact_mod_cast this
    have r2 : edge_x0 a b + ((y - edge_iay a).toNat : Int) * edge_idx a b ≤ 2147483647 := by
      have : ((edge_x0 a b + ((y - edge_iay a).toNat : Int) * edge_idx a b : Int) : ℚ) ≤
          ((2147483647 : Int) : ℚ) := by
        push_cast; linarith [hT.2]
      exact_mod_cast this
    rw [accum_of_range _ _ _ r1 r2]
    push_cast
    exact ⟨sum_lo, sum_hi, hT.1, hT.2⟩

theorem short_first_side (v0 v1 v2 : vec2f_t) (t : ℚ) (h01 : v0.y < v1.y) (h02 : v0.y < v2.y) :
    edge_true v0 v1 t - edge_true v0 v2 t =
      (t - v0.y) * (side_d2 (v0, v1, v2) - side_d1 (v0, v1, v2)) /
        ((v1.y - v0.y) * (v2.y - v0.y)) := by
  have a : v1.y - v0.y ≠ 0 := by linarith
  have b : v2.y - v0.y ≠ 0 := by linarith
  unfold edge_true edge_dx side_d1 side_d2
  field_simp
  ring

theorem short_second_side (v0 v1 v2 : vec2f_t) (t : ℚ) (h12 : v1.y < v2.y) (h02 : v0.y < v2.y) :
    edge_true v1 v2 t - edge_true v0 v2 t =
      (v2.y - t) * (side_d2 (v0, v1, v2) - side_d1 (v0, v1, v2)) /
        ((v2.y - v1.y) * (v2.y - v0.y)) := by
  have a : v2.y - v1.y ≠ 0 := by linarith
  have b : v2.y - v0.y ≠ 0 := by linarith
  unfold edge_true edge_dx side_d1 side_d2
  field_simp
  ring

theorem covers_range (a b : vec2f_t) (y : Int) (hbr : b.y < 2147483648)
    (h : walk_covers a b y) : a.y < b.y ∧ a.y ≤ y ∧ (y : ℚ) ≤ b.y := by
  obtain ⟨h1, h2, h3, h4, h5⟩ := h
  obtain ⟨_, _, r1, _⟩ := edge_start a h2
  have cyq : ((edge_iay a : Int) : ℚ) ≤ (y : ℚ) := by exact_mod_cast h4
  exact ⟨h3, by linarith, (covers_le b y h1 hbr h5).1⟩

theorem span_value_order (xlo xhi : Int) (tlo thi : ℚ)
    (l1 : (xlo : ℚ) < 65536 * tlo + 512) (h1 : 65536 * thi - 512 < xhi)
    (ht : tlo ≤ thi) (t0 : 0 ≤ thi) (t1 : tlo ≤ 511) :
    span_value .CLIP_SPAN_MAX_X xlo ≤ span_value .CLIP_SPAN_MIN_X xhi + 1 := by
  have a : xlo < xhi + 1024 := by
    have : (xlo : ℚ) < ((xhi + 1024 : Int) : ℚ) := by push_cast; linarith
    exact_mod_cast this
  have b : -512 < xhi := by
    have : ((-512 : Int) : ℚ) < (xhi : ℚ) := by push_cast; linarith
    exact_mod_cast this
  have c : xlo < 33489408 := by
    have : (xlo : ℚ) < ((33489408 : Int) : ℚ) := by push_cast; linarith
    exact_mod_cast this
  simp only [span_value, shr16_eq, screen_w]
  omega

theorem sort3_all (P : vec2f_t → Prop) (v : vec2f_t × vec2f_t × vec2f_t) (h0 : P v.1)
    (h1 : P v.2.1) (h2 : P v.2.2) : P (sort3 v).1 ∧ P (sort3 v).2.1 ∧ P (sort3 v).2.2 := by
  obtain ⟨a, b, c⟩ := v
  unfold sort3
  by_cases c1 : b.y < a.y <;> by_cases c2 : c.y < a.y <;> by_cases c3 : c.y < b.y <;>
    by_cases c4 : a.y < b.y <;> by_cases c5 : b.y < c.y <;> by_cases c6 : a.y < c.y <;>
    simp only [c1, c2, c3, c4, c5, c6, if_true, if_false] <;>
    first
      | exact ⟨h0, h1, h2⟩ | exact ⟨h0, h2, h1⟩ | exact ⟨h1, h0, h2⟩
      | exact ⟨h1, h2, h0⟩ | exact ⟨h2, h0, h1⟩ | exact ⟨h2, h1, h0⟩

/-- C7, amended: in exact arithmetic (side values, slopes and start positions
computed without rounding before the conversion to 16.16 fixed point), for a
non-collinear triangle whose vertices lie in the columns of the viewport
(`0 ≤ x ≤ 511`), whose bottom vertex has `y ≥ 0` and whose top vertex has
`y ≤ 2^31 - 1`, every row the fill loop visits has `lo[y] ≤ hi[y] + 1`, whatever
the span tables held before. -/
theorem span_tables_order (v : vec2f_t × vec2f_t × vec2f_t) (lo0 hi0 : Int → Int) (y : Int)
    (hne : signed_area v.1 v.2.1 v.2.2 ≠ 0) (hx0 : in_columns v.1) (hx1 : in_columns v.2.1)
    (hx2 : in_columns v.2.2) (h2 : 0 ≤ (sort3 v).2.2.y) (h0 : (sort3 v).1.y ≤ 2147483647)
    (hy0 : fill_y0 v ≤ y) (hy1 : y ≤ fill_y1 v) :
    (span_tables v lo0 hi0).1 y ≤ (span_tables v lo0 hi0).2 y + 1 := by
  obtain ⟨s0, s1, s2⟩ := sort3_all in_columns v hx0 hx1 hx2
  obtain ⟨_, h12⟩ := sort3_sorted v
  have hlt := sorted_strict v hne
  have hd : side_d1 (sort3 v) ≠ side_d2 (sort3 v) := fun h => hne ((side_eq_iff v).mp h)
  obtain ⟨y0, y1, ha, hb, hr⟩ := visited_row _ _ y h2 h0 hy0 hy1
  have hr1 : (sort3 v).2.1.y < 2147483648 := by linarith
  have hl := long_covers _ _ y hlt h2 y0 y1 ha hb hr
  have hs := short_covers _ _ _ y h12 hlt y0 y1 ha hb hr
  obtain ⟨L1, L2, L3, L4⟩ := edge_acc_err _ _ y s0 s2 hl hr
  have hD : 0 < (sort3 v).2.2.y - (sort3 v).1.y := by linarith
  unfold span_tables scan_edges
  split_ifs with hc
  · -- the short edges give `lo`, the long edge gives `hi`
    have hneg : side_d2 (sort3 v) - side_d1 (sort3 v) < 0 := by linarith
    simp only [scan_convert_covered _ _ _ _ _ hl]
    rcases short_entry .CLIP_SPAN_MAX_X _ _ _ lo0 y hs with ⟨w, e⟩ | ⟨w, e⟩
    · obtain ⟨r1, r2, r3⟩ := covers_range _ _ y hr w
      obtain ⟨S1, S2, S3, S4⟩ := edge_acc_err _ _ y s1 s2 w hr
      have g := short_second_side (sort3 v).1 (sort3 v).2.1 (sort3 v).2.2 y r1 hlt
      have hle : edge_true (sort3 v).2.1 (sort3 v).2.2 y ≤ edge_true (sort3 v).1 (sort3 v).2.2 y := by
        have : edge_true (sort3 v).2.1 (sort3 v).2.2 y - edge_true (sort3 v).1 (sort3 v).2.2 y ≤ 0 := by
          rw [g]
          apply div_nonpos_of_nonpos_of_nonneg
          · exact mul_nonpos_of_nonneg_of_nonpos (by linarith) hneg.le
          · exact (mul_pos (by linarith) hD).le
        linarith
      simp only [e]
      exact span_value_order _ _ _ _ S2 L1 hle L3 S4
    · obtain ⟨r1, r2, r3⟩ := covers_range _ _ y hr1 w
      obtain ⟨S1, S2, S3, S4⟩ := edge_acc_err _ _ y s0 s1 w hr1
      have g := short_first_side (sort3 v).1 (sort3 v).2.1 (sort3 v).2.2 y r1 hlt
      have hle : edge_true (sort3 v).1 (sort3 v).2.1 y ≤ edge_true (sort3 v).1 (sort3 v).2.2 y := by
        have : edge_true (sort3 v).1 (sort3 v).2.1 y - edge_true (sort3 v).1 (sort3 v).2.2 y ≤ 0 := by
          rw [g]
          apply div_nonpos_of_nonpos_of_nonneg
          · exact mul_nonpos_of_nonneg_of_nonpos (by linarith) hneg.le
          · exact (mul_pos (by linarith) hD).le
        linarith
      simp only [e]
      exact span_value_order _ _ _ _ S2 L1 hle L3 S4
  · -- the long edge gives `lo`, the short edges give `hi`
    have hpos : 0 < side_d2 (sort3 v) - side_d1 (sort3 v) := by
      rcases lt_or_gt_of_ne hd with h | h
      · linarith
      · exact absurd h hc
    simp only [scan_convert_covered _ _ _ _ _ hl]
    rcases short_entry .CLIP_SPAN_MIN_X _ _ _ hi0 y hs with ⟨w, e⟩ | ⟨w, e⟩
    · obtain ⟨r1, r2, r3⟩ := covers_range _ _ y hr w
      obtain ⟨S1, S2, S3, S4⟩ := edge_acc_err _ _ y s1 s2 w hr
      have g := short_second_side (sort3 v).1 (sort3 v).2.1 (sort3 v).2.2 y r1 hlt
      have hle : edge_true (sort3 v).1 (sort3 v).2.2 y ≤ edge_true (sort3 v).2.1 (sort3 v).2.2 y := by
        have : 0 ≤ edge_true (sort3 v).2.1 (sort3 v).2.2 y - edge_true (sort3 v).1 (sort3 v).2.2 y := by
          rw [g]
          apply div_nonneg
          · exact mul_nonneg (by linarith) hpos.le
          · exact (mul_pos (by linarith) hD).le
        linarith
      simp only [e]
      exact span_value_order _ _ _ _ L2 S1 hle S3 L4
    · obtain ⟨r1, r2, r3⟩ := covers_range _ _ y hr1 w
      obtain ⟨S1, S2, S3, S4⟩ := edge_acc_err _ _ y s0 s1 w hr1
      have g := short_first_side (sort3 v).1 (sort3 v).2.1 (sort3 v).2.2 y r1 hlt
      have hle : edge_true (sort3 v).1 (sort3 v).2.2 y ≤ edge_true (sort3 v).1 (sort3 v).2.1 y := by
        have : 0 ≤ edge_true (sort3 v).1 (sort3 v).2.1 y - edge_true (sort3 v).1 (sort3 v).2.2 y := by
          rw [g]
          apply div_nonneg
          · exact mul_nonneg (by linarith) hpos.le
          · exact (mul_pos (by linarith) hD).le
        linarith
      simp only [e]
      exact span_value_order _ _ _ _ L2 S1 hle S3 L4

/-- C7, counterexample: for the triangle `(0,0)`, `(0,1)`, `(1,3)`, which is not
collinear and lies in the viewport, the fill loop visits row 3 and
`lo[3] = 1 > hi[3] = 0`, in exact and in binary32 arithmetic.  For the triangle
`(-100,0)`, `(-90,5)`, `(-100,10)`, left of the viewport, row 5 has `lo = 0` and
`hi = -90`.  With binary32 rounding `lo` can exceed `hi` by more than one inside
the viewport: for `flipped_triangle`, which is not collinear and lies in the
viewport, the rounded side test has the opposite outcome of the exact one and
row 300, the one row visited, has `lo = 186` and `hi = 181`. -/
theorem span_tables_order_counterexample :
    signed_area thin_triangle.1 thin_triangle.2.1 thin_triangle.2.2 ≠ 0 ∧
    fill_y0 thin_triangle ≤ 3 ∧ 3 ≤ fill_y1 thin_triangle ∧
    ¬ ((span_tables thin_triangle (fun _ => 0) (fun _ => 0)).1 3 ≤
        (span_tables thin_triangle (fun _ => 0) (fun _ => 0)).2 3) ∧
    ¬ ((span_tables_r round32 thin_triangle (fun _ => 0) (fun _ => 0)).1 3 ≤
        (span_tables_r round32 thin_triangle (fun _ => 0) (fun _ => 0)).2 3) ∧
    (signed_area ⟨-100, 0⟩ ⟨-90, 5⟩ ⟨-100, 10⟩ ≠ 0 ∧
      fill_y0 (⟨-100, 0⟩, ⟨-90, 5⟩, ⟨-100, 10⟩) ≤ 5 ∧
      5 ≤ fill_y1 (⟨-100, 0⟩, ⟨-90, 5⟩, ⟨-100, 10⟩) ∧
      (span_tables (⟨-100, 0⟩, ⟨-90, 5⟩, ⟨-100, 10⟩) (fun _ => 0) (fun _ => 0)).1 5 = 0 ∧
      (span_tables (⟨-100, 0⟩, ⟨-90, 5⟩, ⟨-100, 10⟩) (fun _ => 0) (fun _ => 0)).2 5 = -90 ∧
      (span_tables_r round32 (⟨-100, 0⟩, ⟨-90, 5⟩, ⟨-100, 10⟩) (fun _ => 0) (fun _ => 0)).1 5 =
        0 ∧
      (span_tables_r round32 (⟨-100, 0⟩, ⟨-90, 5⟩, ⟨-100, 10⟩) (fun _ => 0) (fun _ => 0)).2 5 =
        -90) ∧
    (float_point flipped_triangle.1 ∧ float_point flipped_triangle.2.1 ∧
      float_point flipped_triangle.2.2 ∧
      signed_area flipped_triangle.1 flipped_triangle.2.1 flipped_triangle.2.2 ≠ 0 ∧
      in_columns flipped_triangle.1 ∧ in_columns flipped_triangle.2.1 ∧
      in_columns flipped_triangle.2.2 ∧
      fill_y0 flipped_triangle = 300 ∧ fill_y1 flipped_triangle = 300 ∧
      side_d1 (sort3 flipped_triangle) > side_d2 (sort3 flipped_triangle) ∧
      side_d1_r round32 (sort3 flipped_triangle) < side_d2_r round32 (sort3 flipped_triangle) ∧
      (span_tables_r round32 flipped_triangle (fun _ => 0) (fun _ => 0)).1 300 = 186 ∧
      (span_tables_r round32 flipped_triangle (fun _ => 0) (fun _ => 0)).2 300 = 181) := by
  refine ⟨by decide!, by decide!, by decide!, by decide!, by decide!, by decide!, ?_⟩
  unfold float_point is_float in_columns
  decide!

/-- Witness of `span_tables_order`: row 3 of the triangle `(0,0)`, `(0,1)`,
`(1,3)`, where `lo[3] = hi[3] + 1`. -/
theorem span_tables_order_witness :
    (signed_area thin_triangle.1 thin_triangle.2.1 thin_triangle.2.2 ≠ 0 ∧
      in_columns thin_triangle.1 ∧ in_columns thin_triangle.2.1 ∧
      in_columns thin_triangle.2.2 ∧ 0 ≤ (sort3 thin_triangle).2.2.y ∧
      (sort3 thin_triangle).1.y ≤ 2147483647 ∧
      fill_y0 thin_triangle ≤ 3 ∧ 3 ≤ fill_y1 thin_triangle) ∧
    (span_tables thin_triangle (fun _ => 9) (fun _ => -9)).1 3 ≤
      (span_tables thin_triangle (fun _ => 9) (fun _ => -9)).2 3 + 1 :=
  have a0 : in_columns thin_triangle.1 := by norm_num [in_columns, thin_triangle]
  have a1 : in_columns thin_triangle.2.1 := by norm_num [in_columns, thin_triangle]
  have a2 : in_columns thin_triangle.2.2 := by norm_num [in_columns, thin_triangle]
  ⟨⟨by decide!, a0, a1, a2, by decide!, by decide!, by decide!, by decide!⟩,
    span_tables_order thin_triangle (fun _ => 9) (fun _ => -9) 3 (by decide!) a0 a1 a2
      (by decide!) (by decide!) (by decide!) (by decide!)⟩

/-! ## Matrix builders: `frustum`, `rotate`, `translate`; `normalize` -/

theorem set_e (m : matrix_t) (x y : Fin 4) (v : ℚ) (i : Fin 16) :
    (m.set x y v).e i = if i = MAT x y then v else m.e i := rfl

theorem MAT_inj : ∀ x y x2 y2 : Fin 4, MAT x y = MAT x2 y2 ↔ x = x2 ∧ y = y2 := by decide

theorem frustum_e (m : matrix_t) (l r b t n f : ℚ) (x y : Fin 4) :
    (m.frustum l r b t n f).e (MAT x y) =
      if x = 0 ∧ y = 0 then (2 * n) / (r - l)
      else if x = 1 ∧ y = 1 then (2 * n) / (t - b)
      else if x = 2 ∧ y = 0 then (r + l) / (r - l)
      else if x = 2 ∧ y = 1 then (t + b) / (t - b)
      else if x = 2 ∧ y = 2 then -(f + n) / (f - n)
      else if x = 2 ∧ y = 3 then -1
      else if x = 3 ∧ y = 2 then -(2 * f * n) / (f - n)
      else 0 := by
  simp only [matrix_t.frustum, set_e, MAT_inj]
  fin_cases x <;> fin_cases y <;> simp

theorem rotate_e (sinf cosf : ℚ → ℚ) (m : matrix_t) (a b c : ℚ) (x y : Fin 4) :
    (m.rotate sinf cosf a b c).e (MAT x y) =
      if x = 0 ∧ y = 0 then cosf c * cosf b
      else if x = 0 ∧ y = 1 then cosf a * sinf c * cosf b + sinf a * sinf b
      else if x = 0 ∧ y = 2 then sinf a * sinf c * cosf b - cosf a * sinf b
      else if x = 1 ∧ y = 0 then -sinf c
      else if x = 1 ∧ y = 1 then cosf a * cosf c
      else if x = 1 ∧ y = 2 then sinf a * cosf c
      else if x = 2 ∧ y = 0 then cosf c * sinf b
      else if x = 2 ∧ y = 1 then cosf a * sinf c * sinf b - sinf a * cosf b
      else if x = 2 ∧ y = 2 then sinf a * sinf c * sinf b + cosf a * cosf b
      else if x = 3 ∧ y = 3 then 1
      else 0 := by
  simp only [matrix_t.rotate, set_e, MAT_inj]
  fin_cases x <;> fin_cases y <;> simp

theorem every_index : ∀ i : Fin 16, ∃ x y : Fin 4, i = MAT x y := by decide

theorem frustum_indep (m m2 : matrix_t) (l r b t n f : ℚ) :
    m.frustum l r b t n f = m2.frustum l r b t n f := by
  have h : ∀ i, (m.frustum l r b t n f).e i = (m2.frustum l r b t n f).e i := by
    intro i
    obtain ⟨x, y, rfl⟩ := every_index i
    rw [frustum_e, frustum_e]
  cases h1 : m.frustum l r b t n f
  cases h2 : m2.frustum l r b t n f
  rw [h1, h2] at h
  simp only [matrix_t.mk.injEq]
  exact funext h

theorem rotate_indep (sinf cosf : ℚ → ℚ) (m m2 : matrix_t) (a b c : ℚ) :
    m.rotate sinf cosf a b c = m2.rotate sinf cosf a b c := by
  have h : ∀ i, (m.rotate sinf cosf a b c).e i = (m2.rotate sinf cosf a b c).e i := by
    intro i
    obtain ⟨x, y, rfl⟩ := every_index i
    rw [rotate_e, rotate_e]
  cases h1 : m.rotate sinf cosf a b c
  cases h2 : m2.rotate sinf cosf a b c
  rw [h1, h2] at h
  simp only [matrix_t.mk.injEq]
  exact funext h

/-- C12, amended: in exact arithmetic, for `n`, `f` with `f ≠ n`, `n ≠ 0`, `f ≠ 0`
and any `l`, `r`, `b`, `t` (the conditions `r ≠ l`, `t ≠ b` are not needed for
the depth), after `frustum(l,r,b,t,n,f)` the 4-wide transform of `(0,0,-n,1)`
divided by `w` has `z = -1` and that of `(0,0,-f,1)` has `z = 1`;
`frustum(-1,1,-1,1,1,100)` maps `(0,0,-1,1)` to `(0,0,-1)` after the division.
The matrix built does not depend on the previous contents, with exact
arithmetic and with arithmetic rounded by any `rnd`. -/
theorem frustum_depth (m : matrix_t) (l r b t n f : ℚ) (out : Nat → vec4f_t)
    (hfn : f ≠ n) (hn : n ≠ 0) (hf : f ≠ 0) :
    (vec3_of_vec4 ((m.frustum l r b t n f).transform4 1 (fun _ => ⟨0, 0, -n, 1⟩) out 0)).z = -1 ∧
    (vec3_of_vec4 ((m.frustum l r b t n f).transform4 1 (fun _ => ⟨0, 0, -f, 1⟩) out 0)).z = 1 ∧
    vec3_of_vec4 ((m.frustum (-1) 1 (-1) 1 1 100).transform4 1 (fun _ => ⟨0, 0, -1, 1⟩) out 0) =
      ⟨0, 0, -1⟩ ∧
    (∀ m2 : matrix_t, m2.frustum l r b t n f = m.frustum l r b t n f) ∧
    ∀ (rnd : ℚ → ℚ) (m2 : matrix_t),
      m2.frustum_r rnd l r b t n f = m.frustum_r rnd l r b t n f := by
  have hr : 0 ≤ 0 ∧ 0 < 0 + 1 := by omega
  have hd : f - n ≠ 0 := sub_ne_zero.mpr hfn
  refine ⟨?_, ?_, ?_, fun m2 => frustum_indep m2 m l r b t n f,
    fun rnd m2 => frustum_r_indep rnd m2 m l r b t n f⟩
  · simp only [matrix_t.transform4, transform_loop_spec, hr, and_self, if_true, vec3_of_vec4,
      matrix_t.apply4, frustum_e]
    simp
    field_simp
    ring
  · simp only [matrix_t.transform4, transform_loop_spec, hr, and_self, if_true, vec3_of_vec4,
      matrix_t.apply4, frustum_e]
    simp
    field_simp
    ring
  · simp only [matrix_t.transform4, transform_loop_spec, hr, and_self, if_true, vec3_of_vec4,
      matrix_t.apply4, frustum_e]
    simp
    norm_num

/-- Witness of `frustum_depth`: `frustum(-2,3,-1,4,2,50)` over `sample_matrix`. -/
theorem frustum_depth_witness :
    ((50 : ℚ) ≠ 2 ∧ (2 : ℚ) ≠ 0 ∧ (50 : ℚ) ≠ 0) ∧
    (vec3_of_vec4 ((sample_matrix.frustum (-2) 3 (-1) 4 2 50).transform4 1
      (fun _ => ⟨0, 0, -2, 1⟩) (fun _ => ⟨0, 0, 0, 0⟩) 0)).z = -1 ∧
    (vec3_of_vec4 ((sample_matrix.frustum (-2) 3 (-1) 4 2 50).transform4 1
      (fun _ => ⟨0, 0, -50, 1⟩) (fun _ => ⟨0, 0, 0, 0⟩) 0)).z = 1 :=
  have h := frustum_depth sample_matrix (-2) 3 (-1) 4 2 50 (fun _ => ⟨0, 0, 0, 0⟩)
    (by norm_num) (by norm_num) (by norm_num)
  ⟨⟨by norm_num, by norm_num, by norm_num⟩, h.1, h.2.1⟩

/-- C12, counterexample: in binary32 arithmetic `frustum(-1,1,-1,1,1,100)` applied
to `(0,0,-1,1)` and divided by `w` yields `z = -1 + 2^-23`, not `-1`: the
elements `-(f+n)/(f-n) = -101/99` and `-(2fn)/(f-n) = -200/99` are rounded, and
so is their combination. -/
theorem frustum_rounding_counterexample :
    vec3_of_vec4_r round32
      ((sample_matrix.frustum_r round32 (-1) 1 (-1) 1 1 100).transform4_r round32 1
        (fun _ => ⟨0, 0, -1, 1⟩) (fun _ => ⟨0, 0, 0, 0⟩) 0) = ⟨0, 0, -1 + 1 / 8388608⟩ ∧
    (vec3_of_vec4_r round32
      ((sample_matrix.frustum_r round32 (-1) 1 (-1) 1 1 100).transform4_r round32 1
        (fun _ => ⟨0, 0, -1, 1⟩) (fun _ => ⟨0, 0, 0, 0⟩) 0)).z ≠ -1 := by
  decide!

/-- C15: with `sinf`, `cosf` any functions satisfying `sin^2 + cos^2 = 1`, after
`rotate(a,b,c)` the upper 3x3 block `R` satisfies `R * R^T = 1` and `det R = 1`,
the elements `MAT(3, 0..2)` and `MAT(0..2, 3)` are zero and `MAT(3,3)` is one, the
matrix does not depend on its previous contents, and the 3-wide transform
preserves dot products (with `u = v`: squared lengths). -/
theorem rotate_orthogonal (sinf cosf : ℚ → ℚ) (m : matrix_t) (a b c : ℚ)
    (hsc : ∀ t : ℚ, sinf t * sinf t + cosf t * cosf t = 1) :
    (m.rotate sinf cosf a b c).block3 * (m.rotate sinf cosf a b c).block3.transpose = 1 ∧
    (m.rotate sinf cosf a b c).block3.det = 1 ∧
    (∀ i : Fin 3, (m.rotate sinf cosf a b c).e (MAT 3 i.castSucc) = 0 ∧
      (m.rotate sinf cosf a b c).e (MAT i.castSucc 3) = 0) ∧
    (m.rotate sinf cosf a b c).e (MAT 3 3) = 1 ∧
    (∀ m2 : matrix_t, m2.rotate sinf cosf a b c = m.rotate sinf cosf a b c) ∧
    ∀ u v : vec3f_t,
      ((m.rotate sinf cosf a b c).apply3 u).dot ((m.rotate sinf cosf a b c).apply3 v) =
        u.dot v := by
  have ha := hsc a
  have hb := hsc b
  have hc := hsc c
  refine ⟨?_, ?_, ?_, ?_, fun m2 => rotate_indep sinf cosf m2 m a b c, ?_⟩
  · have c2 : Fin.castSucc (2 : Fin 3) = (2 : Fin 4) := rfl
    ext i j
    simp only [Matrix.mul_apply, Matrix.transpose_apply, Fin.sum_univ_three, Matrix.one_apply,
      matrix_t.block3, Matrix.of_apply, rotate_e]
    generalize sinf a = sa at *
    generalize cosf a = ca at *
    generalize sinf b = sb at *
    generalize cosf b = cb at *
    generalize sinf c = sc at *
    generalize cosf c = cc at *
    fin_cases i <;> fin_cases j <;> simp [c2] <;>
      first
      | linear_combination (cb^2*sc^2 + sb^2) * ha + (cc^2 + sc^2) * hb + ((1) + (-sb^2)) * hc
      | linear_combination (cb*cc*sc) * ha
      | linear_combination ((-cb*sb) + cb*sb*sc^2) * ha + (cb*sb) * hc
      | linear_combination (cc^2) * ha + hc
      | linear_combination (cc*sb*sc) * ha
      | linear_combination (cb^2 + sb^2*sc^2) * ha + hb + (sb^2) * hc
  · have c2 : Fin.castSucc (2 : Fin 3) = (2 : Fin 4) := rfl
    rw [Matrix.det_fin_three]
    simp only [matrix_t.block3, Matrix.of_apply, rotate_e]
    generalize sinf a = sa at *
    generalize cosf a = ca at *
    generalize sinf b = sb at *
    generalize cosf b = cb at *
    generalize sinf c = sc at *
    generalize cosf c = cc at *
    simp [c2]
    linear_combination (cb^2*cc^2 + cb^2*sc^2 + cc^2*sb^2 + sb^2*sc^2) * ha +
      (cc^2 + sc^2) * hb + hc
  · intro i
    have c2 : Fin.castSucc (2 : Fin 3) = (2 : Fin 4) := rfl
    rw [rotate_e, rotate_e]
    fin_cases i <;> simp [c2]
  · rw [rotate_e]; simp
  · intro u v
    simp only [vec3f_t.dot, matrix_t.apply3, rotate_e]
    simp
    generalize sinf a = sa at *
    generalize cosf a = ca at *
    generalize sinf b = sb at *
    generalize cosf b = cb at *
    generalize sinf c = sc at *
    generalize cosf c = cc at *
    obtain ⟨ux, uy, uz⟩ := u
    obtain ⟨vx, vy, vz⟩ := v
    simp only
    linear_combination (cb*cc*sc*ux*vy + cb*cc*sc*uy*vx + cb*sb*sc^2*ux*vz + cb*sb*sc^2*uz*vx + (-cb*sb*ux*vz) + (-cb*sb*uz*vx) + cb^2*sc^2*ux*vx + cb^2*uz*vz + cc*sb*sc*uy*vz + cc*sb*sc*uz*vy + cc^2*uy*vy + sb^2*sc^2*uz*vz + sb^2*ux*vx) * ha + (cc^2*ux*vx + sc^2*ux*vx + uz*vz) * hb + (cb*sb*ux*vz + cb*sb*uz*vx + (-sb^2*ux*vx) + sb^2*uz*vz + ux*vx + uy*vy) * hc

theorem sample_pythagoras (t : ℚ) :
    sample_sin t * sample_sin t + sample_cos t * sample_cos t = 1 := by
  have h : 1 + t * t ≠ 0 := by nlinarith [mul_self_nonneg t]
  unfold sample_sin sample_cos
  field_simp
  ring

/-- Witness of `rotate_orthogonal`: `rotate(1,2,3)` over `sample_matrix`, with
`sample_sin` and `sample_cos`. -/
theorem rotate_orthogonal_witness :
    (∀ t : ℚ, sample_sin t * sample_sin t + sample_cos t * sample_cos t = 1) ∧
    (sample_matrix.rotate sample_sin sample_cos 1 2 3).block3 *
      (sample_matrix.rotate sample_sin sample_cos 1 2 3).block3.transpose = 1 ∧
    (sample_matrix.rotate sample_sin sample_cos 1 2 3).block3.det = 1 :=
  have h := rotate_orthogonal sample_sin sample_cos sample_matrix 1 2 3 sample_pythagoras
  ⟨sample_pythagoras, h.1, h.2.1⟩

/-! ## `tri_vis` -/

theorem tri_classify_lt (p : vec2f_t) : tri_classify p < 16 := by
  unfold tri_classify
  split_ifs <;> decide

theorem tri_classify_bits (p : vec2f_t) :
    (tri_classify p &&& 1 ≠ 0 ↔ p.x < 0) ∧ (tri_classify p &&& 2 ≠ 0 ↔ p.x > 1) ∧
    (tri_classify p &&& 4 ≠ 0 ↔ p.y < 0) ∧ (tri_classify p &&& 8 ≠ 0 ↔ p.y > 1) := by
  unfold tri_classify
  by_cases h1 : p.x < 0 <;> by_cases h2 : p.x > 1 <;> by_cases h3 : p.y < 0 <;>
    by_cases h4 : p.y > 1 <;> simp +decide [h1, h2, h3, h4]

theorem outcode3 (ca cb cc : Nat) (ha : ca < 16) (hb : cb < 16) (hc : cc < 16) :
    ((ca &&& cb &&& cc) &&& 1 ≠ 0 → ca &&& 1 ≠ 0 ∧ cb &&& 1 ≠ 0 ∧ cc &&& 1 ≠ 0) ∧
    ((ca &&& cb &&& cc) &&& 2 ≠ 0 → ca &&& 2 ≠ 0 ∧ cb &&& 2 ≠ 0 ∧ cc &&& 2 ≠ 0) ∧
    ((ca &&& cb &&& cc) &&& 4 ≠ 0 → ca &&& 4 ≠ 0 ∧ cb &&& 4 ≠ 0 ∧ cc &&& 4 ≠ 0) ∧
    ((ca &&& cb &&& cc) &&& 8 ≠ 0 → ca &&& 8 ≠ 0 ∧ cb &&& 8 ≠ 0 ∧ cc &&& 8 ≠ 0) := by
  have hab : ca &&& cb < 16 := lt_of_le_of_lt Nat.and_le_left ha
  refine ⟨fun h => ?_, fun h => ?_, fun h => ?_, fun h => ?_⟩
  · obtain ⟨p, q⟩ := (outcode_and1 _ hab _ hc).mp h
    obtain ⟨p1, p2⟩ := (outcode_and1 _ ha _ hb).mp p
    exact ⟨p1, p2, q⟩
  · obtain ⟨p, q⟩ := (outcode_and2 _ hab _ hc).mp h
    obtain ⟨p1, p2⟩ := (outcode_and2 _ ha _ hb).mp p
    exact ⟨p1, p2, q⟩
  · obtain ⟨p, q⟩ := (outcode_and4 _ hab _ hc).mp h
    obtain ⟨p1, p2⟩ := (outcode_and4 _ ha _ hb).mp p
    exact ⟨p1, p2, q⟩
  · obtain ⟨p, q⟩ := (outcode_and8 _ hab _ hc).mp h
    obtain ⟨p1, p2⟩ := (outcode_and8 _ ha _ hb).mp p
    exact ⟨p1, p2, q⟩

theorem conv_pos (t p q : ℚ) (ht0 : 0 ≤ t) (ht1 : t ≤ 1) (hp : 0 < p) (hq : 0 < q) :
    0 < (1 - t) * p + t * q := by
  rcases eq_or_lt_of_le ht0 with h | h
  · rw [← h]; simpa using hp
  · have := mul_pos h hq
    have := mul_nonneg (by linarith : (0 : ℚ) ≤ 1 - t) hp.le
    linarith

/-- When all four corners of the unit square pass `test` for the line through `p`
and `q`, and the whole triangle lies on the other side, no point of the triangle
lies in the unit square. -/
theorem plane_separates (p q a b c : vec2f_t)
    (ht : ((plane_t.make p q).test (ndc 0) && (plane_t.make p q).test (ndc 1) &&
      (plane_t.make p q).test (ndc 2) && (plane_t.make p q).test (ndc 3)) = true)
    (ha : (plane_t.make p q).d ≤ a.x * (plane_t.make p q).nx + a.y * (plane_t.make p q).ny)
    (hb : (plane_t.make p q).d ≤ b.x * (plane_t.make p q).nx + b.y * (plane_t.make p q).ny)
    (hc : (plane_t.make p q).d ≤ c.x * (plane_t.make p q).nx + c.y * (plane_t.make p q).ny) :
    tri_misses_square a b c := by
  simp only [Bool.and_eq_true, plane_t.test, decide_eq_true_eq, ndc] at ht
  obtain ⟨⟨⟨t0, t1⟩, t2⟩, t3⟩ := ht
  generalize (plane_t.make p q).d = d at *
  generalize (plane_t.make p q).nx = nx at *
  generalize (plane_t.make p q).ny = ny at *
  simp only [zero_mul, one_mul, add_zero, zero_add] at t0 t1 t2 t3
  intro α β γ h0 h1 h2 hs hin
  obtain ⟨x0, x1, y0, y1⟩ := hin
  simp only [tri_point] at x0 x1 y0 y1
  -- the point of the triangle, on the far side of the line
  have far : d ≤ (α * a.x + β * b.x + γ * c.x) * nx + (α * a.y + β * b.y + γ * c.y) * ny := by
    have e : (α * a.x + β * b.x + γ * c.x) * nx + (α * a.y + β * b.y + γ * c.y) * ny =
        α * (a.x * nx + a.y * ny) + β * (b.x * nx + b.y * ny) + γ * (c.x * nx + c.y * ny) := by
      ring
    rw [e]
    have := mul_le_mul_of_nonneg_left ha h0
    have := mul_le_mul_of_nonneg_left hb h1
    have := mul_le_mul_of_nonneg_left hc h2
    have : d = α * d + β * d + γ * d := by rw [← add_mul, ← add_mul, hs, one_mul]
    linarith
  -- a point of the square, on the near side
  generalize α * a.x + β * b.x + γ * c.x = x at *
  generalize α * a.y + β * b.y + γ * c.y = y at *
  have near : x * nx + y * ny < d := by
    have g0 := conv_pos y (d - 0) (d - ny) y0 y1 (by linarith) (by linarith)
    have g1 := conv_pos y (d - nx) (d - (nx + ny)) y0 y1 (by linarith) (by linarith)
    have g := conv_pos x _ _ x0 x1 g0 g1
    have e : (1 - x) * ((1 - y) * (d - 0) + y * (d - ny)) +
        x * ((1 - y) * (d - nx) + y * (d - (nx + ny))) = d - (x * nx + y * ny) := by
      ring
    rw [e] at g
    linarith
  linarith

theorem conv3_pos (α β γ p q r : ℚ) (h0 : 0 ≤ α) (h1 : 0 ≤ β) (h2 : 0 ≤ γ) (hs : α + β + γ = 1)
    (hp : 0 < p) (hq : 0 < q) (hr : 0 < r) : 0 < α * p + β * q + γ * r := by
  have hm : 0 < min p (min q r) := lt_min hp (lt_min hq hr)
  have a1 := mul_le_mul_of_nonneg_left (min_le_left p (min q r)) h0
  have a2 := mul_le_mul_of_nonneg_left
    (le_trans (min_le_right p (min q r)) (min_le_left q r)) h1
  have a3 := mul_le_mul_of_nonneg_left
    (le_trans (min_le_right p (min q r)) (min_le_right q r)) h2
  have e : α * min p (min q r) + β * min p (min q r) + γ * min p (min q r) =
      min p (min q r) := by
    rw [← add_mul, ← add_mul, hs, one_mul]
  linarith

/-- C11, amended: in exact arithmetic, for a triangle that is not back-facing,
when `tri_vis` returns false no point of the closed triangle lies in the unit
square `[0,1] x [0,1]`. -/
theorem tri_vis_sound (a b c : vec2f_t) (hb : is_backface a b c = false)
    (hv : tri_vis a b c = false) : tri_misses_square a b c := by
  have area : 0 ≤ (a.x - b.x) * (c.y - b.y) - (a.y - b.y) * (c.x - b.x) := by
    simp only [is_backface, decide_eq_false_iff_not, not_lt] at hb
    exact hb
  unfold tri_vis at hv
  simp only at hv
  split_ifs at hv with h0 hcode hbf hab hbc hca
  · -- all three vertices violate one boundary
    obtain ⟨o1, o2, o4, o8⟩ := outcode3 _ _ _ (tri_classify_lt a) (tri_classify_lt b)
      (tri_classify_lt c)
    obtain ⟨a1, a2, a4, a8⟩ := tri_classify_bits a
    obtain ⟨b1, b2, b4, b8⟩ := tri_classify_bits b
    obtain ⟨c1, c2, c4, c8⟩ := tri_classify_bits c
    intro α β γ w0 w1 w2 ws hin
    obtain ⟨x0, x1, y0, y1⟩ := hin
    simp only [tri_point] at x0 x1 y0 y1
    rcases hcode with h | h | h | h
    · obtain ⟨p, q, r⟩ := o1 h
      have := conv3_pos α β γ (-a.x) (-b.x) (-c.x) w0 w1 w2 ws
        (by linarith [a1.mp p]) (by linarith [b1.mp q]) (by linarith [c1.mp r])
      linarith
    · obtain ⟨p, q, r⟩ := o2 h
      have := conv3_pos α β γ (a.x - 1) (b.x - 1) (c.x - 1) w0 w1 w2 ws
        (by linarith [a2.mp p]) (by linarith [b2.mp q]) (by linarith [c2.mp r])
      nlinarith
    · obtain ⟨p, q, r⟩ := o4 h
      have := conv3_pos α β γ (-a.y) (-b.y) (-c.y) w0 w1 w2 ws
        (by linarith [a4.mp p]) (by linarith [b4.mp q]) (by linarith [c4.mp r])
      linarith
    · obtain ⟨p, q, r⟩ := o8 h
      have := conv3_pos α β γ (a.y - 1) (b.y - 1) (c.y - 1) w0 w1 w2 ws
        (by linarith [a8.mp p]) (by linarith [b8.mp q]) (by linarith [c8.mp r])
      nlinarith
  · rw [hb] at hbf; exact absurd hbf (by decide)
  · refine plane_separates a b a b c hab ?_ ?_ ?_ <;> simp only [plane_t.make] <;> nlinarith
  · refine plane_separates b c a b c hbc ?_ ?_ ?_ <;> simp only [plane_t.make] <;> nlinarith
  · refine plane_separates c a a b c hca ?_ ?_ ?_ <;> simp only [plane_t.make] <;> nlinarith

/-- Witness of `tri_vis_sound`: the triangle `(-2,-2)`, `(0,-1)`, `(3,0)`. -/
theorem tri_vis_sound_witness :
    (is_backface missed_triangle.1 missed_triangle.2.1 missed_triangle.2.2 = false ∧
      tri_vis missed_triangle.1 missed_triangle.2.1 missed_triangle.2.2 = false) ∧
    tri_misses_square missed_triangle.1 missed_triangle.2.1 missed_triangle.2.2 :=
  ⟨⟨by decide!, by decide!⟩, tri_vis_sound _ _ _ (by decide!) (by decide!)⟩

/-- C11, counterexample: with binary32 rounding, for the float triangle
`corner_cover` `is_backface` is false and `tri_vis` returns false (the rounded
plane constant of the edge `a`, `b` is positive, the exact one negative), yet
the corner `(0,0)` of the unit square is a point of the triangle; in exact
arithmetic `tri_vis` returns true for it. -/
theorem tri_vis_rounding_counterexample :
    (float_point corner_cover.1 ∧ float_point corner_cover.2.1 ∧
      float_point corner_cover.2.2) ∧
    is_backface_r round32 corner_cover.1 corner_cover.2.1 corner_cover.2.2 = false ∧
    tri_vis_r round32 corner_cover.1 corner_cover.2.1 corner_cover.2.2 = false ∧
    tri_vis corner_cover.1 corner_cover.2.1 corner_cover.2.2 = true ∧
    ¬ tri_misses_square corner_cover.1 corner_cover.2.1 corner_cover.2.2 := by
  refine ⟨?_, by decide!, by decide!, by decide!, ?_⟩
  · unfold float_point is_float
    decide!
  · intro h
    refine h (5764290054773 / 18902956666263) (39415995065920 / 56708869998789)
      (4768550 / 56708869998789) (by norm_num) (by norm_num) (by norm_num) (by norm_num) ?_
    have e : tri_point corner_cover.1 corner_cover.2.1 corner_cover.2.2
        (5764290054773 / 18902956666263) (39415995065920 / 56708869998789)
        (4768550 / 56708869998789) = ⟨0, 0⟩ := by decide!
    rw [e]
    simp [in_unit_square]

/-! ## `scan_triangle` and `draw_tri`: culling -/

/-- C13, amended: in exact arithmetic `scan_triangle` returns false exactly when
the three vertices are collinear (zero signed area), and true for every
non-collinear triangle; with arithmetic rounded by any `rnd` it returns false
exactly when the two side values it computes are equal; in both cases, when it
returns false the surface is unchanged. -/
theorem scan_triangle_collinear (surf : SDL_Surface) (v : vec2f_t × vec2f_t × vec2f_t)
    (rgb : Nat) (lo0 hi0 : Int → Int) :
    ((scan_triangle surf v rgb lo0 hi0).1 = false ↔ signed_area v.1 v.2.1 v.2.2 = 0) ∧
    ((scan_triangle surf v rgb lo0 hi0).1 = false → (scan_triangle surf v rgb lo0 hi0).2 = surf) ∧
    (signed_area v.1 v.2.1 v.2.2 ≠ 0 → (scan_triangle surf v rgb lo0 hi0).1 = true) ∧
    ∀ rnd : ℚ → ℚ,
      ((scan_triangle_r rnd surf v rgb lo0 hi0).1 = false ↔
        side_d1_r rnd (sort3 v) = side_d2_r rnd (sort3 v)) ∧
      ((scan_triangle_r rnd surf v rgb lo0 hi0).1 = false →
        (scan_triangle_r rnd surf v rgb lo0 hi0).2 = surf) := by
  refine ⟨?_, ?_, ?_, fun rnd => scan_triangle_r_false rnd surf v rgb lo0 hi0⟩
  all_goals have hiff := side_eq_iff v
  all_goals rw [scan_triangle_unfold]
  all_goals by_cases h : side_d1 (sort3 v) = side_d2 (sort3 v)
  all_goals first
    | (have hz := hiff.mp h
       simp [h, hz])
    | (have hz : signed_area v.1 v.2.1 v.2.2 ≠ 0 := fun hc => h (hiff.mpr hc)
       simp [h, hz])

/-- C13, counterexample: with binary32 rounding the float triangle
`sliver_triangle` `(0,256)`, `(0.125,256)`, `(256,255.96875)`, which is not
collinear, has both side values rounded to 65536 and `scan_triangle` returns
false; the three float points of `line_triangle` lie on one line, yet their
rounded side values differ, `scan_triangle` returns true and sets the pixel in
column 160 of row 194. -/
theorem scan_triangle_rounding_counterexample :
    (float_point sliver_triangle.1 ∧ float_point sliver_triangle.2.1 ∧
      float_point sliver_triangle.2.2 ∧ float_point line_triangle.1 ∧
      float_point line_triangle.2.1 ∧ float_point line_triangle.2.2) ∧
    signed_area sliver_triangle.1 sliver_triangle.2.1 sliver_triangle.2.2 ≠ 0 ∧
    (scan_triangle_r round32 empty_surface sliver_triangle 0xAABBCC (fun _ => 0)
      (fun _ => 0)).1 = false ∧
    signed_area line_triangle.1 line_triangle.2.1 line_triangle.2.2 = 0 ∧
    (scan_triangle_r round32 empty_surface line_triangle 0xAABBCC (fun _ => 0)
      (fun _ => 0)).1 = true ∧
    (scan_triangle_r round32 empty_surface line_triangle 0xAABBCC (fun _ => 0)
      (fun _ => 0)).2.pixels (160 + 194 * 512) = 0xAABBCC := by
  refine ⟨?_, by decide!, by decide!, by decide!, by decide!, by decide!⟩
  unfold float_point is_float
  decide!

/-- C14, amended: `draw_tri` consults `is_backface` with the second and third
vertices exchanged: when `is_backface(t0, t2, t1)` is true the surface is
unchanged, when it is false `draw_tri` runs `scan_triangle` on `(t0, t1, t2)`;
this holds with exact arithmetic and with arithmetic rounded by any `rnd`. -/
theorem draw_tri_cull (surf : SDL_Surface) (t : vec4f_t × vec4f_t × vec4f_t) (rgb : Nat)
    (lo0 hi0 : Int → Int) :
    (is_backface ⟨t.1.x, t.1.y⟩ ⟨t.2.2.x, t.2.2.y⟩ ⟨t.2.1.x, t.2.1.y⟩ = true →
      draw_tri surf t rgb lo0 hi0 = surf) ∧
    (is_backface ⟨t.1.x, t.1.y⟩ ⟨t.2.2.x, t.2.2.y⟩ ⟨t.2.1.x, t.2.1.y⟩ = false →
      draw_tri surf t rgb lo0 hi0 =
        (scan_triangle surf (⟨t.1.x, t.1.y⟩, ⟨t.2.1.x, t.2.1.y⟩, ⟨t.2.2.x, t.2.2.y⟩) rgb
          lo0 hi0).2) ∧
    ∀ rnd : ℚ → ℚ,
      (is_backface_r rnd ⟨t.1.x, t.1.y⟩ ⟨t.2.2.x, t.2.2.y⟩ ⟨t.2.1.x, t.2.1.y⟩ = true →
        draw_tri_r rnd surf t rgb lo0 hi0 = surf) ∧
      (is_backface_r rnd ⟨t.1.x, t.1.y⟩ ⟨t.2.2.x, t.2.2.y⟩ ⟨t.2.1.x, t.2.1.y⟩ = false →
        draw_tri_r rnd surf t rgb lo0 hi0 =
          (scan_triangle_r rnd surf (⟨t.1.x, t.1.y⟩, ⟨t.2.1.x, t.2.1.y⟩, ⟨t.2.2.x, t.2.2.y⟩)
            rgb lo0 hi0).2) := by
  refine ⟨fun h => ?_, fun h => ?_, fun rnd => draw_tri_r_cull rnd surf t rgb lo0 hi0⟩
  · simp [draw_tri, h]
  · simp [draw_tri, h]

/-- C14, counterexample: the triangle `(0,0)`, `(10,0)`, `(0,10)` is back-facing
in its own vertex order, yet `draw_tri` changes pixel 0 of the empty surface, in
exact and in binary32 arithmetic. -/
theorem draw_tri_cull_counterexample :
    is_backface ⟨facing_triangle.1.x, facing_triangle.1.y⟩
      ⟨facing_triangle.2.1.x, facing_triangle.2.1.y⟩
      ⟨facing_triangle.2.2.x, facing_triangle.2.2.y⟩ = true ∧
    (draw_tri empty_surface facing_triangle 0xAABBCC (fun _ => 0) (fun _ => 0)).pixels 0 ≠
      empty_surface.pixels 0 ∧
    is_backface_r round32 ⟨facing_triangle.1.x, facing_triangle.1.y⟩
      ⟨facing_triangle.2.1.x, facing_triangle.2.1.y⟩
      ⟨facing_triangle.2.2.x, facing_triangle.2.2.y⟩ = true ∧
    (draw_tri_r round32 empty_surface facing_triangle 0xAABBCC (fun _ => 0)
      (fun _ => 0)).pixels 0 ≠ empty_surface.pixels 0 := by
  decide!

theorem plot_outside (surf : SDL_Surface) (x y : Int) (rgb : Nat)
    (h : x < 0 ∨ y < 0 ∨ x ≥ surf.w ∨ y ≥ surf.h) : plot surf x y rgb = surf := by
  have h2 : (x : ℚ) < 0 ∨ (y : ℚ) < 0 ∨ x ≥ surf.w ∨ y ≥ surf.h := by
    rcases h with h | h | h | h
    · exact Or.inl (by exact_mod_cast h)
    · exact Or.inr (Or.inl (by exact_mod_cast h))
    · exact Or.inr (Or.inr (Or.inl h))
    · exact Or.inr (Or.inr (Or.inr h))
  simp only [plot, if_pos h2]

theorem plot_inside (surf : SDL_Surface) (x y : Int) (rgb : Nat)
    (hx0 : 0 ≤ x) (hy0 : 0 ≤ y) (hx1 : x < surf.w) (hy1 : y < surf.h) :
    plot surf x y rgb =
      { surf with pixels := fun i => if i = x + y * surf.w then rgb else surf.pixels i } := by
  have h2 : ¬ ((x : ℚ) < 0 ∨ (y : ℚ) < 0 ∨ x ≥ surf.w ∨ y ≥ surf.h) := by
    have a : ¬ ((x : ℚ) < 0) := by
      have : (0 : ℚ) ≤ x := by exact_mod_cast hx0
      linarith
    have b : ¬ ((y : ℚ) < 0) := by
      have : (0 : ℚ) ≤ y := by exact_mod_cast hy0
      linarith
    simp only [a, b, false_or, not_or, ge_iff_le, not_le]
    exact ⟨hx1, hy1⟩
  simp only [plot, if_neg h2]

theorem touched_refl (rgb : Nat) (s : SDL_Surface) : touched_inside rgb s s :=
  ⟨rfl, rfl, fun _ h => absurd rfl h⟩

theorem touched_trans (rgb : Nat) (s1 s2 s3 : SDL_Surface) (h12 : touched_inside rgb s1 s2)
    (h23 : touched_inside rgb s2 s3) : touched_inside rgb s1 s3 := by
  obtain ⟨w12, e12, p12⟩ := h12
  obtain ⟨w23, e23, p23⟩ := h23
  refine ⟨by rw [w23, w12], by rw [e23, e12], ?_⟩
  intro i hi
  by_cases h : s3.pixels i = s2.pixels i
  · rw [h] at hi ⊢
    exact p12 i hi
  · obtain ⟨a, x, y, b⟩ := p23 i h
    rw [w12, e12] at b
    exact ⟨a, x, y, b⟩

theorem touched_plot (rgb : Nat) (s : SDL_Surface) (x y : Int) :
    touched_inside rgb s (plot s x y rgb) := by
  by_cases h : x < 0 ∨ y < 0 ∨ x ≥ s.w ∨ y ≥ s.h
  · rw [plot_outside s x y rgb h]; exact touched_refl rgb s
  · simp only [not_or, not_lt, ge_iff_le, not_le] at h
    obtain ⟨hx0, hy0, hx1, hy1⟩ := h
    rw [plot_inside s x y rgb hx0 hy0 hx1 hy1]
    refine ⟨rfl, rfl, ?_⟩
    intro i hi
    simp only at hi ⊢
    by_cases e : i = x + y * s.w
    · rw [if_pos e]
      exact ⟨rfl, x, y, hx0, hx1, hy0, hy1, e⟩
    · rw [if_neg e] at hi
      exact absurd rfl hi

theorem touched_loop_x (rgb : Nat) (iy : Int) :
    ∀ (todo : Nat) (x y : Int) (s : SDL_Surface),
      touched_inside rgb s (line_loop_x rgb iy todo x y s) := by
  intro todo
  induction todo with
  | zero => intro x y s; exact touched_refl rgb s
  | succ n ih =>
    intro x y s
    rw [line_loop_x]
    exact touched_trans rgb _ _ _ (touched_plot rgb s x _) (ih _ _ _)

theorem touched_loop_y (rgb : Nat) (ix : Int) :
    ∀ (todo : Nat) (y x : Int) (s : SDL_Surface),
      touched_inside rgb s (line_loop_y rgb ix todo y x s) := by
  intro todo
  induction todo with
  | zero => intro y x s; exact touched_refl rgb s
  | succ n ih =>
    intro y x s
    rw [line_loop_y]
    exact touched_trans rgb _ _ _ (touched_plot rgb s _ y) (ih _ _ _)

theorem touched_draw_line (surf : SDL_Surface) (a b : vec2f_t) (rgb : Nat) :
    touched_inside rgb surf (draw_line surf a b rgb) := by
  unfold draw_line
  simp only
  split_ifs
  · exact touched_refl rgb surf
  all_goals first
    | exact touched_loop_x rgb _ _ _ _ surf
    | exact touched_loop_y rgb _ _ _ _ surf

/-- C17: `plot` leaves the surface unchanged when `x < 0`, `y < 0`, `x ≥ w` or
`y ≥ h`; otherwise it changes exactly the pixel at offset `x + y * w` (column
`x` of row `y`), which lies in the buffer, to `rgb`; every pixel that
`draw_line` changes is at such an offset, for every pair of endpoints. -/
theorem plot_bounds (surf : SDL_Surface) (x y : Int) (rgb : Nat) :
    ((x < 0 ∨ y < 0 ∨ x ≥ surf.w ∨ y ≥ surf.h) → plot surf x y rgb = surf) ∧
    ((0 ≤ x ∧ 0 ≤ y ∧ x < surf.w ∧ y < surf.h) →
      (0 ≤ x + y * surf.w ∧ x + y * surf.w < surf.w * surf.h) ∧
      ∀ i : Int, (plot surf x y rgb).pixels i =
        if i = x + y * surf.w then rgb else surf.pixels i) ∧
    ∀ (a b : vec2f_t) (i : Int), (draw_line surf a b rgb).pixels i ≠ surf.pixels i →
      ∃ px py : Int, 0 ≤ px ∧ px < surf.w ∧ 0 ≤ py ∧ py < surf.h ∧ i = px + py * surf.w ∧
        0 ≤ i ∧ i < surf.w * surf.h := by
  refine ⟨plot_outside surf x y rgb, ?_, ?_⟩
  · rintro ⟨hx0, hy0, hx1, hy1⟩
    rw [plot_inside surf x y rgb hx0 hy0 hx1 hy1]
    refine ⟨⟨by nlinarith, by nlinarith⟩, fun i => rfl⟩
  · intro a b i hi
    obtain ⟨_, _, h⟩ := touched_draw_line surf a b rgb
    obtain ⟨_, px, py, h1, h2, h3, h4, h5⟩ := h i hi
    refine ⟨px, py, h1, h2, h3, h4, h5, ?_, ?_⟩
    · rw [h5]; nlinarith
    · rw [h5]; nlinarith

/-! ## `scan_triangle`: rows and columns of the fill -/

theorem sort3_max (v : vec2f_t × vec2f_t × vec2f_t) :
    v.1.y ≤ (sort3 v).2.2.y ∧ v.2.1.y ≤ (sort3 v).2.2.y ∧ v.2.2.y ≤ (sort3 v).2.2.y := by
  obtain ⟨a, b, c⟩ := v
  unfold sort3
  by_cases c1 : b.y < a.y <;> by_cases c2 : c.y < a.y <;> by_cases c3 : c.y < b.y <;>
    by_cases c4 : a.y < b.y <;> by_cases c5 : b.y < c.y <;> by_cases c6 : a.y < c.y <;>
    simp only [c1, c2, c3, c4, c5, c6, if_true, if_false] <;>
    refine ⟨?_, ?_, ?_⟩ <;> linarith

/-- In a row the fill loop visits, both span entries were stored by a walk of
`scan_convert`: `lo[y]` by a `CLIP_SPAN_MAX_X` walk and `hi[y]` by a
`CLIP_SPAN_MIN_X` walk. -/
theorem visited_entries (v : vec2f_t × vec2f_t × vec2f_t) (lo0 hi0 : Int → Int) (y : Int)
    (hne : signed_area v.1 v.2.1 v.2.2 ≠ 0) (h2 : 0 ≤ (sort3 v).2.2.y)
    (h0 : (sort3 v).1.y ≤ 2147483647) (hy0 : fill_y0 v ≤ y) (hy1 : y ≤ fill_y1 v) :
    (∃ x : Int, (span_tables v lo0 hi0).1 y = span_value .CLIP_SPAN_MAX_X x) ∧
    (∃ x : Int, (span_tables v lo0 hi0).2 y = span_value .CLIP_SPAN_MIN_X x) ∧
    0 ≤ y ∧ y ≤ 511 := by
  obtain ⟨_, h12⟩ := sort3_sorted v
  have hlt := sorted_strict v hne
  obtain ⟨y0, y1, ha, hb, hr⟩ := visited_row _ _ y h2 h0 hy0 hy1
  have hl := long_covers _ _ y hlt h2 y0 y1 ha hb hr
  have hs := short_covers _ _ _ y h12 hlt y0 y1 ha hb hr
  refine ⟨?_, ?_, y0, y1⟩
  · unfold span_tables scan_edges
    split_ifs with hd
    · rcases short_entry .CLIP_SPAN_MAX_X _ _ _ lo0 y hs with ⟨_, e⟩ | ⟨_, e⟩ <;>
        exact ⟨_, e⟩
    · exact ⟨_, scan_convert_covered _ _ _ _ _ hl⟩
  · unfold span_tables scan_edges
    split_ifs with hd
    · exact ⟨_, scan_convert_covered _ _ _ _ _ hl⟩
    · rcases short_entry .CLIP_SPAN_MIN_X _ _ _ hi0 y hs with ⟨_, e⟩ | ⟨_, e⟩ <;>
        exact ⟨_, e⟩

/-- A triangle whose top vertex is at or beyond `2^31` has no row to fill. -/
theorem no_rows_beyond (v : vec2f_t × vec2f_t × vec2f_t)
    (h : 2147483648 ≤ (sort3 v).1.y) : (fill_y1 v + 1 - fill_y0 v).toNat = 0 := by
  obtain ⟨h01, h12⟩ := sort3_sorted v
  have h2 : (0 : ℚ) ≤ (sort3 v).2.2.y := by linarith
  have e : to_int32 (sort3 v).2.2.y = -2147483648 := by
    rcases to_int32_nonneg_cases _ h2 with ⟨hlt, _⟩ | he
    · linarith
    · exact he
  have a : fill_y1 v = -2147483648 := by
    unfold fill_y1
    rw [e]
    decide
  have b : 0 ≤ fill_y0 v := le_max_right _ _
  omega

/-- C19: on a surface of pitch 2048 (512 pixels a row), for every triangle
whose largest vertex y is at least 0 (vertex y values as a `float` can hold),
every pixel that `scan_triangle` changes holds `rgb` and lies at offset
`x + y * 512` with `0 ≤ y ≤ 511` and `0 ≤ x ≤ 510`, `x < hi[y] ≤ 511`, whatever
the vertex x coordinates are; every other pixel is unchanged. -/
theorem scan_triangle_inside (surf : SDL_Surface) (v : vec2f_t × vec2f_t × vec2f_t)
    (rgb : Nat) (lo0 hi0 : Int → Int) (hp : surf.pitch = 2048)
    (hy : 0 ≤ v.1.y ∨ 0 ≤ v.2.1.y ∨ 0 ≤ v.2.2.y)
    (f0 : float_row v.1) (f1 : float_row v.2.1) (f2 : float_row v.2.2) (i : Int) :
    (scan_triangle surf v rgb lo0 hi0).2.pixels i = surf.pixels i ∨
    ((scan_triangle surf v rgb lo0 hi0).2.pixels i = rgb ∧
      ∃ x y : Int, 0 ≤ x ∧ x ≤ 510 ∧ 0 ≤ y ∧ y ≤ 511 ∧
        x < (span_tables v lo0 hi0).2 y ∧ (span_tables v lo0 hi0).2 y ≤ 511 ∧
        i = x + y * 512) := by
  rw [scan_triangle_unfold]
  by_cases hd : side_d1 (sort3 v) = side_d2 (sort3 v)
  · left; rw [if_pos hd]
  · rw [if_neg hd]
    simp only
    have hne : signed_area v.1 v.2.1 v.2.2 ≠ 0 := fun hc => hd ((side_eq_iff v).mpr hc)
    obtain ⟨m0, m1, m2⟩ := sort3_max v
    have h2 : 0 ≤ (sort3 v).2.2.y := by
      rcases hy with h | h | h <;> linarith
    obtain ⟨g0, _, _⟩ := sort3_all float_row v f0 f1 f2
    rcases g0 with g | g
    · rcases fill_rows_spec (span_tables v lo0 hi0).1 (span_tables v lo0 hi0).2
          (Int.tdiv surf.pitch 4) rgb (fill_y1 v + 1 - fill_y0 v).toNat (fill_y0 v)
          (Int.tdiv (fill_y0 v * surf.pitch) 4) surf.pixels i with ⟨e, k, hk, hw⟩ | ⟨e, _⟩
      · right
        refine ⟨e, ?_⟩
        have hy0 : fill_y0 v ≤ fill_y0 v + k := by omega
        have hy1 : fill_y0 v + k ≤ fill_y1 v := by omega
        obtain ⟨⟨xl, el⟩, ⟨xh, eh⟩, r0, r1⟩ :=
          visited_entries v lo0 hi0 (fill_y0 v + k) hne h2 g hy0 hy1
        have lo_ge := span_value_max_nonneg xl
        have hi_le := span_value_min_le xh
        rw [← el] at lo_ge
        rw [← eh] at hi_le
        have s1 : Int.tdiv surf.pitch 4 = 512 := by rw [hp]; decide
        have s2 : Int.tdiv (fill_y0 v * surf.pitch) 4 = fill_y0 v * 512 := by
          rw [hp]
          have : fill_y0 v * 2048 = fill_y0 v * 512 * 4 := by ring
          rw [this, Int.mul_tdiv_cancel _ (by decide)]
        rw [s1, s2] at hw
        simp only [row_writes] at hw
        refine ⟨i - (fill_y0 v + k) * 512, fill_y0 v + k, ?_, ?_, r0, r1, ?_, hi_le, ?_⟩ <;> omega
      · left; exact e
    · left
      rw [no_rows_beyond v g]
      rfl

/-- Witness of `scan_triangle_inside`: pixel `(1,1)` of `corner_triangle`, which
the fill changes. -/
theorem scan_triangle_inside_witness :
    (empty_surface.pitch = 2048 ∧
      (0 ≤ corner_triangle.1.y ∨ 0 ≤ corner_triangle.2.1.y ∨ 0 ≤ corner_triangle.2.2.y) ∧
      float_row corner_triangle.1 ∧ float_row corner_triangle.2.1 ∧
      float_row corner_triangle.2.2) ∧
    (scan_triangle empty_surface corner_triangle 0xAABBCC (fun _ => 0) (fun _ => 0)).2.pixels 513
      ≠ empty_surface.pixels 513 ∧
    ((scan_triangle empty_surface corner_triangle 0xAABBCC (fun _ => 0) (fun _ => 0)).2.pixels 513
        = empty_surface.pixels 513 ∨
      ((scan_triangle empty_surface corner_triangle 0xAABBCC (fun _ => 0) (fun _ => 0)).2.pixels
          513 = 0xAABBCC ∧
        ∃ x y : Int, 0 ≤ x ∧ x ≤ 510 ∧ 0 ≤ y ∧ y ≤ 511 ∧
          x < (span_tables corner_triangle (fun _ => 0) (fun _ => 0)).2 y ∧
          (span_tables corner_triangle (fun _ => 0) (fun _ => 0)).2 y ≤ 511 ∧
          (513 : Int) = x + y * 512)) :=
  have f0 : float_row corner_triangle.1 := by norm_num [float_row, corner_triangle]
  have f1 : float_row corner_triangle.2.1 := by norm_num [float_row, corner_triangle]
  have f2 : float_row corner_triangle.2.2 := by norm_num [float_row, corner_triangle]
  have hy : 0 ≤ corner_triangle.1.y ∨ 0 ≤ corner_triangle.2.1.y ∨ 0 ≤ corner_triangle.2.2.y :=
    Or.inl (by norm_num [corner_triangle])
  ⟨⟨rfl, hy, f0, f1, f2⟩, by decide!,
    scan_triangle_inside empty_surface corner_triangle 0xAABBCC (fun _ => 0) (fun _ => 0) rfl hy
      f0 f1 f2 513⟩

/-- C20, failing input: the non-collinear triangle `(0,-3/4)`, `(4,-1/2)`,
`(0,-1/4)` lies above the viewport, so all three `scan_convert` calls return at
`b.y < 0` and the span tables keep their uninitialised contents; the fill loop
still runs for row 0, because `int32_t(v[2].y)` truncates `-1/4` to 0, and reads
`lo[0]` and `hi[0]`: the pixels written depend on the uninitialised contents. -/
theorem scan_triangle_reads_unwritten :
    signed_area above_triangle.1 above_triangle.2.1 above_triangle.2.2 ≠ 0 ∧
    is_backface above_triangle.1 above_triangle.2.2 above_triangle.2.1 = false ∧
    fill_y0 above_triangle = 0 ∧ fill_y1 above_triangle = 0 ∧
    (∀ lo0 hi0 : Int → Int, span_tables above_triangle lo0 hi0 = (lo0, hi0)) ∧
    (scan_triangle empty_surface above_triangle 0xAABBCC (fun _ => 0) (fun _ => 3)).2.pixels 2
      = 0xAABBCC ∧
    (scan_triangle empty_surface above_triangle 0xAABBCC (fun _ => 0) (fun _ => 0)).2.pixels 2
      = 0 := by
  refine ⟨by decide!, by decide!, by decide!, by decide!, ?_, by decide!, by decide!⟩
  intro lo0 hi0
  have e : sort3 above_triangle = above_triangle := by decide!
  unfold span_tables scan_edges
  rw [e]
  split_ifs <;> simp only <;>
    repeat rw [scan_convert_reject _ _ _ _ (Or.inl (by norm_num [above_triangle]))]

/-! ## Vertex sort and the rows of `scan_convert` -/

/-- Forgetting the tags, `sort3_tagged` is `sort3`. -/
theorem sort3_tagged_fst {α : Type} (v : (vec2f_t × α) × (vec2f_t × α) × (vec2f_t × α)) :
    ((sort3_tagged v).1.1, (sort3_tagged v).2.1.1, (sort3_tagged v).2.2.1) =
      sort3 (v.1.1, v.2.1.1, v.2.2.1) := by
  obtain ⟨a, b, c⟩ := v
  unfold sort3_tagged sort3
  by_cases c1 : b.1.y < a.1.y <;> by_cases c2 : c.1.y < a.1.y <;> by_cases c3 : c.1.y < b.1.y <;>
    by_cases c4 : a.1.y < b.1.y <;> by_cases c5 : b.1.y < c.1.y <;> by_cases c6 : a.1.y < c.1.y <;>
    simp only [c1, c2, c3, c4, c5, c6, if_true, if_false]

/-- C24: for every input triple, the array after the three compare-swaps of
`scan_triangle` is a permutation of the input, with
`v[0].y ≤ v[1].y ≤ v[2].y`. -/
theorem sort3_permutation (v : vec2f_t × vec2f_t × vec2f_t) :
    List.Perm [(sort3 v).1, (sort3 v).2.1, (sort3 v).2.2] [v.1, v.2.1, v.2.2] ∧
    (sort3 v).1.y ≤ (sort3 v).2.1.y ∧ (sort3 v).2.1.y ≤ (sort3 v).2.2.y := by
  refine ⟨?_, sort3_sorted v⟩
  obtain ⟨a, b, c⟩ := v
  unfold sort3
  have p1 : List.Perm [b, a, c] [a, b, c] := List.Perm.swap a b [c]
  have p2 : List.Perm [a, c, b] [a, b, c] := (List.Perm.swap b c []).cons a
  have p3 : List.Perm [c, b, a] [a, b, c] :=
    ((List.Perm.swap b c [a]).trans ((List.Perm.swap a c []).cons b)).trans p1
  have p4 : List.Perm [b, c, a] [a, b, c] := ((List.Perm.swap a c []).cons b).trans p1
  have p5 : List.Perm [c, a, b] [a, b, c] := (List.Perm.swap a c [b]).trans p2
  by_cases c1 : b.y < a.y <;> by_cases c2 : c.y < a.y <;> by_cases c3 : c.y < b.y <;>
    by_cases c4 : a.y < b.y <;> by_cases c5 : b.y < c.y <;> by_cases c6 : a.y < c.y <;>
    simp only [c1, c2, c3, c4, c5, c6, if_true, if_false] <;>
    first | exact List.Perm.refl _ | exact p1 | exact p2 | exact p3 | exact p4 | exact p5

/-- C25, counterexample: for the input `(0,1)`, `(1,1)`, `(2,0)` the sorted array
is `(2,0)`, `(1,1)`, `(0,1)`: the two vertices with `y = 1` stand in the reverse
of their input order. -/
theorem sort3_stable_counterexample :
    ¬ stable3 (sort3_tagged (tag_positions level_triangle)) ∧
    sort3 level_triangle = (⟨2, 0⟩, ⟨1, 1⟩, ⟨0, 1⟩) := by
  constructor
  · intro h
    have := h.2.2
    revert this
    decide!
  · decide!

/-- C25, amended: two vertices with equal y keep their input order in the sorted
array, unless `v[0].y = v[1].y` and `v[2].y < v[0].y`; in that case the sorted
array is `(v[2], v[1], v[0])`, the two equal vertices exchanged. -/
theorem sort3_stable_unless (v : vec2f_t × vec2f_t × vec2f_t) :
    (¬ (v.1.y = v.2.1.y ∧ v.2.2.y < v.1.y) → stable3 (sort3_tagged (tag_positions v))) ∧
    (v.1.y = v.2.1.y ∧ v.2.2.y < v.1.y →
      sort3_tagged (tag_positions v) = ((v.2.2, 2), (v.2.1, 1), (v.1, 0)) ∧
      sort3 v = (v.2.2, v.2.1, v.1)) := by
  obtain ⟨a, b, c⟩ := v
  unfold stable3 sort3_tagged sort3 tag_positions
  constructor
  · intro h
    by_cases c1 : b.y < a.y <;> by_cases c2 : c.y < a.y <;> by_cases c3 : c.y < b.y <;>
      by_cases c4 : a.y < b.y <;> by_cases c5 : b.y < c.y <;> by_cases c6 : a.y < c.y <;>
      simp only [c1, c2, c3, c4, c5, c6, if_true, if_false] <;>
      refine ⟨?_, ?_, ?_⟩ <;> intro e <;> first | decide | (exfalso; simp only at e h c1 c2 c3 c4 c5 c6; first | linarith | exact h ⟨by linarith, by linarith⟩)
  · rintro ⟨e, l⟩
    simp only at e l
    have c1 : ¬ b.y < a.y := by linarith
    have c3 : ¬ a.y < b.y := by linarith
    simp only [c1, l, c3, if_true, if_false, and_self]

/-- C26: `scan_convert` is a run of its store loop over rows `y0 ≤ y < y0 + todo`
that all satisfy `0 ≤ y ≤ 511`; hence every entry of the span table outside
`0..511` is unchanged; and when the edge is rejected (`b.y < 0`, `a.y > 511` or
`b.y ≤ a.y`) the whole table is unchanged. -/
theorem scan_convert_in_range (clip : clip_span_t) (a b : vec2f_t) (span : Int → Int) :
    (∃ (idx x y0 : Int) (todo : Nat),
      scan_convert clip a b span = scan_loop clip idx todo y0 x span ∧
      ∀ y : Int, y0 ≤ y → y < y0 + todo → 0 ≤ y ∧ y ≤ 511) ∧
    (∀ y : Int, y < 0 ∨ 511 < y → scan_convert clip a b span y = span y) ∧
    (b.y < 0 ∨ a.y > 511 ∨ b.y ≤ a.y → scan_convert clip a b span = span) := by
  have key : ∃ (idx x y0 : Int) (todo : Nat),
      scan_convert clip a b span = scan_loop clip idx todo y0 x span ∧
      ∀ y : Int, y0 ≤ y → y < y0 + todo → 0 ≤ y ∧ y ≤ 511 := by
    by_cases h1 : b.y < 0 ∨ a.y > ((screen_h : Int) : ℚ)
    · refine ⟨0, 0, 0, 0, ?_, fun y p q => by omega⟩
      unfold scan_convert
      rw [if_pos h1]
      rfl
    · by_cases h2 : b.y ≤ a.y
      · refine ⟨0, 0, 0, 0, ?_, fun y p q => by omega⟩
        unfold scan_convert
        rw [if_neg h1, if_pos h2]
        rfl
      · unfold scan_convert
        rw [if_neg h1, if_neg h2]
        refine ⟨_, _, _, _, rfl, ?_⟩
        intro y p q
        unfold maxv at p q
        unfold minv screen_h at q
        split_ifs at p q <;> omega
  refine ⟨key, ?_, scan_convert_reject clip a b span⟩
  intro y hy
  obtain ⟨idx, x, y0, todo, e, h⟩ := key
  rw [e, scan_loop_spec, if_neg]
  intro hc
  have := h y hc.1 hc.2
  omega

/-! ## `clip_line`: bounds after clipping -/

/-- `clip_line` as its two early returns followed by the x phase and the y phase. -/
theorem clip_line_phases (a b : vec2f_t) :
    clip_line a b =
      if 0 = (classify a ||| classify b) then (false, a, b)
      else if (classify a &&& classify b) &&& CLIP_X_LO ≠ 0 ∨
          (classify a &&& classify b) &&& CLIP_X_HI ≠ 0 ∨
          (classify a &&& classify b) &&& CLIP_Y_LO ≠ 0 ∨
          (classify a &&& classify b) &&& CLIP_Y_HI ≠ 0 then (true, a, b)
      else (false, clip_line_y (clip_line_x a b).1 (clip_line_x a b).2) := rfl

theorem classify_y_bits (p : vec2f_t) :
    (classify_y p &&& CLIP_Y_LO ≠ 0 ↔ p.y < 8) ∧ (classify_y p &&& CLIP_Y_HI ≠ 0 ↔ p.y > 504) := by
  unfold classify_y CLIP_Y_LO CLIP_Y_HI min_y max_y
  by_cases h3 : p.y < 8 <;> by_cases h4 : p.y > 504 <;> simp +decide [h3, h4]

theorem classify_x_bits (p : vec2f_t) :
    (classify p &&& CLIP_X_LO ≠ 0 ↔ p.x < 8) ∧ (classify p &&& CLIP_X_HI ≠ 0 ↔ p.x > 504) :=
  ⟨(classify_bits p).1, (classify_bits p).2.1⟩

theorem on_line_rev (A D : vec2f_t) (t : ℚ) :
    on_line A D t = on_line (on_line A D 1) ⟨-D.x, -D.y⟩ (1 - t) := by
  simp only [on_line, vec2f_t.mk.injEq]
  constructor <;> ring

theorem clip_x_lo_pos (c : Nat) (va vb : vec2f_t) (h : c &&& CLIP_X_LO ≠ 0) :
    clip_x_lo c va vb = ⟨8, va.y + (vb.y - va.y) / (vb.x - va.x) * (8 - va.x)⟩ := by
  unfold clip_x_lo
  rw [if_pos h]
  rfl

theorem clip_x_lo_neg (c : Nat) (va vb : vec2f_t) (h : ¬ c &&& CLIP_X_LO ≠ 0) :
    clip_x_lo c va vb = va := by
  unfold clip_x_lo
  rw [if_neg h]

theorem clip_x_hi_pos (c : Nat) (va vb : vec2f_t) (h : c &&& CLIP_X_HI ≠ 0) :
    clip_x_hi c va vb = ⟨504, va.y - (vb.y - va.y) / (vb.x - va.x) * (va.x - 504)⟩ := by
  unfold clip_x_hi
  rw [if_pos h]
  rfl

theorem clip_x_hi_neg (c : Nat) (va vb : vec2f_t) (h : ¬ c &&& CLIP_X_HI ≠ 0) :
    clip_x_hi c va vb = va := by
  unfold clip_x_hi
  rw [if_neg h]

theorem clip_y_lo_pos (c : Nat) (va vb : vec2f_t) (h : c &&& CLIP_Y_LO ≠ 0) :
    clip_y_lo c va vb = ⟨va.x + (vb.x - va.x) / (vb.y - va.y) * (8 - va.y), 8⟩ := by
  unfold clip_y_lo
  rw [if_pos h]
  rfl

theorem clip_y_lo_neg (c : Nat) (va vb : vec2f_t) (h : ¬ c &&& CLIP_Y_LO ≠ 0) :
    clip_y_lo c va vb = va := by
  unfold clip_y_lo
  rw [if_neg h]

theorem clip_y_hi_pos (c : Nat) (va vb : vec2f_t) (h : c &&& CLIP_Y_HI ≠ 0) :
    clip_y_hi c va vb = ⟨va.x - (vb.x - va.x) / (vb.y - va.y) * (va.y - 504), 504⟩ := by
  unfold clip_y_hi
  rw [if_pos h]
  rfl

theorem clip_y_hi_neg (c : Nat) (va vb : vec2f_t) (h : ¬ c &&& CLIP_Y_HI ≠ 0) :
    clip_y_hi c va vb = va := by
  unfold clip_y_hi
  rw [if_neg h]

/-- After `clip_y_lo` and `clip_y_hi` with the outcode of `va`, the y coordinate
is within bounds. -/
theorem clip_y_bounds (va vb : vec2f_t) :
    8 ≤ (clip_y_hi (classify_y va) (clip_y_lo (classify_y va) va vb) vb).y ∧
    (clip_y_hi (classify_y va) (clip_y_lo (classify_y va) va vb) vb).y ≤ 504 := by
  obtain ⟨b1, b2⟩ := classify_y_bits va
  by_cases l : va.y < 8
  · have nh : ¬ va.y > 504 := by linarith
    rw [clip_y_lo_pos _ _ _ (b1.mpr l), clip_y_hi_neg _ _ _ (fun h => nh (b2.mp h))]
    norm_num
  · by_cases h : va.y > 504
    · rw [clip_y_lo_neg _ _ _ (fun q => l (b1.mp q)), clip_y_hi_pos _ _ _ (b2.mpr h)]
      norm_num
    · rw [clip_y_lo_neg _ _ _ (fun q => l (b1.mp q)), clip_y_hi_neg _ _ _ (fun q => h (b2.mp q))]
      exact ⟨not_lt.mp l, not_lt.mp h⟩

/-- Moving `va` along the line from parameter `tv` to the parameter where the
first coordinate function `f t = p + t * d` takes the value `c`: the step lies
between `tv` and `ts` when `f tv` is on the far side of `c` from `f ts`. -/
theorem line_step (p d q e tv ts tw c : ℚ) (h1 : tv ≤ ts) (h2 : ts ≤ tw)
    (hv : (p + tv * d - c) * (p + ts * d - c) ≤ 0) (hne : p + tv * d ≠ c) :
    tv ≤ (c - p) / d ∧ (c - p) / d ≤ ts ∧ p + (c - p) / d * d = c ∧
      q + tv * e + (q + tw * e - (q + tv * e)) / (p + tw * d - (p + tv * d)) * (c - (p + tv * d)) =
        q + (c - p) / d * e := by
  have hts : tv < ts := by
    rcases h1.lt_or_eq with h | h
    · exact h
    · exfalso
      rw [← h] at hv
      have : p + tv * d - c ≠ 0 := sub_ne_zero.mpr hne
      nlinarith [mul_self_pos.mpr this]
  have hd : d ≠ 0 := by
    intro h0
    rw [h0] at hv hne
    simp only [mul_zero, add_zero] at hv hne
    have : p - c ≠ 0 := sub_ne_zero.mpr hne
    nlinarith [mul_self_pos.mpr this]
  have hw : tw - tv ≠ 0 := by linarith
  have hden : p + tw * d - (p + tv * d) ≠ 0 := by
    have : p + tw * d - (p + tv * d) = (tw - tv) * d := by ring
    rw [this]
    exact mul_ne_zero hw hd
  refine ⟨?_, ?_, ?_, ?_⟩
  · rcases lt_or_gt_of_ne hd with n | n
    · rw [le_div_iff_of_neg n]
      by_contra hc
      have a1 : p + tv * d - c < 0 := by linarith
      have a2 : p + ts * d - c < 0 := by nlinarith
      nlinarith
    · rw [le_div_iff₀ n]
      by_contra hc
      have a1 : 0 < p + tv * d - c := by linarith
      have a2 : 0 < p + ts * d - c := by nlinarith
      nlinarith
  · rcases lt_or_gt_of_ne hd with n | n
    · rw [div_le_iff_of_neg n]
      by_contra hc
      have a2 : 0 < p + ts * d - c := by linarith
      have a1 : 0 < p + tv * d - c := by nlinarith
      nlinarith
    · rw [div_le_iff₀ n]
      by_contra hc
      have a2 : p + ts * d - c < 0 := by linarith
      have a1 : p + tv * d - c < 0 := by nlinarith
      nlinarith
  · field_simp
  · have e1 : p + tw * d - (p + tv * d) = (tw - tv) * d := by ring
    have e2 : q + tw * e - (q + tv * e) = (tw - tv) * e := by ring
    rw [e1, e2]
    field_simp
    ring

/-- The x phase on one endpoint: `va` moves along the line toward a point of
the line whose x is within bounds, and its x is within bounds afterwards. -/
theorem clip_x_phase (A D va vb : vec2f_t) (tv ts tw : ℚ) (hva : va = on_line A D tv)
    (hvb : vb = on_line A D tw) (h1 : tv ≤ ts) (h2 : ts ≤ tw)
    (hP1 : 8 ≤ (on_line A D ts).x) (hP2 : (on_line A D ts).x ≤ 504) :
    ∃ t : ℚ, tv ≤ t ∧ t ≤ ts ∧
      clip_x_hi (classify va) (clip_x_lo (classify va) va vb) vb = on_line A D t ∧
      8 ≤ (on_line A D t).x ∧ (on_line A D t).x ≤ 504 := by
  obtain ⟨b1, b2⟩ := classify_x_bits va
  by_cases l : va.x < 8
  · have nh : ¬ va.x > 504 := by linarith
    rw [clip_x_lo_pos _ _ _ (b1.mpr l), clip_x_hi_neg _ _ _ (fun h => nh (b2.mp h))]
    subst hva hvb
    simp only [on_line] at l hP1 hP2 ⊢
    obtain ⟨s1, s2, s3, s4⟩ :=
      line_step A.x D.x A.y D.y tv ts tw 8 h1 h2 (by nlinarith) (ne_of_lt l)
    refine ⟨(8 - A.x) / D.x, s1, s2, ?_, ?_, ?_⟩
    · rw [vec2f_t.mk.injEq]
      exact ⟨s3.symm, s4⟩
    · rw [s3]
    · rw [s3]; norm_num
  · by_cases h : va.x > 504
    · rw [clip_x_lo_neg _ _ _ (fun q => l (b1.mp q)), clip_x_hi_pos _ _ _ (b2.mpr h)]
      subst hva hvb
      simp only [on_line] at h hP1 hP2 ⊢
      obtain ⟨s1, s2, s3, s4⟩ :=
        line_step A.x D.x A.y D.y tv ts tw 504 h1 h2 (by nlinarith) (ne_of_gt h)
      refine ⟨(504 - A.x) / D.x, s1, s2, ?_, ?_, ?_⟩
      · rw [vec2f_t.mk.injEq]
        exact ⟨s3.symm, by linarith⟩
      · rw [s3]; norm_num
      · rw [s3]
    · rw [clip_x_lo_neg _ _ _ (fun q => l (b1.mp q)), clip_x_hi_neg _ _ _ (fun q => h (b2.mp q))]
      subst hva
      exact ⟨tv, le_refl _, h1, rfl, not_lt.mp l, not_lt.mp h⟩

/-- The y phase on one endpoint: `va` moves along the line toward a point of
the line whose y is within bounds, and its y is within bounds afterwards. -/
theorem clip_y_phase (A D va vb : vec2f_t) (tv ts tw : ℚ) (hva : va = on_line A D tv)
    (hvb : vb = on_line A D tw) (h1 : tv ≤ ts) (h2 : ts ≤ tw)
    (hP1 : 8 ≤ (on_line A D ts).y) (hP2 : (on_line A D ts).y ≤ 504) :
    ∃ t : ℚ, tv ≤ t ∧ t ≤ ts ∧
      clip_y_hi (classify_y va) (clip_y_lo (classify_y va) va vb) vb = on_line A D t ∧
      8 ≤ (on_line A D t).y ∧ (on_line A D t).y ≤ 504 := by
  obtain ⟨b1, b2⟩ := classify_y_bits va
  by_cases l : va.y < 8
  · have nh : ¬ va.y > 504 := by linarith
    rw [clip_y_lo_pos _ _ _ (b1.mpr l), clip_y_hi_neg _ _ _ (fun h => nh (b2.mp h))]
    subst hva hvb
    simp only [on_line] at l hP1 hP2 ⊢
    obtain ⟨s1, s2, s3, s4⟩ :=
      line_step A.y D.y A.x D.x tv ts tw 8 h1 h2 (by nlinarith) (ne_of_lt l)
    refine ⟨(8 - A.y) / D.y, s1, s2, ?_, ?_, ?_⟩
    · rw [vec2f_t.mk.injEq]
      exact ⟨s4, s3.symm⟩
    · rw [s3]
    · rw [s3]; norm_num
  · by_cases h : va.y > 504
    · rw [clip_y_lo_neg _ _ _ (fun q => l (b1.mp q)), clip_y_hi_pos _ _ _ (b2.mpr h)]
      subst hva hvb
      simp only [on_line] at h hP1 hP2 ⊢
      obtain ⟨s1, s2, s3, s4⟩ :=
        line_step A.y D.y A.x D.x tv ts tw 504 h1 h2 (by nlinarith) (ne_of_gt h)
      refine ⟨(504 - A.y) / D.y, s1, s2, ?_, ?_, ?_⟩
      · rw [vec2f_t.mk.injEq]
        exact ⟨by linarith, s3.symm⟩
      · rw [s3]; norm_num
      · rw [s3]
    · rw [clip_y_lo_neg _ _ _ (fun q => l (b1.mp q)), clip_y_hi_neg _ _ _ (fun q => h (b2.mp q))]
      subst hva
      exact ⟨tv, le_refl _, h1, rfl, not_lt.mp l, not_lt.mp h⟩

theorem clip_x_phase_rev (A D va vb : vec2f_t) (tv ts tw : ℚ) (hva : va = on_line A D tv)
    (hvb : vb = on_line A D tw) (h1 : tw ≤ ts) (h2 : ts ≤ tv)
    (hP1 : 8 ≤ (on_line A D ts).x) (hP2 : (on_line A D ts).x ≤ 504) :
    ∃ t : ℚ, ts ≤ t ∧ t ≤ tv ∧
      clip_x_hi (classify va) (clip_x_lo (classify va) va vb) vb = on_line A D t ∧
      8 ≤ (on_line A D t).x ∧ (on_line A D t).x ≤ 504 := by
  rw [on_line_rev A D ts] at hP1 hP2
  obtain ⟨t, p1, p2, e, q1, q2⟩ := clip_x_phase (on_line A D 1) ⟨-D.x, -D.y⟩ va vb (1 - tv)
    (1 - ts) (1 - tw) (hva.trans (on_line_rev A D tv)) (hvb.trans (on_line_rev A D tw))
    (by linarith) (by linarith) hP1 hP2
  have er : on_line (on_line A D 1) ⟨-D.x, -D.y⟩ t = on_line A D (1 - t) := by
    rw [on_line_rev A D (1 - t), sub_sub_cancel]
  rw [er] at e q1 q2
  exact ⟨1 - t, by linarith, by linarith, e, q1, q2⟩

theorem clip_y_phase_rev (A D va vb : vec2f_t) (tv ts tw : ℚ) (hva : va = on_line A D tv)
    (hvb : vb = on_line A D tw) (h1 : tw ≤ ts) (h2 : ts ≤ tv)
    (hP1 : 8 ≤ (on_line A D ts).y) (hP2 : (on_line A D ts).y ≤ 504) :
    ∃ t : ℚ, ts ≤ t ∧ t ≤ tv ∧
      clip_y_hi (classify_y va) (clip_y_lo (classify_y va) va vb) vb = on_line A D t ∧
      8 ≤ (on_line A D t).y ∧ (on_line A D t).y ≤ 504 := by
  rw [on_line_rev A D ts] at hP1 hP2
  obtain ⟨t, p1, p2, e, q1, q2⟩ := clip_y_phase (on_line A D 1) ⟨-D.x, -D.y⟩ va vb (1 - tv)
    (1 - ts) (1 - tw) (hva.trans (on_line_rev A D tv)) (hvb.trans (on_line_rev A D tw))
    (by linarith) (by linarith) hP1 hP2
  have er : on_line (on_line A D 1) ⟨-D.x, -D.y⟩ t = on_line A D (1 - t) := by
    rw [on_line_rev A D (1 - t), sub_sub_cancel]
  rw [er] at e q1 q2
  exact ⟨1 - t, by linarith, by linarith, e, q1, q2⟩

/-- A linear function that is within `[lo, hi]` at two parameters is within
`[lo, hi]` between them. -/
theorem line_between (p d lo hi t1 t2 t3 : ℚ) (h1 : t1 ≤ t2) (h2 : t2 ≤ t3)
    (a1 : lo ≤ p + t1 * d) (a2 : p + t1 * d ≤ hi) (b1 : lo ≤ p + t3 * d) (b2 : p + t3 * d ≤ hi) :
    lo ≤ p + t2 * d ∧ p + t2 * d ≤ hi := by
  rcases le_total 0 d with h | h
  · constructor <;> nlinarith [mul_le_mul_of_nonneg_right h1 h, mul_le_mul_of_nonneg_right h2 h]
  · constructor <;>
      nlinarith [mul_le_mul_of_nonpos_right h1 h, mul_le_mul_of_nonpos_right h2 h]

/-- A segment whose endpoints violate one and the same boundary has no point in
the clip rectangle. -/
theorem shared_outside (a b : vec2f_t) (t : ℚ) (h0 : 0 ≤ t) (h1 : t ≤ 1)
    (h : (a.x < 8 ∧ b.x < 8) ∨ (a.x > 504 ∧ b.x > 504) ∨ (a.y < 8 ∧ b.y < 8) ∨
      (a.y > 504 ∧ b.y > 504)) : ¬ in_clip_rect (vec2f_t.lerp a b t) := by
  intro hin
  simp only [in_clip_rect, vec2f_t.lerp, util_lerp, min_x, max_x, min_y, max_y] at hin
  obtain ⟨i1, i2, i3, i4⟩ := hin
  have h1' : 0 ≤ 1 - t := by linarith
  rcases h with ⟨p, q⟩ | ⟨p, q⟩ | ⟨p, q⟩ | ⟨p, q⟩ <;>
    nlinarith [mul_nonneg h1' (le_of_lt (sub_pos.mpr p)), mul_nonneg h0 (le_of_lt (sub_pos.mpr q))]

/-- The two phases of `clip_line` on a segment that has a point in the clip
rectangle leave both endpoints in the rectangle. -/
theorem clip_phases_meet (a b : vec2f_t) (t : ℚ) (h0 : 0 ≤ t) (h1 : t ≤ 1)
    (hin : in_clip_rect (vec2f_t.lerp a b t)) :
    in_clip_rect (clip_line_y (clip_line_x a b).1 (clip_line_x a b).2).1 ∧
    in_clip_rect (clip_line_y (clip_line_x a b).1 (clip_line_x a b).2).2 := by
  have hP : vec2f_t.lerp a b t = on_line a ⟨b.x - a.x, b.y - a.y⟩ t := by
    simp only [vec2f_t.lerp, util_lerp, on_line, vec2f_t.mk.injEq]
    constructor <;> ring
  rw [hP] at hin
  obtain ⟨px1, px2, py1, py2⟩ := hin
  simp only [min_x, max_x, min_y, max_y] at px1 px2 py1 py2
  have ea : a = on_line a ⟨b.x - a.x, b.y - a.y⟩ 0 := by simp [on_line]
  have eb : b = on_line a ⟨b.x - a.x, b.y - a.y⟩ 1 := by simp [on_line]
  obtain ⟨ta, ta0, ta1, ea1, xa1, xa2⟩ := clip_x_phase _ _ a b 0 t 1 ea eb h0 h1 px1 px2
  obtain ⟨tb, tb0, tb1, eb1, xb1, xb2⟩ := clip_x_phase_rev _ _ b _ 1 t ta eb ea1 ta1 h1 px1 px2
  obtain ⟨ta2, ta20, ta21, ea2, ya1, ya2⟩ := clip_y_phase _ _ _ _ ta t tb ea1 eb1 ta1 tb0 py1 py2
  obtain ⟨tb2, tb20, tb21, eb2, yb1, yb2⟩ :=
    clip_y_phase_rev _ _ _ _ tb t ta2 eb1 ea2 ta21 tb0 py1 py2
  have e : clip_line_y (clip_line_x a b).1 (clip_line_x a b).2 =
      (on_line a ⟨b.x - a.x, b.y - a.y⟩ ta2, on_line a ⟨b.x - a.x, b.y - a.y⟩ tb2) := by
    unfold clip_line_y clip_line_x
    simp only
    rw [eb2, ea2]
  rw [e]
  simp only [in_clip_rect, min_x, max_x, min_y, max_y]
  simp only [on_line] at xa1 xa2 xb1 xb2 ya1 ya2 yb1 yb2 px1 px2 ⊢
  obtain ⟨u1, u2⟩ := line_between a.x (b.x - a.x) 8 504 ta ta2 t ta20 ta21 xa1 xa2 px1 px2
  obtain ⟨w1, w2⟩ := line_between a.x (b.x - a.x) 8 504 t tb2 tb tb20 tb21 px1 px2 xb1 xb2
  exact ⟨⟨u1, u2, ya1, ya2⟩, ⟨w1, w2, yb1, yb2⟩⟩

/-- With rounded arithmetic too, after `clip_y_lo` and `clip_y_hi` with the
outcode of `va` the y coordinate is within bounds: it is assigned, not computed. -/
theorem clip_y_bounds_r (rnd : ℚ → ℚ) (va vb : vec2f_t) :
    8 ≤ (clip_y_hi_r rnd (classify_y va) (clip_y_lo_r rnd (classify_y va) va vb) vb).y ∧
    (clip_y_hi_r rnd (classify_y va) (clip_y_lo_r rnd (classify_y va) va vb) vb).y ≤ 504 := by
  obtain ⟨b1, b2⟩ := classify_y_bits va
  unfold clip_y_lo_r clip_y_hi_r
  by_cases l : va.y < 8
  · have nh : ¬ va.y > 504 := by linarith
    simp only [if_pos (b1.mpr l), if_neg (fun h => nh (b2.mp h)), min_y]
    norm_num
  · by_cases h : va.y > 504
    · simp only [if_neg (fun q => l (b1.mp q)), if_pos (b2.mpr h), max_y]
      norm_num
    · simp only [if_neg (fun q => l (b1.mp q)), if_neg (fun q => h (b2.mp q))]
      exact ⟨not_lt.mp l, not_lt.mp h⟩

/-- With rounded arithmetic too, when `clip_line` returns false both endpoints
have `8 ≤ y ≤ 504`. -/
theorem clip_line_r_rows (rnd : ℚ → ℚ) (a b : vec2f_t) :
    (clip_line_r rnd a b).1 = false →
      8 ≤ (clip_line_r rnd a b).2.1.y ∧ (clip_line_r rnd a b).2.1.y ≤ 504 ∧
      8 ≤ (clip_line_r rnd a b).2.2.y ∧ (clip_line_r rnd a b).2.2.y ≤ 504 := by
  intro h
  unfold clip_line_r at h ⊢
  simp only at h ⊢
  split_ifs at h ⊢ with c1 c2
  · obtain ⟨za, zb⟩ := (outcode_or _ (classify_lt a) _ (classify_lt b)).mp c1
    obtain ⟨_, _, p3, p4⟩ := (classify_zero a).mp za
    obtain ⟨_, _, q3, q4⟩ := (classify_zero b).mp zb
    exact ⟨p3, p4, q3, q4⟩
  · obtain ⟨p1, p2⟩ := clip_y_bounds_r rnd
      (clip_x_hi_r rnd (classify a) (clip_x_lo_r rnd (classify a) a b) b)
      (clip_x_hi_r rnd (classify b) (clip_x_lo_r rnd (classify b) b
        (clip_x_hi_r rnd (classify a) (clip_x_lo_r rnd (classify a) a b) b))
        (clip_x_hi_r rnd (classify a) (clip_x_lo_r rnd (classify a) a b) b))
    obtain ⟨q1, q2⟩ := clip_y_bounds_r rnd
      (clip_x_hi_r rnd (classify b) (clip_x_lo_r rnd (classify b) b
        (clip_x_hi_r rnd (classify a) (clip_x_lo_r rnd (classify a) a b) b))
        (clip_x_hi_r rnd (classify a) (clip_x_lo_r rnd (classify a) a b) b))
      (clip_y_hi_r rnd (classify_y
          (clip_x_hi_r rnd (classify a) (clip_x_lo_r rnd (classify a) a b) b))
        (clip_y_lo_r rnd (classify_y
            (clip_x_hi_r rnd (classify a) (clip_x_lo_r rnd (classify a) a b) b))
          (clip_x_hi_r rnd (classify a) (clip_x_lo_r rnd (classify a) a b) b)
          (clip_x_hi_r rnd (classify b) (clip_x_lo_r rnd (classify b) b
            (clip_x_hi_r rnd (classify a) (clip_x_lo_r rnd (classify a) a b) b))
            (clip_x_hi_r rnd (classify a) (clip_x_lo_r rnd (classify a) a b) b)))
        (clip_x_hi_r rnd (classify b) (clip_x_lo_r rnd (classify b) b
          (clip_x_hi_r rnd (classify a) (clip_x_lo_r rnd (classify a) a b) b))
          (clip_x_hi_r rnd (classify a) (clip_x_lo_r rnd (classify a) a b) b)))
    exact ⟨p1, p2, q1, q2⟩

/-- C21, counterexample: for the segment from `(0,12)` to `(12,0)`, which passes
the corner `(8,8)` of the clip rectangle on the outside, `clip_line` returns
false and leaves both endpoints at `(4,8)`, where `x < 8`, in exact and in
binary32 arithmetic.  With binary32 rounding an endpoint can end out of bounds
for a segment that meets the rectangle too: the segment from `(14,-37)` to
`(6,23)` passes through the corner `(8,8)`, and `clip_line` returns false with
`a = (8 - 2^-21, 8)`. -/
theorem clip_line_bounds_counterexample :
    (clip_line ⟨0, 12⟩ ⟨12, 0⟩).1 = false ∧ (clip_line ⟨0, 12⟩ ⟨12, 0⟩).2.1 = ⟨4, 8⟩ ∧
    (clip_line ⟨0, 12⟩ ⟨12, 0⟩).2.2 = ⟨4, 8⟩ ∧ ¬ in_clip_rect (clip_line ⟨0, 12⟩ ⟨12, 0⟩).2.1 ∧
    clip_line_r round32 ⟨0, 12⟩ ⟨12, 0⟩ = (false, ⟨4, 8⟩, ⟨4, 8⟩) ∧
    vec2f_t.lerp ⟨14, -37⟩ ⟨6, 23⟩ (3 / 4) = ⟨8, 8⟩ ∧
    clip_line_r round32 ⟨14, -37⟩ ⟨6, 23⟩ = (false, ⟨8 - 1 / 2097152, 8⟩, ⟨8, 8⟩) ∧
    ¬ in_clip_rect (clip_line_r round32 ⟨14, -37⟩ ⟨6, 23⟩).2.1 := by
  have e : clip_line ⟨0, 12⟩ ⟨12, 0⟩ = (false, ⟨4, 8⟩, ⟨4, 8⟩) := by decide!
  have e2 : clip_line_r round32 ⟨14, -37⟩ ⟨6, 23⟩ = (false, ⟨8 - 1 / 2097152, 8⟩, ⟨8, 8⟩) := by
    decide!
  rw [e, e2]
  refine ⟨rfl, rfl, rfl, ?_, by decide!, by decide!, rfl, ?_⟩
  · simp only [in_clip_rect, min_x]
    norm_num
  · simp only [in_clip_rect, min_x]
    norm_num

/-- C21, amended: when `clip_line` returns false both endpoints have
`8 ≤ y ≤ 504` afterwards, with exact arithmetic and with arithmetic rounded by
any `rnd` (overflow to an infinity is outside the model); in exact arithmetic,
when the segment has a point in the clip rectangle, `clip_line` returns false
and both endpoints lie in the rectangle afterwards (`8 ≤ x ≤ 504` as well). -/
theorem clip_line_bounds (a b : vec2f_t) :
    ((clip_line a b).1 = false →
      8 ≤ (clip_line a b).2.1.y ∧ (clip_line a b).2.1.y ≤ 504 ∧
      8 ≤ (clip_line a b).2.2.y ∧ (clip_line a b).2.2.y ≤ 504) ∧
    (¬ segment_outside a b →
      (clip_line a b).1 = false ∧ in_clip_rect (clip_line a b).2.1 ∧
      in_clip_rect (clip_line a b).2.2) ∧
    ∀ rnd : ℚ → ℚ, (clip_line_r rnd a b).1 = false →
      8 ≤ (clip_line_r rnd a b).2.1.y ∧ (clip_line_r rnd a b).2.1.y ≤ 504 ∧
      8 ≤ (clip_line_r rnd a b).2.2.y ∧ (clip_line_r rnd a b).2.2.y ≤ 504 := by
  refine ⟨?_, ?_, fun rnd => clip_line_r_rows rnd a b⟩
  · intro h
    rw [clip_line_phases] at h ⊢
    split_ifs at h ⊢ with c1 c2
    · obtain ⟨za, zb⟩ := (outcode_or _ (classify_lt a) _ (classify_lt b)).mp c1
      obtain ⟨_, _, p3, p4⟩ := (classify_zero a).mp za
      obtain ⟨_, _, q3, q4⟩ := (classify_zero b).mp zb
      exact ⟨p3, p4, q3, q4⟩
    · obtain ⟨p1, p2⟩ := clip_y_bounds (clip_line_x a b).1 (clip_line_x a b).2
      obtain ⟨q1, q2⟩ := clip_y_bounds (clip_line_x a b).2
        (clip_y_hi (classify_y (clip_line_x a b).1)
          (clip_y_lo (classify_y (clip_line_x a b).1) (clip_line_x a b).1 (clip_line_x a b).2)
          (clip_line_x a b).2)
      exact ⟨p1, p2, q1, q2⟩
  · intro h
    unfold segment_outside at h
    push_neg at h
    obtain ⟨t, h0, h1, hin⟩ := h
    have hf : (clip_line a b).1 = false := by
      cases hc : (clip_line a b).1
      · rfl
      · exact absurd hin (shared_outside a b t h0 h1 ((clip_line_true_iff a b).mp hc))
    refine ⟨hf, ?_⟩
    rw [clip_line_phases] at hf ⊢
    split_ifs at hf ⊢ with c1 c2
    · obtain ⟨za, zb⟩ := (outcode_or _ (classify_lt a) _ (classify_lt b)).mp c1
      have ra := (classify_zero a).mp za
      have rb := (classify_zero b).mp zb
      simp only [in_clip_rect, min_x, max_x, min_y, max_y]
      exact ⟨ra, rb⟩
    · exact clip_phases_meet a b t h0 h1 hin

/-! ## `clip_line` and `draw_line`: failing inputs -/

/-- C27, failing input: the segment from `(0,16)` to `(8,0)` is neither accepted
nor rejected by the outcode tests; the x phase moves `a` onto `b = (8,0)`, whose
y is below the rectangle, so `clip_y_lo(ca2, a, b)` is applied and divides by
`vb.y - va.y = 0`. -/
theorem clip_line_zero_divisor :
    0 ≠ (classify ⟨0, 16⟩ ||| classify ⟨8, 0⟩) ∧ (clip_line ⟨0, 16⟩ ⟨8, 0⟩).1 = false ∧
    clip_line_x ⟨0, 16⟩ ⟨8, 0⟩ = (⟨8, 0⟩, ⟨8, 0⟩) ∧
    classify_y (clip_line_x ⟨0, 16⟩ ⟨8, 0⟩).1 &&& CLIP_Y_LO ≠ 0 ∧
    (clip_line_x ⟨0, 16⟩ ⟨8, 0⟩).2.y - (clip_line_x ⟨0, 16⟩ ⟨8, 0⟩).1.y = 0 := by
  decide!

/-- C22, failing input: for the segment from `(10,10)` to `(20,10)`, inside the
clip rectangle with integer endpoints, `draw_line` plots the eleven pixels
`x = 9..19` of row 10: position 9, before the start, is drawn (the x-major
branch starts at `floor(a.x) - 1`); positions 8 and 20 are not. -/
theorem draw_line_start_before :
    (∀ x : Int, 9 ≤ x → x ≤ 19 →
      (draw_line empty_surface ⟨10, 10⟩ ⟨20, 10⟩ 0xAABBCC).pixels (x + 10 * 512) = 0xAABBCC) ∧
    (draw_line empty_surface ⟨10, 10⟩ ⟨20, 10⟩ 0xAABBCC).pixels (20 + 10 * 512) = 0 ∧
    (draw_line empty_surface ⟨10, 10⟩ ⟨20, 10⟩ 0xAABBCC).pixels (8 + 10 * 512) = 0 := by
  refine ⟨?_, by decide!, by decide!⟩
  intro x h1 h2
  have : x = 9 ∨ x = 10 ∨ x = 11 ∨ x = 12 ∨ x = 13 ∨ x = 14 ∨ x = 15 ∨ x = 16 ∨ x = 17 ∨
      x = 18 ∨ x = 19 := by omega
  rcases this with h | h | h | h | h | h | h | h | h | h | h <;> subst h <;> decide!

/-- C23, failing inputs: for the y-major segment from `(10, 10.5)` to
`(15, 20.5)` the pixel plotted in the first row 10 is at column 10, while the
line is at `x = 9.75` there (floor 9): the accumulator is converted before the
alignment correction.  For the x-major segment from `(10,10)` to `(20,15)` the
pixel plotted in the first column 9 is at row 10, while the line is at
`y = 9.5` there (floor 9). -/
theorem draw_line_first_pixel :
    (draw_line empty_surface ⟨10, 21 / 2⟩ ⟨15, 41 / 2⟩ 0xAABBCC).pixels (10 + 10 * 512) = 0xAABBCC ∧
    (draw_line empty_surface ⟨10, 21 / 2⟩ ⟨15, 41 / 2⟩ 0xAABBCC).pixels (9 + 10 * 512) = 0 ∧
    ⌊(10 : ℚ) + (15 - 10) / (41 / 2 - 21 / 2) * (10 - 21 / 2)⌋ = 9 ∧
    (draw_line empty_surface ⟨10, 10⟩ ⟨20, 15⟩ 0xAABBCC).pixels (9 + 10 * 512) = 0xAABBCC ∧
    (draw_line empty_surface ⟨10, 10⟩ ⟨20, 15⟩ 0xAABBCC).pixels (9 + 9 * 512) = 0 ∧
    ⌊(10 : ℚ) + (15 - 10) / (20 - 10) * (9 - 10)⌋ = 9 := by
  refine ⟨by decide!, by decide!, by decide!, by decide!, by decide!, by decide!⟩

/-! ## `scan_triangle`: order of the vertices -/

end Raster
